import Mathlib

/-!
# EDRH journal monitor

A shallow embedding of `JournalMonitor` (src/EDRH_m/journalmonitor.cpp) and
theorems about its identity and location rules, its tailer, its journal file
index, `switchToCommander`, the scans of the journal folder and the lookup of
a journal's commander.

Conventions of the embedding

* `QString` is `String`; a null `QString` and an empty one are both `""`
  (`isEmpty` and `==` do not tell them apart in Qt either).
* A member function `void JournalMonitor::f(args)` becomes
  `f : JournalMonitor → args → JournalMonitor × List Signal`: the object after
  the call and the signals emitted by the call, in emission order.
  `qDebug()` output is not part of the model.
* The Qt JSON decoder is library code: the functions that decode a line take
  it as the parameter `fromJson`, `none` standing for
  `parseError.error != QJsonParseError::NoError`.  `QJsonDocument.fromJson`
  below is a concrete decoder used to run the model on literal journal lines.
  `QDateTime::fromString` is the parameter `fromString` in the same way, with
  the concrete reader `isoInstant`.
* The disk is a `FileSystem` value, one snapshot per call: what `QDir`,
  `QFileInfo` and `QFile` answer during that call.
* The functions that read the tailed journal return a `Step`, which adds the
  lines handed to `processJournalLine` to the object and the signals.
-/

namespace EDRH

/-! ## Qt JSON values -/

/-- The value type of Qt JSON (`QJsonValue::Type`).  A number is kept as the
decimal `mantissa * 10 ^ exponent`; the monitor never inspects numbers. -/
inductive QJsonValue where
  | null
  | bool (b : Bool)
  | double (mantissa : Int) (exponent : Int)
  | string (s : String)
  | array (items : List QJsonValue)
  | object (members : List (String × QJsonValue))
  | undefined

mutual
/-- Decidable equality of JSON values, by structural recursion. -/
def QJsonValue.decEq : (a b : QJsonValue) → Decidable (a = b)
  | .null, .null => isTrue rfl
  | .undefined, .undefined => isTrue rfl
  | .bool a, .bool b =>
    if h : a = b then isTrue (by rw [h]) else isFalse (by intro e; cases e; exact h rfl)
  | .double a c, .double b d =>
    if h : a = b ∧ c = d then isTrue (by rw [h.1, h.2])
    else isFalse (by intro e; cases e; exact h ⟨rfl, rfl⟩)
  | .string a, .string b =>
    if h : a = b then isTrue (by rw [h]) else isFalse (by intro e; cases e; exact h rfl)
  | .array a, .array b =>
    match QJsonValue.decEqList a b with
    | isTrue h => isTrue (by rw [h])
    | isFalse h => isFalse (by intro e; cases e; exact h rfl)
  | .object a, .object b =>
    match QJsonValue.decEqMembers a b with
    | isTrue h => isTrue (by rw [h])
    | isFalse h => isFalse (by intro e; cases e; exact h rfl)
  | .null, .bool _ | .null, .double _ _ | .null, .string _ | .null, .array _
  | .null, .object _ | .null, .undefined
  | .bool _, .null | .bool _, .double _ _ | .bool _, .string _ | .bool _, .array _
  | .bool _, .object _ | .bool _, .undefined
  | .double _ _, .null | .double _ _, .bool _ | .double _ _, .string _
  | .double _ _, .array _ | .double _ _, .object _ | .double _ _, .undefined
  | .string _, .null | .string _, .bool _ | .string _, .double _ _ | .string _, .array _
  | .string _, .object _ | .string _, .undefined
  | .array _, .null | .array _, .bool _ | .array _, .double _ _ | .array _, .string _
  | .array _, .object _ | .array _, .undefined
  | .object _, .null | .object _, .bool _ | .object _, .double _ _ | .object _, .string _
  | .object _, .array _ | .object _, .undefined
  | .undefined, .null | .undefined, .bool _ | .undefined, .double _ _
  | .undefined, .string _ | .undefined, .array _ | .undefined, .object _ =>
    isFalse (by intro e; cases e)
/-- Decidable equality of JSON arrays. -/
def QJsonValue.decEqList : (a b : List QJsonValue) → Decidable (a = b)
  | [], [] => isTrue rfl
  | [], _ :: _ | _ :: _, [] => isFalse (by intro e; cases e)
  | x :: xs, y :: ys =>
    match QJsonValue.decEq x y, QJsonValue.decEqList xs ys with
    | isTrue h₁, isTrue h₂ => isTrue (by rw [h₁, h₂])
    | isFalse h, _ => isFalse (by intro e; cases e; exact h rfl)
    | _, isFalse h => isFalse (by intro e; cases e; exact h rfl)
/-- Decidable equality of JSON member lists. -/
def QJsonValue.decEqMembers : (a b : List (String × QJsonValue)) → Decidable (a = b)
  | [], [] => isTrue rfl
  | [], _ :: _ | _ :: _, [] => isFalse (by intro e; cases e)
  | (k, x) :: xs, (l, y) :: ys =>
    if hk : k = l then
      match QJsonValue.decEq x y, QJsonValue.decEqMembers xs ys with
      | isTrue h₁, isTrue h₂ => isTrue (by rw [hk, h₁, h₂])
      | isFalse h, _ => isFalse (by intro e; cases e; exact h rfl)
      | _, isFalse h => isFalse (by intro e; cases e; exact h rfl)
    else isFalse (by intro e; cases e; exact hk rfl)
end

instance : DecidableEq QJsonValue := QJsonValue.decEq

/-- Qt function `QJsonValue::toString()`: the string of a string value, and the null
(empty) string for every other type. -/
def QJsonValue.toString : QJsonValue → String
  | .string s => s
  | _ => ""

/-- A `QJsonObject`: its members, key and value. -/
abbrev QJsonObject := List (String × QJsonValue)

/-- Qt function `QJsonObject::value(key)`: the value stored under `key`, and
`QJsonValue::Undefined` when the key is absent. -/
def QJsonObject.value (o : QJsonObject) (key : String) : QJsonValue :=
  match o.find? (fun kv => kv.1 == key) with
  | some kv => kv.2
  | none => .undefined

/-- Qt function `QJsonObject::contains(key)`. -/
def QJsonObject.contains (o : QJsonObject) (key : String) : Bool :=
  o.any (fun kv => kv.1 == key)

/-- A successfully decoded `QJsonDocument`: it holds an object or an array
(or nothing). -/
inductive QJsonDocument where
  | empty
  | ofArray (items : List QJsonValue)
  | ofObject (o : QJsonObject)
  deriving DecidableEq

/-- Qt function `QJsonDocument::object()`: the object of the document, and an empty object
when the document holds an array. -/
def QJsonDocument.object : QJsonDocument → QJsonObject
  | .ofObject o => o
  | _ => []

/-- Qt function `QString::isEmpty()`. -/
def isEmpty (s : String) : Bool := decide (s = "")

/-! ## A concrete JSON decoder

`QJsonDocument.fromJson` decodes RFC 8259 text whose top-level value is an
object or an array, the two shapes the Qt decoder accepts for a document.
It serves to run the model on literal journal lines; the theorems about the
handlers hold for every decoder. -/

/-- The double quote character. -/
def dquote : Char := Char.ofNat 34

/-- The backslash character. -/
def backslash : Char := Char.ofNat 92

/-- JSON insignificant whitespace: space, tab, line feed, carriage return. -/
def isJsonSpace (c : Char) : Bool :=
  c.toNat == 32 || c.toNat == 9 || c.toNat == 10 || c.toNat == 13

/-- Drop leading JSON whitespace. -/
def skipWs : List Char → List Char
  | [] => []
  | c :: cs => if isJsonSpace c then skipWs cs else c :: cs

/-- Remove the literal `p` from the front of the input, if it is there. -/
def dropLiteral : List Char → List Char → Option (List Char)
  | [], cs => some cs
  | _ :: _, [] => none
  | p :: ps, c :: cs => if p = c then dropLiteral ps cs else none

/-- The value of a hexadecimal digit. -/
def hexDigit (c : Char) : Option Nat :=
  if 48 ≤ c.toNat ∧ c.toNat ≤ 57 then some (c.toNat - 48)
  else if 97 ≤ c.toNat ∧ c.toNat ≤ 102 then some (c.toNat - 87)
  else if 65 ≤ c.toNat ∧ c.toNat ≤ 70 then some (c.toNat - 55)
  else none

/-- The character named by the four hexadecimal digits of a `\u` escape. -/
def hex4 (a b c d : Char) : Option Char :=
  match hexDigit a, hexDigit b, hexDigit c, hexDigit d with
  | some x, some y, some z, some w => some (Char.ofNat (((x * 16 + y) * 16 + z) * 16 + w))
  | _, _, _, _ => none

/-- The character named by a one-letter escape. -/
def simpleEscape (c : Char) : Option Char :=
  if c = dquote then some dquote
  else if c = backslash then some backslash
  else if c = '/' then some '/'
  else if c = 'b' then some (Char.ofNat 8)
  else if c = 'f' then some (Char.ofNat 12)
  else if c = 'n' then some (Char.ofNat 10)
  else if c = 'r' then some (Char.ofNat 13)
  else if c = 't' then some (Char.ofNat 9)
  else none

/-- Decode a string after its opening quote: the string and the input left
after the closing quote.  `acc` holds the characters read so far, last first. -/
def parseStringBody : List Char → List Char → Option (String × List Char)
  | [], _ => none
  | [c], acc => if c = dquote then some (String.mk acc.reverse, []) else none
  | c :: e :: cs, acc =>
    if c = dquote then some (String.mk acc.reverse, e :: cs)
    else if c = backslash then
      if e = 'u' then
        match cs with
        | h₁ :: h₂ :: h₃ :: h₄ :: rest =>
          match hex4 h₁ h₂ h₃ h₄ with
          | some u => parseStringBody rest (u :: acc)
          | none => none
        | _ => none
      else
        match simpleEscape e with
        | some u => parseStringBody cs (u :: acc)
        | none => none
    else parseStringBody (e :: cs) (c :: acc)

/-- Read a run of decimal digits: their value, their count, the input left. -/
def parseDigits : List Char → Nat → Nat → Nat × Nat × List Char
  | [], v, n => (v, n, [])
  | c :: cs, v, n =>
    if c.isDigit then parseDigits cs (v * 10 + (c.toNat - 48)) (n + 1) else (v, n, c :: cs)

/-- Decode a number `-? int frac? exp?` as mantissa and decimal exponent. -/
def parseNumber (cs : List Char) : Option (QJsonValue × List Char) :=
  let neg := cs.head? = some '-'
  let cs₁ := if neg then cs.tail else cs
  match parseDigits cs₁ 0 0 with
  | (_, 0, _) => none
  | (i, ni, cs₂) =>
    if ni > 1 ∧ cs₁.head? = some '0' then none else
    let fr : Option (Nat × Nat × List Char) :=
      match cs₂ with
      | '.' :: r =>
        match parseDigits r i 0 with
        | (_, 0, _) => none
        | (m, nf, r₁) => some (m, nf, r₁)
      | _ => some (i, 0, cs₂)
    match fr with
    | none => none
    | some (m, nf, cs₃) =>
      let mant : Int := if neg then -(m : Int) else (m : Int)
      match cs₃ with
      | e :: r =>
        if e = 'e' ∨ e = 'E' then
          let eneg := r.head? = some '-'
          let r₁ := if r.head? = some '-' ∨ r.head? = some '+' then r.tail else r
          match parseDigits r₁ 0 0 with
          | (_, 0, _) => none
          | (x, _, r₂) =>
            some (.double mant ((if eneg then -(x : Int) else (x : Int)) - nf), r₂)
        else some (.double mant (-(nf : Int)), cs₃)
      | [] => some (.double mant (-(nf : Int)), [])

/-- Qt function `QJsonObject::insert`: replace the value of an existing key, or add the
member. -/
def QJsonObject.insert : QJsonObject → String → QJsonValue → QJsonObject
  | [], k, v => [(k, v)]
  | (k₀, v₀) :: o, k, v =>
    if k₀ = k then (k, v) :: o else (k₀, v₀) :: QJsonObject.insert o k v

mutual
/-- Decode one JSON value; the fuel bounds the nesting and element count. -/
def parseValue : Nat → List Char → Option (QJsonValue × List Char)
  | 0, _ => none
  | fuel + 1, cs =>
    match skipWs cs with
    | [] => none
    | c :: rest =>
      if c = '{' then
        match skipWs rest with
        | d :: rest₁ =>
          if d = '}' then some (.object [], rest₁)
          else
            match parseMembers fuel (d :: rest₁) [] with
            | some (o, r) => some (.object o, r)
            | none => none
        | [] => none
      else if c = '[' then
        match skipWs rest with
        | d :: rest₁ =>
          if d = ']' then some (.array [], rest₁)
          else
            match parseElements fuel (d :: rest₁) [] with
            | some (a, r) => some (.array a, r)
            | none => none
        | [] => none
      else if c = dquote then
        match parseStringBody rest [] with
        | some (s, r) => some (.string s, r)
        | none => none
      else if c = 'n' then (dropLiteral "ull".toList rest).map (fun r => (.null, r))
      else if c = 't' then (dropLiteral "rue".toList rest).map (fun r => (.bool true, r))
      else if c = 'f' then (dropLiteral "alse".toList rest).map (fun r => (.bool false, r))
      else parseNumber (c :: rest)
/-- Decode the elements of an array up to and including the closing bracket. -/
def parseElements : Nat → List Char → List QJsonValue → Option (List QJsonValue × List Char)
  | 0, _, _ => none
  | fuel + 1, cs, acc =>
    match parseValue fuel cs with
    | none => none
    | some (v, rest) =>
      match skipWs rest with
      | d :: rest₁ =>
        if d = ',' then parseElements fuel rest₁ (acc ++ [v])
        else if d = ']' then some (acc ++ [v], rest₁)
        else none
      | [] => none
/-- Decode the members of an object up to and including the closing brace. -/
def parseMembers : Nat → List Char → QJsonObject → Option (QJsonObject × List Char)
  | 0, _, _ => none
  | fuel + 1, cs, acc =>
    match skipWs cs with
    | q :: rest =>
      if q = dquote then
        match parseStringBody rest [] with
        | none => none
        | some (k, rest₁) =>
          match skipWs rest₁ with
          | colon :: rest₂ =>
            if colon = ':' then
              match parseValue fuel rest₂ with
              | none => none
              | some (v, rest₃) =>
                match skipWs rest₃ with
                | d :: rest₄ =>
                  if d = ',' then parseMembers fuel rest₄ (acc.insert k v)
                  else if d = '}' then some (acc.insert k v, rest₄)
                  else none
                | [] => none
            else none
          | [] => none
      else none
    | [] => none
end

/-- Qt function `QJsonDocument::fromJson` on the text of a line: the document when the
text is one JSON object or array with nothing but whitespace after it, and
`none` (a parse error) otherwise. -/
def QJsonDocument.fromJson (line : String) : Option QJsonDocument :=
  match parseValue (line.length + 1) line.toList with
  | some (.object o, rest) => if skipWs rest = [] then some (.ofObject o) else none
  | some (.array a, rest) => if skipWs rest = [] then some (.ofArray a) else none
  | _ => none

/-! ## The monitor object and its signals -/

/-- The signals of `JournalMonitor`, with their arguments. -/
inductive Signal where
  | journalPathChanged
  | isMonitoringChanged
  | journalError (message : String)
  | allDetectedCommandersChanged
  | commanderNameChanged
  | commanderDetected (commander : String)
  | newJournalSession (commander : String)
  | currentSystemChanged
  | fsdJumpDetected (system : String) (entry : QJsonObject)
  | carrierJumpDetected (system : String) (entry : QJsonObject)
  deriving DecidableEq

/-- The data members of `JournalMonitor`.  `watchedFiles` and
`watchedDirectories` are the paths held by `m_fileWatcher`, `timerActive` is
the state of `m_updateTimer`. -/
structure JournalMonitor where
  m_journalPath : String
  m_currentJournalFile : String
  m_commanderName : String
  m_currentSystem : String
  m_lastJumpData : QJsonObject
  m_isMonitoring : Bool
  m_lastFileSize : Nat
  m_allDetectedCommanders : List String
  m_forcedCommanderName : String
  m_forcedCommanderEnabled : Bool
  m_actualJournalCommander : String
  watchedFiles : List String
  watchedDirectories : List String
  timerActive : Bool
  deriving DecidableEq

/-- The object built by the constructor `JournalMonitor::JournalMonitor`. -/
def JournalMonitor.init : JournalMonitor :=
  { m_journalPath := "", m_currentJournalFile := "", m_commanderName := "",
    m_currentSystem := "", m_lastJumpData := [], m_isMonitoring := false,
    m_lastFileSize := 0, m_allDetectedCommanders := [], m_forcedCommanderName := "",
    m_forcedCommanderEnabled := false, m_actualJournalCommander := "",
    watchedFiles := [], watchedDirectories := [], timerActive := false }

/-! ## Event handlers (journalmonitor.cpp, lines 215-337) -/

/-- The name `extractCommanderName` reads from an entry: field `Name`, and
field `Commander` when `Name` is empty (lines 242-246). -/
def commanderOf (entry : QJsonObject) : String :=
  let commander := (entry.value "Name").toString
  if isEmpty commander then (entry.value "Commander").toString else commander

/-- Member function `JournalMonitor::extractCommanderName` (lines 240-276). -/
def extractCommanderName (s : JournalMonitor) (entry : QJsonObject) :
    JournalMonitor × List Signal :=
  let commander := commanderOf entry
  if !isEmpty commander then
    let s₁ := { s with m_actualJournalCommander := commander }
    let r₂ : JournalMonitor × List Signal :=
      if !s₁.m_allDetectedCommanders.contains commander then
        ({ s₁ with m_allDetectedCommanders := s₁.m_allDetectedCommanders ++ [commander] },
          [Signal.allDetectedCommandersChanged])
      else (s₁, [])
    if commander != r₂.1.m_commanderName then
      let previousCommander := r₂.1.m_commanderName
      let s₃ := { r₂.1 with m_commanderName := commander }
      let e₃ := r₂.2 ++ [Signal.commanderNameChanged, Signal.commanderDetected commander]
      if !isEmpty previousCommander && commander != previousCommander then
        (s₃, e₃ ++ [Signal.newJournalSession commander])
      else (s₃, e₃)
    else r₂
  else (s, [])

/-- Member function `JournalMonitor::processFSDJump` (lines 278-298). -/
def processFSDJump (s : JournalMonitor) (entry : QJsonObject) :
    JournalMonitor × List Signal :=
  let system := (entry.value "StarSystem").toString
  if !isEmpty system && system != s.m_currentSystem then
    if s.m_forcedCommanderEnabled && !isEmpty s.m_forcedCommanderName
        && s.m_actualJournalCommander != s.m_forcedCommanderName then
      (s, [])
    else
      ({ s with m_currentSystem := system, m_lastJumpData := entry },
        [Signal.currentSystemChanged, Signal.fsdJumpDetected system entry])
  else (s, [])

/-- Member function `JournalMonitor::processCarrierJump` (lines 300-320). -/
def processCarrierJump (s : JournalMonitor) (entry : QJsonObject) :
    JournalMonitor × List Signal :=
  let system := (entry.value "StarSystem").toString
  if !isEmpty system && system != s.m_currentSystem then
    if s.m_forcedCommanderEnabled && !isEmpty s.m_forcedCommanderName
        && s.m_actualJournalCommander != s.m_forcedCommanderName then
      (s, [])
    else
      ({ s with m_currentSystem := system, m_lastJumpData := entry },
        [Signal.currentSystemChanged, Signal.carrierJumpDetected system entry])
  else (s, [])

/-- Member function `JournalMonitor::processLocation` (lines 322-337). -/
def processLocation (s : JournalMonitor) (entry : QJsonObject) :
    JournalMonitor × List Signal :=
  let system := (entry.value "StarSystem").toString
  if !isEmpty system && system != s.m_currentSystem then
    let s₁ := { s with m_currentSystem := system, m_lastJumpData := entry }
    if entry.contains "StarPos" then
      (s₁, [Signal.currentSystemChanged, Signal.fsdJumpDetected system entry])
    else (s₁, [Signal.currentSystemChanged])
  else (s, [])

/-- Member function `JournalMonitor::processJournalLine` (lines 215-238).  `fromJson line` is
`QJsonDocument::fromJson(line.toUtf8(), &parseError)`, `none` when
`parseError.error != QJsonParseError::NoError`. -/
def processJournalLine (fromJson : String → Option QJsonDocument) (s : JournalMonitor)
    (line : String) : JournalMonitor × List Signal :=
  match fromJson line with
  | none => (s, [])
  | some doc =>
    let entry := doc.object
    let event := (entry.value "event").toString
    if event == "Commander" then extractCommanderName s entry
    else if event == "FSDJump" then processFSDJump s entry
    else if event == "CarrierJump" then processCarrierJump s entry
    else if event == "Location" then processLocation s entry
    else if event == "LoadGame" then extractCommanderName s entry
    else (s, [])

/-- The line loop of `processJournalFile` (lines 205-210) on lines already
read and trimmed: each line goes through `processJournalLine`, in order. -/
def processLines (fromJson : String → Option QJsonDocument) (s : JournalMonitor) :
    List String → JournalMonitor × List Signal
  | [] => (s, [])
  | line :: rest =>
    let r := processJournalLine fromJson s line
    let r' := processLines fromJson r.1 rest
    (r'.1, r.2 ++ r'.2)

/-- Member function `JournalMonitor::setForcedCommander` (lines 886-896). -/
def setForcedCommander (s : JournalMonitor) (forcedCommander : String) (enabled : Bool) :
    JournalMonitor × List Signal :=
  ({ s with m_forcedCommanderName := forcedCommander, m_forcedCommanderEnabled := enabled }, [])

/-- Recognises the signal `newJournalSession`. -/
def Signal.isNewJournalSession : Signal → Bool
  | .newJournalSession _ => true
  | _ => false

/-- Recognises the signal `fsdJumpDetected`. -/
def Signal.isFsdJumpDetected : Signal → Bool
  | .fsdJumpDetected _ _ => true
  | _ => false

/-! ## Strings, text streams and the file system

The journal directory is read through `QDir`, `QFile` and `QTextStream`.  The
model takes the state of the disk as a `FileSystem` value. -/

/-- Qt function `QChar::isSpace()`. -/
def isSpace (c : Char) : Bool :=
  c.toNat == 0x20 || (0x09 ≤ c.toNat && c.toNat ≤ 0x0d) || c.toNat == 0x85 ||
    c.toNat == 0xa0 || c.toNat == 0x1680 || (0x2000 ≤ c.toNat && c.toNat ≤ 0x200a) ||
    c.toNat == 0x2028 || c.toNat == 0x2029 || c.toNat == 0x202f || c.toNat == 0x205f ||
    c.toNat == 0x3000

/-- Qt function `QString::trimmed()`: the string without leading and trailing whitespace. -/
def trimmed (s : String) : String :=
  String.mk ((s.toList.dropWhile isSpace).reverse.dropWhile isSpace).reverse

/-- Substring search on character lists. -/
def containsChars : List Char → List Char → Bool
  | [], needle => needle.isEmpty
  | c :: cs, needle => needle.isPrefixOf (c :: cs) || containsChars cs needle

/-- Qt function `QString::contains(needle)`. -/
def contains (s needle : String) : Bool := containsChars s.toList needle.toList

/-- The text `"event":"LoadGame"` searched for in raw lines. -/
def eventLoadGame : String := "\"event\":\"LoadGame\""

/-- The text `"event":"Commander"` searched for in raw lines. -/
def eventCommander : String := "\"event\":\"Commander\""

/-- The text `"event":"FSDJump"` searched for in raw lines. -/
def eventFSDJump : String := "\"event\":\"FSDJump\""

/-- The text `"event":"CarrierJump"` searched for in raw lines. -/
def eventCarrierJump : String := "\"event\":\"CarrierJump\""

/-- The lines of a text, as `while (!stream.atEnd()) stream.readLine()` yields
them: the pieces between line feeds, without a last empty piece.  `acc` holds
the characters of the current line, last first.  (A carriage return before the
line feed stays on the line here; every caller trims the line or only searches
it.) -/
def readLinesAux : List Char → List Char → List String
  | [], [] => []
  | [], c :: acc => [String.mk (c :: acc).reverse]
  | c :: cs, acc =>
    if c.toNat = 10 then String.mk acc.reverse :: readLinesAux cs []
    else readLinesAux cs (c :: acc)

/-- All lines of a file content. -/
def readLines (content : String) : List String := readLinesAux content.toList []

/-- The state of the disk as the monitor sees it. -/
structure FileSystem where
  /-- The value of `QDir(path).exists()`. -/
  dirExists : String → Bool
  /-- The list `QDir(path).entryList({"Journal.*.log"}, QDir::Files, QDir::Time)`
  with each name made absolute: the journal files of a directory, newest
  first. -/
  journalEntries : String → List String
  /-- Whether `QDir::Readable` keeps the file. -/
  readable : String → Bool
  /-- The text of a file when `QFile::open(ReadOnly | Text)` succeeds. -/
  contents : String → Option String
  /-- The value of `QFileInfo(path).exists()`. -/
  fileExists : String → Bool
  /-- The value of `QFileInfo(path).size()`: the size of the file in bytes. -/
  size : String → Nat

/-- Member function `JournalMonitor::findJournalFiles` (lines 365-380). -/
def findJournalFiles (fs : FileSystem) (directory : String) : List String :=
  fs.journalEntries directory

/-- The loop of `hasValidJournalData` (lines 408-423) over the lines still to
read, and the value returned on line 426 when it ends. -/
def hasValidJournalDataLoop : List String → Nat → Bool → Bool → Bool
  | [], _, hasJump, hasCommander => hasJump || hasCommander
  | raw :: rest, lineCount, hasJump, hasCommander =>
    if lineCount < 100 then
      let line := trimmed raw
      let hasJump := hasJump || (contains line eventFSDJump || contains line eventCarrierJump)
      let hasCommander :=
        hasCommander || (contains line eventCommander || contains line eventLoadGame)
      if hasJump && hasCommander then true
      else hasValidJournalDataLoop rest (lineCount + 1) hasJump hasCommander
    else hasJump || hasCommander

/-- Member function `JournalMonitor::hasValidJournalData` (lines 396-427). -/
def hasValidJournalData (fs : FileSystem) (filePath : String) : Bool :=
  match fs.contents filePath with
  | none => false
  | some content => hasValidJournalDataLoop (readLines content) 0 false false

/-- Member function `JournalMonitor::findLatestJournalWithFSDJump` (lines 382-394). -/
def findLatestJournalWithFSDJump (fs : FileSystem) (directory : String) : String :=
  match (findJournalFiles fs directory).find? (hasValidJournalData fs) with
  | some filePath => filePath
  | none => ""

/-- Member function `JournalMonitor::getLatestJournalFile` (lines 144-151). -/
def getLatestJournalFile (fs : FileSystem) (s : JournalMonitor) : String :=
  if isEmpty s.m_journalPath then "" else findLatestJournalWithFSDJump fs s.m_journalPath

/-! ## Counting jumps (lines 448-489) -/

/-- The list `QDir(path).entryInfoList({"Journal.*.log"}, QDir::Files |
QDir::Readable, QDir::Name)` with each entry made absolute: the readable
journal files of a directory in the order of their names, names being compared
by the codes of their characters. -/
def journalEntriesByName (fs : FileSystem) (directory : String) : List String :=
  ((fs.journalEntries directory).filter fs.readable).insertionSort
    (fun a b => a.toList.map Char.toNat ≤ b.toList.map Char.toNat)

/-- The test of line 479: the line holds `"event":"FSDJump"` or
`"event":"CarrierJump"`. -/
def isJumpLine (line : String) : Bool :=
  contains line eventFSDJump || contains line eventCarrierJump

/-- What one journal file does to `totalJumps` in `countTotalJumps` (lines
469-484): a file that does not open is passed over, every line that passes the
test of line 479 adds one. -/
def countJournalJumps (fs : FileSystem) (totalJumps : Nat) (path : String) : Nat :=
  match fs.contents path with
  | none => totalJumps
  | some content =>
    (readLines content).foldl
      (fun total line => if isJumpLine line then total + 1 else total) totalJumps

/-- Member function `JournalMonitor::countTotalJumps` (lines 448-489).  The function is
`const`: it returns the count and has no access to the object other than
reading `m_journalPath`.  The counter `totalJumps` is an `int`; the model
counts in `Nat`. -/
def countTotalJumps (fs : FileSystem) (s : JournalMonitor) : Nat :=
  if isEmpty s.m_journalPath then 0
  else if !fs.dirExists s.m_journalPath then 0
  else (journalEntriesByName fs s.m_journalPath).foldl (countJournalJumps fs) 0

/-! ## Commander lookup in journal files (lines 491-725) -/

/-- The class `\s` of the fallback patterns: ASCII whitespace. -/
def isRegexSpace (c : Char) : Bool :=
  c.toNat == 32 || (9 ≤ c.toNat && c.toNat ≤ 13)

/-- The first group of the pattern `"key"\s*:\s*"([^"]+)"` matched at the very
start of the input. -/
def captureAt (key : String) (cs : List Char) : Option String :=
  match dropLiteral (dquote :: key.toList ++ [dquote]) cs with
  | none => none
  | some r₁ =>
    match r₁.dropWhile isRegexSpace with
    | c :: r₂ =>
      if c = ':' then
        match r₂.dropWhile isRegexSpace with
        | q :: r₃ =>
          if q = dquote then
            let captured := r₃.takeWhile (fun x => x != dquote)
            let after := r₃.dropWhile (fun x => x != dquote)
            if !captured.isEmpty && after.head? = some dquote then some (String.mk captured)
            else none
          else none
        | [] => none
      else none
    | [] => none

/-- The first group of the leftmost match of `"key"\s*:\s*"([^"]+)"` in the
input (`QRegularExpression::match` followed by `captured(1)`). -/
def captureChars (key : String) : List Char → Option String
  | [] => none
  | c :: cs =>
    match captureAt key (c :: cs) with
    | some captured => some captured
    | none => captureChars key cs

/-- The capture of `"key"\s*:\s*"([^"]+)"` in a line, when it matches. -/
def regexCapture (key : String) (line : String) : Option String :=
  captureChars key line.toList

/-- What one line of the file under inspection yields in
`extractCommanderFromJournal` (lines 528-583): the commander returned from
this line, or `none` when the scan moves on to the line above. -/
def commanderInLine (fromJson : String → Option QJsonDocument) (raw : String) :
    Option String :=
  let line := trimmed raw
  if isEmpty line then none
  else if contains line eventLoadGame || contains line eventCommander then
    match fromJson line with
    | some doc =>
      let data := doc.object
      if (data.value "event").toString == "LoadGame" then
        let commander := (data.value "Commander").toString
        if !isEmpty commander then some commander else none
      else if (data.value "event").toString == "Commander" then
        let commander := (data.value "Name").toString
        if !isEmpty commander then some commander else none
      else none
    | none =>
      if contains line eventLoadGame then regexCapture "Commander" line
      else if contains line eventCommander then regexCapture "Name" line
      else none
  else none

/-- What one line of a recent journal yields in `extractCommanderFromJournal`
(lines 620-648). -/
def commanderInRecentLine (fromJson : String → Option QJsonDocument) (raw : String) :
    Option String :=
  let line := trimmed raw
  if isEmpty line then none
  else if contains line eventLoadGame && contains line "\"Commander\"" then
    match fromJson line with
    | some doc =>
      let commander := (doc.object.value "Commander").toString
      if !isEmpty commander then some commander else none
    | none => regexCapture "Commander" line
  else none

/-- The recent journals inspected by `extractCommanderFromJournal` (lines
594-650): the first ten entries, the file already inspected left out, each read
bottom to top. -/
def commanderInRecentJournals (fs : FileSystem) (fromJson : String → Option QJsonDocument)
    (filePath : String) : List String → Option String
  | [] => none
  | journalPath :: rest =>
    if journalPath == filePath then commanderInRecentJournals fs fromJson filePath rest
    else
      match fs.contents journalPath with
      | none => commanderInRecentJournals fs fromJson filePath rest
      | some content =>
        match (readLines content).reverse.findSome? (commanderInRecentLine fromJson) with
        | some commander => some commander
        | none => commanderInRecentJournals fs fromJson filePath rest

/-- Member function `JournalMonitor::extractCommanderFromJournal` (lines 491-654): the name
returned and the signals emitted. -/
def extractCommanderFromJournal (fs : FileSystem) (fromJson : String → Option QJsonDocument)
    (s : JournalMonitor) (journalFilePath : String) : String × List Signal :=
  let filePath := journalFilePath
  let filePath := if isEmpty filePath then s.m_currentJournalFile else filePath
  let filePath := if isEmpty filePath then getLatestJournalFile fs s else filePath
  if isEmpty filePath then ("Unknown", [])
  else
    match fs.contents filePath with
    | none => ("Unknown", [])
    | some content =>
      match (readLines content).reverse.findSome? (commanderInLine fromJson) with
      | some commander => (commander, [Signal.commanderDetected commander])
      | none =>
        let allJournals := findJournalFiles fs s.m_journalPath
        match commanderInRecentJournals fs fromJson filePath (allJournals.take 10) with
        | some commander => (commander, [Signal.commanderDetected commander])
        | none => ("Unknown", [])

/-- Qt function `QFileSystemWatcher::addPath` on the list of watched paths. -/
def addPath (watched : List String) (path : String) : List String :=
  if watched.contains path then watched else watched ++ [path]

/-- Qt function `QFileSystemWatcher::removePath` on the list of watched paths. -/
def removePath (watched : List String) (path : String) : List String :=
  watched.filter (fun w => w != path)

/-- Member function `JournalMonitor::updateCurrentJournalFile` (lines 339-363). -/
def updateCurrentJournalFile (fs : FileSystem) (fromJson : String → Option QJsonDocument)
    (s : JournalMonitor) : JournalMonitor × List Signal :=
  let latestJournal := getLatestJournalFile fs s
  if !isEmpty latestJournal && latestJournal != s.m_currentJournalFile then
    let s₁ :=
      if !isEmpty s.m_currentJournalFile then
        { s with watchedFiles := removePath s.watchedFiles s.m_currentJournalFile }
      else s
    let s₂ := { s₁ with m_currentJournalFile := latestJournal, m_lastFileSize := 0 }
    let r := extractCommanderFromJournal fs fromJson s₂ s₂.m_currentJournalFile
    let newJournalCommander := r.1
    let s₃ :=
      if !isEmpty newJournalCommander then
        { s₂ with m_actualJournalCommander := newJournalCommander }
      else s₂
    ({ s₃ with watchedFiles := addPath s₃.watchedFiles s₃.m_currentJournalFile }, r.2)
  else (s, [])

/-- What one line does to the list of known commanders and to the counter
`commandersFound` in `scanAllJournalsForCommanders` (lines 691-715). -/
def scanLine (fromJson : String → Option QJsonDocument) (acc : List String × Nat)
    (raw : String) : List String × Nat :=
  let line := trimmed raw
  if isEmpty line then acc
  else if contains line eventLoadGame || contains line eventCommander then
    match fromJson line with
    | none => acc
    | some doc =>
      let data := doc.object
      let commander :=
        if (data.value "event").toString == "LoadGame" then (data.value "Commander").toString
        else if (data.value "event").toString == "Commander" then (data.value "Name").toString
        else ""
      if !isEmpty commander && !acc.1.contains commander then (acc.1 ++ [commander], acc.2 + 1)
      else acc
  else acc

/-- What one journal file does in `scanAllJournalsForCommanders` (lines
675-716): its lines are scanned bottom to top; a file that does not open is
passed over. -/
def scanJournal (fs : FileSystem) (fromJson : String → Option QJsonDocument)
    (acc : List String × Nat) (journalPath : String) : List String × Nat :=
  match fs.contents journalPath with
  | none => acc
  | some content => (readLines content).reverse.foldl (scanLine fromJson) acc

/-- Member function `JournalMonitor::scanAllJournalsForCommanders` (lines 661-725). -/
def scanAllJournalsForCommanders (fs : FileSystem) (fromJson : String → Option QJsonDocument)
    (s : JournalMonitor) : JournalMonitor × List Signal :=
  if isEmpty s.m_journalPath then (s, [])
  else
    let allJournals := findJournalFiles fs s.m_journalPath
    let r := allJournals.foldl (scanJournal fs fromJson) (s.m_allDetectedCommanders, 0)
    let s₁ := { s with m_allDetectedCommanders := r.1 }
    if r.2 > 0 then (s₁, [Signal.allDetectedCommandersChanged]) else (s₁, [])

/-! ## Switching commander (lines 727-884) -/

/-- A `QDateTime`: `none` is the null date-time that `QDateTime::fromString`
returns for text it cannot read, `some t` a valid instant (milliseconds since
the epoch). -/
abbrev QDateTime := Option Int

/-- Qt function `QDateTime::isNull()`. -/
def QDateTime.isNull (t : QDateTime) : Bool := t.isNone

/-- The order `a > b` on `QDateTime`: instants compare by time, and a null date-time is
before every valid one. -/
def QDateTime.gt : QDateTime → QDateTime → Bool
  | some a, some b => decide (a > b)
  | some _, none => true
  | none, _ => false

/-- The first loop over a journal in `switchToCommander` (lines 769-799): the
value of `journalCommander` after at most ten lines. -/
def journalOwnerLoop (fromJson : String → Option QJsonDocument) : List String → Nat → String
  | [], _ => ""
  | raw :: rest, lineCount =>
    if lineCount < 10 then
      let line := trimmed raw
      if isEmpty line then journalOwnerLoop fromJson rest (lineCount + 1)
      else
        match fromJson line with
        | none => journalOwnerLoop fromJson rest (lineCount + 1)
        | some doc =>
          let entry := doc.object
          let event := (entry.value "event").toString
          if event == "Commander" then (entry.value "Name").toString
          else if event == "LoadGame" then (entry.value "Commander").toString
          else journalOwnerLoop fromJson rest (lineCount + 1)
    else ""

/-- The latest location found so far in `switchToCommander`: system, raw
entry and time. -/
structure LatestLocation where
  system : String
  jumpData : QJsonObject
  time : QDateTime
  deriving DecidableEq

/-- The three locals `latestSystem`, `latestJumpData`, `latestTimestamp` as
declared (lines 749-751, 810-812). -/
def LatestLocation.unset : LatestLocation := { system := "", jumpData := [], time := Option.none }

/-- What one line does in the second loop over a journal in
`switchToCommander` (lines 816-841). -/
def scanLocationLine (fromJson : String → Option QJsonDocument)
    (fromString : String → QDateTime) (acc : LatestLocation) (raw : String) :
    LatestLocation :=
  let line := trimmed raw
  if isEmpty line then acc
  else
    match fromJson line with
    | none => acc
    | some doc =>
      let entry := doc.object
      let event := (entry.value "event").toString
      if event == "FSDJump" || event == "CarrierJump" || event == "Location" then
        let system := (entry.value "StarSystem").toString
        let eventTime := fromString (entry.value "timestamp").toString
        if !isEmpty system && (acc.time.isNull || eventTime.gt acc.time) then
          { system := system, jumpData := entry, time := eventTime }
        else acc
      else acc

/-- What one journal file does in `switchToCommander` (lines 754-852). -/
def scanJournalForCommander (fs : FileSystem) (fromJson : String → Option QJsonDocument)
    (fromString : String → QDateTime) (commanderName : String) (acc : LatestLocation)
    (path : String) : LatestLocation :=
  match fs.contents path with
  | none => acc
  | some content =>
    let lines := readLines content
    let journalCommander := journalOwnerLoop fromJson lines 0
    if journalCommander != commanderName then acc
    else
      let inFile := lines.foldl (scanLocationLine fromJson fromString) LatestLocation.unset
      if !isEmpty inFile.system && (acc.time.isNull || inFile.time.gt acc.time) then inFile
      else acc

/-- Member function `JournalMonitor::switchToCommander` (lines 727-884).  `fromString text` is
`QDateTime::fromString(text, Qt::ISODate)`. -/
def switchToCommander (fs : FileSystem) (fromJson : String → Option QJsonDocument)
    (fromString : String → QDateTime) (s : JournalMonitor) (commanderName : String) :
    JournalMonitor × List Signal :=
  if isEmpty commanderName || isEmpty s.m_journalPath then (s, [])
  else if !fs.dirExists s.m_journalPath then (s, [])
  else
    let journalFiles := ((fs.journalEntries s.m_journalPath).filter fs.readable).reverse
    let latest := journalFiles.foldl
      (scanJournalForCommander fs fromJson fromString commanderName) LatestLocation.unset
    if !isEmpty latest.system then
      let s₁ := { s with
        m_commanderName := commanderName
        m_currentSystem := latest.system
        m_lastJumpData := latest.jumpData }
      (s₁, Signal.currentSystemChanged ::
        ((if latest.jumpData.contains "StarPos" then
            [Signal.fsdJumpDetected latest.system latest.jumpData]
          else []) ++
          [Signal.commanderNameChanged, Signal.commanderDetected commanderName]))
    else
      ({ s with m_commanderName := commanderName },
        [Signal.commanderNameChanged, Signal.commanderDetected commanderName])

/-! ## Tailing the current journal (lines 32-213)

The operations that read the tailed file return a `Step`: next to the object
and the signals it records the lines handed to `processJournalLine`. -/

/-- The outcome of an operation that may read the journal: the object after
the call, the signals emitted, and the arguments of the calls of
`processJournalLine`, in order. -/
structure Step where
  monitor : JournalMonitor
  signals : List Signal
  delivered : List String
  deriving DecidableEq

/-- An operation that calls neither `processJournalLine` nor
`processJournalFile`. -/
def Step.ofPair (r : JournalMonitor × List Signal) : Step :=
  { monitor := r.1, signals := r.2, delivered := [] }

/-- One operation after another. -/
def Step.andThen (a : Step) (f : JournalMonitor → Step) : Step :=
  { monitor := (f a.monitor).monitor
    signals := a.signals ++ (f a.monitor).signals
    delivered := a.delivered ++ (f a.monitor).delivered }

/-- The number of bytes of a character in UTF-8, the encoding in which
`QTextStream` reads a file (the default of Qt 6; journals are UTF-8 text). -/
def utf8Size (c : Char) : Nat :=
  if c.toNat < 0x80 then 1 else if c.toNat < 0x800 then 2 else if c.toNat < 0x10000 then 3 else 4

/-- The number of bytes of a text in UTF-8. -/
def utf8Length (cs : List Char) : Nat := (cs.map utf8Size).sum

/-- The character U+FFFD that the decoder yields for a byte it cannot read. -/
def replacementCharacter : Char := Char.ofNat 0xFFFD

/-- What a stream yields from the byte position `pos` of a text: the
characters whose bytes lie before `pos` are passed over.  A position inside the
bytes of a character leaves the trailing bytes of that character behind it,
which decode to U+FFFD each. -/
def seekChars : List Char → Nat → List Char
  | cs, 0 => cs
  | [], _ + 1 => []
  | c :: cs, pos + 1 =>
    if utf8Size c ≤ pos + 1 then seekChars cs (pos + 1 - utf8Size c)
    else List.replicate (utf8Size c - (pos + 1)) replacementCharacter ++ cs

/-- Qt function `QTextStream::seek(pos)` on the text of a file: what is left
to read from the byte position `pos`. -/
def seek (content : String) (pos : Nat) : String := String.mk (seekChars content.toList pos)

/-- The lines that the loop of `processJournalFile` (lines 205-210) passes to
`processJournalLine` when reading `text` to its end: each line trimmed, the
empty ones left out. -/
def linesToProcess (text : String) : List String :=
  ((readLines text).map trimmed).filter (fun line => !isEmpty line)

/-- Member function `JournalMonitor::processJournalFile` (lines 190-213). -/
def processJournalFile (fs : FileSystem) (fromJson : String → Option QJsonDocument)
    (s : JournalMonitor) (filePath : String) : Step :=
  match fs.contents filePath with
  | none =>
    { monitor := s
      signals := [Signal.journalError ("Failed to open journal file: " ++ filePath)]
      delivered := [] }
  | some content =>
    let text := if s.m_lastFileSize > 0 then seek content s.m_lastFileSize else content
    let r := processLines fromJson s (linesToProcess text)
    { monitor := r.1, signals := r.2, delivered := linesToProcess text }

/-- Member function `JournalMonitor::onFileChanged` (lines 153-163). -/
def onFileChanged (fs : FileSystem) (fromJson : String → Option QJsonDocument)
    (s : JournalMonitor) (path : String) : Step :=
  if path == s.m_currentJournalFile then
    if fs.size path > s.m_lastFileSize then
      let r := processJournalFile fs fromJson s path
      { r with monitor := { r.monitor with m_lastFileSize := fs.size path } }
    else { monitor := s, signals := [], delivered := [] }
  else { monitor := s, signals := [], delivered := [] }

/-- The first statement of `checkForUpdates` (lines 174-180): the read of what
the current journal has grown by. -/
def checkForGrowth (fs : FileSystem) (fromJson : String → Option QJsonDocument)
    (s : JournalMonitor) : Step :=
  if !isEmpty s.m_currentJournalFile then
    if fs.fileExists s.m_currentJournalFile &&
        fs.size s.m_currentJournalFile > s.m_lastFileSize then
      let r := processJournalFile fs fromJson s s.m_currentJournalFile
      { r with
        monitor := { r.monitor with m_lastFileSize := fs.size s.m_currentJournalFile } }
    else { monitor := s, signals := [], delivered := [] }
  else { monitor := s, signals := [], delivered := [] }

/-- Member function `JournalMonitor::checkForUpdates` (lines 172-188). -/
def checkForUpdates (fs : FileSystem) (fromJson : String → Option QJsonDocument)
    (s : JournalMonitor) : Step :=
  (checkForGrowth fs fromJson s).andThen fun s₁ =>
    let latestJournal := getLatestJournalFile fs s₁
    if !isEmpty latestJournal && latestJournal != s₁.m_currentJournalFile then
      Step.ofPair (updateCurrentJournalFile fs fromJson s₁)
    else { monitor := s₁, signals := [], delivered := [] }

/-- Member function `JournalMonitor::stopMonitoring` (lines 89-99). -/
def stopMonitoring (s : JournalMonitor) : JournalMonitor × List Signal :=
  ({ s with
      timerActive := false, watchedFiles := [], watchedDirectories := [],
      m_isMonitoring := false },
    [Signal.isMonitoringChanged])

/-- The part of `startMonitoring` after the journal folder is known (lines
57-86). -/
def startMonitoringBody (fs : FileSystem) (fromJson : String → Option QJsonDocument)
    (s : JournalMonitor) : Step :=
  if !fs.dirExists s.m_journalPath then
    { monitor := s
      signals := [Signal.journalError ("Journal folder does not exist: " ++ s.m_journalPath)]
      delivered := [] }
  else
    let s₁ := { s with watchedDirectories := addPath s.watchedDirectories s.m_journalPath }
    ((Step.ofPair (updateCurrentJournalFile fs fromJson s₁)).andThen fun s₂ =>
      if !isEmpty s₂.m_currentJournalFile then
        let r := processJournalFile fs fromJson s₂ s₂.m_currentJournalFile
        { r with
          monitor := { r.monitor with
            watchedFiles := addPath r.monitor.watchedFiles r.monitor.m_currentJournalFile } }
      else { monitor := s₂, signals := [], delivered := [] }).andThen fun s₃ =>
        let c := scanAllJournalsForCommanders fs fromJson s₃
        { monitor := { c.1 with m_isMonitoring := true, timerActive := true }
          signals := c.2 ++ [Signal.isMonitoringChanged]
          delivered := [] }

/-- Member function `JournalMonitor::setJournalPath` (lines 32-43), with
`restart` standing for the call of `startMonitoring` on line 40. -/
def setJournalPathWith (restart : JournalMonitor → Step) (s : JournalMonitor)
    (path : String) : Step :=
  if s.m_journalPath != path then
    let s₁ := { s with m_journalPath := path }
    if s₁.m_isMonitoring then
      ({ monitor := s₁, signals := [Signal.journalPathChanged], delivered := [] } : Step).andThen
        fun s₂ => (Step.ofPair (stopMonitoring s₂)).andThen restart
    else { monitor := s₁, signals := [Signal.journalPathChanged], delivered := [] }
  else { monitor := s, signals := [], delivered := [] }

/-- Member function `JournalMonitor::analyzeJournalFolder` (lines 101-121):
the value returned and the effect of the call. -/
def analyzeJournalFolderWith (restart : JournalMonitor → Step) (fs : FileSystem)
    (s : JournalMonitor) (folderPath : String) : Bool × Step :=
  if !fs.dirExists folderPath then (false, { monitor := s, signals := [], delivered := [] })
  else if (findJournalFiles fs folderPath).isEmpty then
    (false, { monitor := s, signals := [], delivered := [] })
  else if !isEmpty (findLatestJournalWithFSDJump fs folderPath) then
    (true, setJournalPathWith restart s folderPath)
  else (false, { monitor := s, signals := [], delivered := [] })

/-- Member function `JournalMonitor::autoDetectJournalFolder` (lines 123-142)
over the list `possiblePaths` of conventional folders (built from
`QStandardPaths`, the home path and the `USERNAME` variable): the path returned
and the effect of the call. -/
def autoDetectJournalFolderWith (restart : JournalMonitor → Step) (fs : FileSystem)
    (s : JournalMonitor) : List String → String × Step
  | [] => ("", { monitor := s, signals := [], delivered := [] })
  | path :: rest =>
    if (analyzeJournalFolderWith restart fs s path).1 then
      (path, (analyzeJournalFolderWith restart fs s path).2)
    else autoDetectJournalFolderWith restart fs s rest

/-- Member function `JournalMonitor::startMonitoring` (lines 45-87), with
`restart` standing for the call of `startMonitoring` inside `setJournalPath`. -/
def startMonitoringWith (restart : JournalMonitor → Step) (fs : FileSystem)
    (fromJson : String → Option QJsonDocument) (possiblePaths : List String)
    (s : JournalMonitor) : Step :=
  if isEmpty s.m_journalPath then
    let d := autoDetectJournalFolderWith restart fs s possiblePaths
    if !isEmpty d.1 then
      (d.2.andThen fun s₁ => setJournalPathWith restart s₁ d.1).andThen
        (startMonitoringBody fs fromJson)
    else
      d.2.andThen fun s₁ =>
        { monitor := s₁, signals := [Signal.journalError "No journal folder found"],
          delivered := [] }
  else startMonitoringBody fs fromJson s

/-- Member function `startMonitoring` on a monitor that is not monitoring.  Its
`setJournalPath` never reaches line 40, so the stand-in for that call is never
run (theorem `startMonitoringWith_stopped`). -/
def startMonitoringStopped (fs : FileSystem) (fromJson : String → Option QJsonDocument)
    (possiblePaths : List String) (s : JournalMonitor) : Step :=
  startMonitoringWith (fun s₁ => { monitor := s₁, signals := [], delivered := [] })
    fs fromJson possiblePaths s

/-- Member function `JournalMonitor::startMonitoring` (lines 45-87).  The
nested call on line 40 always follows `stopMonitoring`, so it runs on a monitor
that is not monitoring. -/
def startMonitoring (fs : FileSystem) (fromJson : String → Option QJsonDocument)
    (possiblePaths : List String) (s : JournalMonitor) : Step :=
  startMonitoringWith (startMonitoringStopped fs fromJson possiblePaths)
    fs fromJson possiblePaths s

/-- Member function `JournalMonitor::setJournalPath` (lines 32-43). -/
def setJournalPath (fs : FileSystem) (fromJson : String → Option QJsonDocument)
    (possiblePaths : List String) (s : JournalMonitor) (path : String) : Step :=
  setJournalPathWith (startMonitoringStopped fs fromJson possiblePaths) s path

/-! ## Predicates used in the statements -/

/-- The list of known commanders only grew: the list before is a prefix of the
list after, and a list without duplicate and without the empty name stayed
so. -/
def KnownCommandersGrow (before after : List String) : Prop :=
  before <+: after ∧ (before.Nodup ∧ "" ∉ before → after.Nodup ∧ "" ∉ after)

/-- A snapshot of the disk is coherent at a path when a missing file has size
0 and a file that opens exists and has the size in bytes of the text read from
it. -/
def FileSystem.Coherent (fs : FileSystem) (path : String) : Prop :=
  (fs.fileExists path = false → fs.size path = 0) ∧
    ∀ content, fs.contents path = some content →
      fs.fileExists path = true ∧ fs.size path = utf8Length content.toList

/-- The fields that reading journal lines never writes: two monitors agree on
the tailer's bookkeeping, the forced filter and the watcher. -/
def SameBookkeeping (s t : JournalMonitor) : Prop :=
  t.m_journalPath = s.m_journalPath ∧ t.m_currentJournalFile = s.m_currentJournalFile ∧
    t.m_lastFileSize = s.m_lastFileSize ∧ t.m_isMonitoring = s.m_isMonitoring ∧
    t.m_forcedCommanderName = s.m_forcedCommanderName ∧
    t.m_forcedCommanderEnabled = s.m_forcedCommanderEnabled ∧
    t.watchedFiles = s.watchedFiles ∧ t.watchedDirectories = s.watchedDirectories ∧
    t.timerActive = s.timerActive

/-- The usability test as the specification words it, to compare with
`hasValidJournalData`: a file is usable when it opens and one of its first 100
non-empty lines is a jump event or an identity event, a line being such an
event when it decodes to an object whose `event` is `FSDJump`, `CarrierJump`,
`Commander` or `LoadGame`. -/
def usableBySpec (fs : FileSystem) (fromJson : String → Option QJsonDocument)
    (filePath : String) : Bool :=
  match fs.contents filePath with
  | none => false
  | some content =>
    (((readLines content).filter (fun line => !isEmpty (trimmed line))).take 100).any
      fun line =>
        match fromJson (trimmed line) with
        | some doc =>
          ["FSDJump", "CarrierJump", "Commander", "LoadGame"].contains
            (doc.object.value "event").toString
        | none => false

/-- The test of lines 834 and 846 of `switchToCommander`: the candidate `e`
replaces the location kept so far when its system is non-empty and either
nothing has a time yet or its time is later. -/
def keepLater (acc e : LatestLocation) : LatestLocation :=
  if !isEmpty e.system && (acc.time.isNull || e.time.gt acc.time) then e else acc

/-- The location events of a journal as the second loop of `switchToCommander`
reads them: for every line that decodes to an `FSDJump`, `CarrierJump` or
`Location` entry, its system, the entry and its time. -/
def locationEvents (fromJson : String → Option QJsonDocument)
    (fromString : String → QDateTime) (lines : List String) : List LatestLocation :=
  lines.filterMap fun raw =>
    if isEmpty (trimmed raw) then none
    else
      match fromJson (trimmed raw) with
      | none => none
      | some doc =>
        if (doc.object.value "event").toString == "FSDJump" ||
            (doc.object.value "event").toString == "CarrierJump" ||
            (doc.object.value "event").toString == "Location" then
          some
            { system := (doc.object.value "StarSystem").toString
              jumpData := doc.object
              time := fromString (doc.object.value "timestamp").toString }
        else none

/-- The location events of the journal at a path; none when it does not
open. -/
def eventsOfJournal (fs : FileSystem) (fromJson : String → Option QJsonDocument)
    (fromString : String → QDateTime) (path : String) : List LatestLocation :=
  match fs.contents path with
  | none => []
  | some content => locationEvents fromJson fromString (readLines content)

/-- The first identity event of a journal read top to bottom, whatever its
line number: the name carried by the first line that decodes to a `Commander`
entry (member `Name`) or a `LoadGame` entry (member `Commander`). -/
def firstIdentityName (fromJson : String → Option QJsonDocument) : List String → Option String
  | [] => none
  | raw :: rest =>
    if isEmpty (trimmed raw) then firstIdentityName fromJson rest
    else
      match fromJson (trimmed raw) with
      | none => firstIdentityName fromJson rest
      | some doc =>
        if (doc.object.value "event").toString == "Commander" then
          some (doc.object.value "Name").toString
        else if (doc.object.value "event").toString == "LoadGame" then
          some (doc.object.value "Commander").toString
        else firstIdentityName fromJson rest

/-- A journal is authored by `name` when it opens and its first identity event
names `name`. -/
def authoredBy (fs : FileSystem) (fromJson : String → Option QJsonDocument) (name : String)
    (path : String) : Bool :=
  match fs.contents path with
  | none => false
  | some content => firstIdentityName fromJson (readLines content) == some name

/-- A journal is recognised as `name`'s by `switchToCommander` when it opens
and the first loop (lines 769-805) ends with `journalCommander == name`. -/
def recognisedAs (fs : FileSystem) (fromJson : String → Option QJsonDocument) (name : String)
    (path : String) : Bool :=
  match fs.contents path with
  | none => false
  | some content => journalOwnerLoop fromJson (readLines content) 0 == name

/-- The location events of the journals of a list that are recognised as
`name`'s, in the order of the list. -/
def recognisedEvents (fs : FileSystem) (fromJson : String → Option QJsonDocument)
    (fromString : String → QDateTime) (name : String) (files : List String) :
    List LatestLocation :=
  (files.filter (recognisedAs fs fromJson name)).flatMap (eventsOfJournal fs fromJson fromString)

/-- The time `a` is not later than the time `b`; a null time is before every
time. -/
def NotLater (a b : QDateTime) : Prop := ∀ t, a = some t → ∃ u, b = some u ∧ t ≤ u

/-- The disk `fs` with the journals of every folder listed in another order
(or cut down to another list). -/
def FileSystem.withEntries (fs : FileSystem) (entries : String → List String) : FileSystem :=
  { fs with journalEntries := entries }

/-- The relation `NotLater` as a test. -/
def QDateTime.notLater : QDateTime → QDateTime → Bool
  | none, _ => true
  | some _, none => false
  | some t, some u => decide (t ≤ u)

/-- The name `scanAllJournalsForCommanders` reads from a decoded line (lines
701-707): member `Commander` of a `LoadGame` entry, member `Name` of a
`Commander` entry, empty for any other entry. -/
def carriedName (data : QJsonObject) : String :=
  if (data.value "event").toString == "LoadGame" then (data.value "Commander").toString
  else if (data.value "event").toString == "Commander" then (data.value "Name").toString
  else ""

/-- The raw line names `n` for `scanAllJournalsForCommanders`: its trimmed
text holds `"event":"LoadGame"` or `"event":"Commander"` (line 695), it decodes
(line 699), and the decoded entry carries the non-empty name `n`. -/
def LineNames (fromJson : String → Option QJsonDocument) (raw : String) (n : String) : Prop :=
  (contains (trimmed raw) eventLoadGame = true ∨ contains (trimmed raw) eventCommander = true) ∧
    ∃ doc, fromJson (trimmed raw) = some doc ∧ carriedName doc.object = n ∧ n ≠ ""

/-- Some line of some journal of the list that opens names `n`. -/
def JournalsName (fs : FileSystem) (fromJson : String → Option QJsonDocument)
    (journals : List String) (n : String) : Prop :=
  ∃ path ∈ journals, ∃ content, fs.contents path = some content ∧
    ∃ raw ∈ readLines content, LineNames fromJson raw n

/-- The pair `after` of list and counter comes from `before` by appending, each
once, the names that satisfy `P` and are not in the list of `before`, and by
counting them. -/
def Adds (before after : List String × Nat) (P : String → Prop) : Prop :=
  ∃ added : List String, after.1 = before.1 ++ added ∧ after.2 = before.2 + added.length ∧
    added.Nodup ∧ ∀ n, n ∈ added ↔ n ∉ before.1 ∧ P n

/-- The number of lines of one journal that pass the test of line 479, that
is, whose text holds `"event":"FSDJump"` or `"event":"CarrierJump"`, each
counted once; none when the file does not open. -/
def markedJumpLinesOf (fs : FileSystem) (path : String) : Nat :=
  match fs.contents path with
  | none => 0
  | some content => ((readLines content).filter isJumpLine).length

/-- A raw line is a jump event, as the specification words it: the line,
trimmed and not empty, decodes to an entry whose `event` is `FSDJump` or
`CarrierJump`. -/
def isJumpEvent (fromJson : String → Option QJsonDocument) (raw : String) : Bool :=
  if isEmpty (trimmed raw) then false
  else
    match fromJson (trimmed raw) with
    | none => false
    | some doc =>
      (doc.object.value "event").toString == "FSDJump" ||
        (doc.object.value "event").toString == "CarrierJump"

/-- The number of jump-event lines of one journal as the specification words
it, to compare with what `countTotalJumps` counts: the lines that are `FSDJump`
or `CarrierJump` events; none when the file does not open. -/
def jumpEventLinesOf (fs : FileSystem) (fromJson : String → Option QJsonDocument)
    (path : String) : Nat :=
  match fs.contents path with
  | none => 0
  | some content => ((readLines content).filter (isJumpEvent fromJson)).length

/-- Every line of the journal at a path holds `"event":"FSDJump"` or
`"event":"CarrierJump"` exactly when it is a jump event; true when the file
does not open. -/
def jumpCanonicalJournal (fs : FileSystem) (fromJson : String → Option QJsonDocument)
    (path : String) : Bool :=
  match fs.contents path with
  | none => true
  | some content =>
    (readLines content).all (fun raw => isJumpLine raw == isJumpEvent fromJson raw)

/-- The file `extractCommanderFromJournal` inspects (lines 493-500): the
argument, else the current journal, else the latest usable journal; empty when
there is none. -/
def chosenJournal (fs : FileSystem) (s : JournalMonitor) (journalFilePath : String) : String :=
  let filePath := journalFilePath
  let filePath := if isEmpty filePath then s.m_currentJournalFile else filePath
  if isEmpty filePath then getLatestJournalFile fs s else filePath

/-- What a journal line asks of the monitor when the forced filter is
inactive. -/
inductive LineEffect where
  | nothing
  | identity (commander : String)
  | location (system : String) (entry : QJsonObject)

/-- The effect of a line, read off the dispatch of `processJournalLine` (lines
227-237) and the tests of lines 248, 281, 303 and 325. -/
def lineEffect (fromJson : String → Option QJsonDocument) (line : String) : LineEffect :=
  match fromJson line with
  | none => .nothing
  | some doc =>
    let entry := doc.object
    let event := (entry.value "event").toString
    if event == "Commander" || event == "LoadGame" then
      if isEmpty (commanderOf entry) then .nothing else .identity (commanderOf entry)
    else if event == "FSDJump" || event == "CarrierJump" || event == "Location" then
      if isEmpty (entry.value "StarSystem").toString then .nothing
      else .location (entry.value "StarSystem").toString entry
    else .nothing

/-- The assignments an effect stands for: lines 250-262 for an identity event,
lines 292-293, 314-315 and 326-327 for a location event. -/
def applyEffect (s : JournalMonitor) : LineEffect → JournalMonitor
  | .nothing => s
  | .identity n =>
    { s with
      m_actualJournalCommander := n
      m_commanderName := n
      m_allDetectedCommanders :=
        if n ∈ s.m_allDetectedCommanders then s.m_allDetectedCommanders
        else s.m_allDetectedCommanders ++ [n] }
  | .location x e =>
    if x = s.m_currentSystem then s else { s with m_currentSystem := x, m_lastJumpData := e }

/-- The forced filter is inactive: `m_forcedCommanderEnabled` is false or
`m_forcedCommanderName` is empty. -/
def FilterInactive (s : JournalMonitor) : Prop :=
  s.m_forcedCommanderEnabled = false ∨ s.m_forcedCommanderName = ""

/-! ## A concrete reader of journal timestamps

The function `isoInstant` reads the form the game writes,
`YYYY-MM-DDTHH:MM:SSZ`.  It serves to run `switchToCommander` on literal
journals; the theorems hold for every reader of timestamps. -/

/-- The number written by a run of decimal digits. -/
def digitsValue (cs : List Char) : Option Nat :=
  cs.foldl
    (fun acc c =>
      match acc with
      | some n => if c.isDigit then some (n * 10 + (c.toNat - 48)) else none
      | none => none)
    (some 0)

/-- Days from 1970-01-01 to a date of the Gregorian calendar. -/
def daysFromCivil (year month day : Nat) : Int :=
  let y : Int := if month ≤ 2 then (year : Int) - 1 else (year : Int)
  let era : Int := y / 400
  let yoe : Int := y - era * 400
  let mp : Int := if month > 2 then (month : Int) - 3 else (month : Int) + 9
  let doy : Int := (153 * mp + 2) / 5 + (day : Int) - 1
  let doe : Int := yoe * 365 + yoe / 4 - yoe / 100 + doy
  era * 146097 + doe - 719468

/-- The instant written as `YYYY-MM-DDTHH:MM:SSZ`, in milliseconds since the
epoch; null for any other text. -/
def isoInstant (text : String) : QDateTime :=
  let cs := text.toList
  if cs.length = 20 ∧ cs.get? 4 = some '-' ∧ cs.get? 7 = some '-' ∧ cs.get? 10 = some 'T' ∧
      cs.get? 13 = some ':' ∧ cs.get? 16 = some ':' ∧ cs.get? 19 = some 'Z' then
    match digitsValue (cs.take 4), digitsValue ((cs.drop 5).take 2),
      digitsValue ((cs.drop 8).take 2), digitsValue ((cs.drop 11).take 2),
      digitsValue ((cs.drop 14).take 2), digitsValue ((cs.drop 17).take 2) with
    | some year, some month, some day, some hour, some minute, some second =>
      if 1 ≤ year ∧ 1 ≤ month ∧ month ≤ 12 ∧ 1 ≤ day ∧ day ≤ 31 ∧ hour < 24 ∧ minute < 60 ∧
          second < 60 then
        some ((((daysFromCivil year month day * 24 + hour) * 60 + minute) * 60 + second) * 1000)
      else none
    | _, _, _, _, _, _ => none
  else none

/-! ## Sample journal lines and states -/

/-- The journal line `{"event":"Commander","Name":"Alice"}`. -/
def lineCommanderAlice : String := "\x7b\"event\":\"Commander\",\"Name\":\"Alice\"\x7d"

/-- The journal line `{"event":"Commander","Name":"Bob"}`. -/
def lineCommanderBob : String := "\x7b\"event\":\"Commander\",\"Name\":\"Bob\"\x7d"

/-- The journal line of a jump to Sol. -/
def lineJumpSol : String :=
  "\x7b\"event\":\"FSDJump\",\"StarSystem\":\"Sol\",\"timestamp\":\"2024-01-01T00:00:00Z\"\x7d"

/-- The journal line `{"event":"Location","StarSystem":"Deciat"}`, without `StarPos`. -/
def lineLocationDeciat : String := "\x7b\"event\":\"Location\",\"StarSystem\":\"Deciat\"\x7d"

/-- The object decoded from `lineJumpSol`. -/
def entryJumpSol : QJsonObject :=
  [("event", .string "FSDJump"), ("StarSystem", .string "Sol"),
    ("timestamp", .string "2024-01-01T00:00:00Z")]

/-- The object decoded from `lineLocationDeciat`. -/
def entryLocationDeciat : QJsonObject :=
  [("event", .string "Location"), ("StarSystem", .string "Deciat")]

/-- The monitor after reading Alice's `Commander` line and then pinning Bob
with `setForcedCommander("Bob", true)`. -/
def alicePinnedBob : JournalMonitor :=
  (setForcedCommander
    (processJournalLine QJsonDocument.fromJson JournalMonitor.init lineCommanderAlice).1
    "Bob" true).1

/-- The journal line of a jump to Deciat. -/
def lineJumpDeciat : String :=
  "\x7b\"event\":\"FSDJump\",\"StarSystem\":\"Deciat\",\"timestamp\":\"2024-01-01T01:00:00Z\"\x7d"

/-- The object decoded from `lineJumpDeciat`. -/
def entryJumpDeciat : QJsonObject :=
  [("event", .string "FSDJump"), ("StarSystem", .string "Deciat"),
    ("timestamp", .string "2024-01-01T01:00:00Z")]

/-- A disk whose journal folder `/j` holds the single journal
`/j/Journal.1.log` with the given text. -/
def diskWith (text : String) : FileSystem :=
  { dirExists := fun d => d == "/j"
    journalEntries := fun d => if d == "/j" then ["/j/Journal.1.log"] else []
    readable := fun _ => true
    contents := fun p => if p == "/j/Journal.1.log" then some text else none
    fileExists := fun p => p == "/j/Journal.1.log"
    size := fun p => if p == "/j/Journal.1.log" then utf8Length text.toList else 0 }

/-- A journal of three lines: Alice, a jump to Sol, a jump to Deciat. -/
def textAliceSolDeciat : String :=
  lineCommanderAlice ++ "\n" ++ lineJumpSol ++ "\n" ++ lineJumpDeciat ++ "\n"

/-- A fresh monitor whose journal folder is `/j`. -/
def monitorAtJ : JournalMonitor := { JournalMonitor.init with m_journalPath := "/j" }

/-- The disk of `diskWith text` at a moment when the journal cannot be opened:
the file is there with its size, `QFile::open` fails. -/
def lockedDiskWith (text : String) : FileSystem :=
  { diskWith text with contents := fun _ => none }

/-- A monitor tailing `/j/Journal.1.log` that has consumed Alice's line of
`textAliceSolDeciat` and nothing after it. -/
def monitorAfterAliceLine : JournalMonitor :=
  { monitorAtJ with
    m_currentJournalFile := "/j/Journal.1.log"
    m_lastFileSize := utf8Length (lineCommanderAlice ++ "\n").toList
    m_commanderName := "Alice", m_actualJournalCommander := "Alice"
    m_allDetectedCommanders := ["Alice"] }

/-- The first part of `lineJumpSol`, as a write in progress leaves it. -/
def jumpSolHead : String := "\x7b\"event\":\"FSDJump\",\"StarSys"

/-- A journal of one hundred blank lines followed by Alice's line. -/
def textBlankThenAlice : String :=
  String.mk (List.replicate 100 (Char.ofNat 10)) ++ lineCommanderAlice

/-- A jump to Sol written with a blank after each colon. -/
def lineJumpSolSpaced : String :=
  "\x7b\"event\": \"FSDJump\", \"StarSystem\": \"Sol\"\x7d"

/-- A disk whose journal folder `/j` holds the given journals, path and text,
listed in the given order. -/
def diskOf (files : List (String × String)) : FileSystem :=
  { dirExists := fun d => d == "/j"
    journalEntries := fun d => if d == "/j" then files.map Prod.fst else []
    readable := fun _ => true
    contents := fun p => (files.find? fun f => f.1 == p).map Prod.snd
    fileExists := fun p => files.any fun f => f.1 == p
    size := fun p =>
      match files.find? fun f => f.1 == p with
      | some f => utf8Length f.2.toList
      | none => 0 }

/-- Alice's journal with the jump to Sol at 00:00. -/
def textAliceSolEarly : String := lineCommanderAlice ++ "\n" ++ lineJumpSol ++ "\n"

/-- Alice's journal with the jump to Deciat at 01:00. -/
def textAliceDeciatLate : String := lineCommanderAlice ++ "\n" ++ lineJumpDeciat ++ "\n"

/-- Alice's journal with the jump to Deciat at 01:00, her `Commander` line
being the eleventh line after ten blank ones. -/
def textAliceDeciatLateDeep : String :=
  String.mk (List.replicate 10 (Char.ofNat 10)) ++ textAliceDeciatLate

/-- The location event of `lineJumpSol`. -/
def eventSol : LatestLocation :=
  { system := "Sol", jumpData := entryJumpSol, time := some 1704067200000 }

/-- The location event of `lineJumpDeciat`. -/
def eventDeciat : LatestLocation :=
  { system := "Deciat", jumpData := entryJumpDeciat, time := some 1704070800000 }

/-- Two journals recognised as Alice's: the newer one holds the jump to Deciat
at 01:00, the older one the jump to Sol at 00:00. -/
def diskTwoAlice : FileSystem :=
  diskOf [("/j/Journal.2.log", textAliceDeciatLate), ("/j/Journal.1.log", textAliceSolEarly)]

/-- Two journals authored by Alice, the one with the later jump having her
`Commander` line on its eleventh line. -/
def diskDeepAlice : FileSystem :=
  diskOf [("/j/Journal.2.log", textAliceDeciatLateDeep), ("/j/Journal.1.log", textAliceSolEarly)]

/-- A journal of Bob that names Alice further down and holds a jump to
Deciat. -/
def textBobThenAlice : String :=
  lineCommanderBob ++ "\n" ++ "\x7b\"event\":\"LoadGame\",\"Commander\":\"Alice\"\x7d" ++ "\n" ++
    lineJumpDeciat ++ "\n"

/-- Bob's journal, the newer one, and Alice's journal with the jump to Sol. -/
def diskBobAndAlice : FileSystem :=
  diskOf [("/j/Journal.2.log", textBobThenAlice), ("/j/Journal.1.log", textAliceSolEarly)]

/-- A monitor with journal folder `/j` whose current system is Sol. -/
def monitorAtSol : JournalMonitor :=
  { monitorAtJ with m_currentSystem := "Sol", m_lastJumpData := entryJumpSol }

/-- A folder whose newest file holds no journal event and whose older file is
Alice's journal. -/
def diskNewestUnusable : FileSystem :=
  diskOf [("/j/Journal.2.log", "hello\n"), ("/j/Journal.1.log", textAliceSolEarly)]

/-- Alice's `Commander` line written with a blank after each colon and
comma. -/
def lineCommanderAliceSpaced : String :=
  "\x7b\"event\": \"Commander\", \"Name\": \"Alice\"\x7d"

/-- The journal line `{"event":"LoadGame","Commander":"Bob"}`. -/
def lineLoadGameBob : String := "\x7b\"event\":\"LoadGame\",\"Commander\":\"Bob\"\x7d"

/-- A folder whose newest journal holds a jump to Sol and no identity event,
and whose older journal is Bob's. -/
def diskJumpOnlyNewest : FileSystem :=
  diskOf [("/j/Journal.2.log", lineJumpSol ++ "\n"),
    ("/j/Journal.1.log", lineLoadGameBob ++ "\n" ++ lineJumpDeciat ++ "\n")]

/-- The journal line of a carrier jump to Sol. -/
def lineCarrierJumpSol : String :=
  "\x7b\"event\":\"CarrierJump\",\"StarSystem\":\"Sol\",\"timestamp\":\"2024-01-02T00:00:00Z\"\x7d"

/-- A journal with three jump-event lines among its five lines. -/
def textThreeJumps : String :=
  lineCommanderAlice ++ "\n" ++ lineJumpSol ++ "\n" ++ lineJumpDeciat ++ "\n" ++
    lineLocationDeciat ++ "\n" ++ lineCarrierJumpSol ++ "\n"

/-- A journal with five jump-event lines among its six lines. -/
def textFiveJumps : String :=
  lineCommanderBob ++ "\n" ++ lineJumpSol ++ "\n" ++ lineJumpDeciat ++ "\n" ++
    lineCarrierJumpSol ++ "\n" ++ lineJumpDeciat ++ "\n" ++ lineJumpSol ++ "\n"

/-- A folder with the two journals of three and five jump-event lines. -/
def diskThreeAndFive : FileSystem :=
  diskOf [("/j/Journal.2.log", textFiveJumps), ("/j/Journal.1.log", textThreeJumps)]

/-- Five journal lines: Alice, a jump to Sol, Bob, a jump to Deciat, a jump to
Sol. -/
def linesAliceBobJumps : List String :=
  [lineCommanderAlice, lineJumpSol, lineCommanderBob, lineJumpDeciat, lineJumpSol]

/-- A fresh monitor with journal folder `/j` and Alice pinned by
`setForcedCommander("Alice", true)`. -/
def monitorPinnedAlice : JournalMonitor := (setForcedCommander monitorAtJ "Alice" true).1

/-! ## Theorems -/

@[simp] theorem isEmpty_eq_true (s : String) : isEmpty s = true ↔ s = "" := by
  simp [isEmpty]

@[simp] theorem isEmpty_eq_false (s : String) : isEmpty s = false ↔ s ≠ "" := by
  simp [isEmpty]

/-- The effect of `extractCommanderName` in closed form. -/
theorem extractCommanderName_eq (s : JournalMonitor) (entry : QJsonObject) :
    extractCommanderName s entry =
      if commanderOf entry = "" then (s, [])
      else
        ({ s with
            m_actualJournalCommander := commanderOf entry
            m_commanderName := commanderOf entry
            m_allDetectedCommanders :=
              if commanderOf entry ∈ s.m_allDetectedCommanders then s.m_allDetectedCommanders
              else s.m_allDetectedCommanders ++ [commanderOf entry] },
          (if commanderOf entry ∈ s.m_allDetectedCommanders then []
            else [Signal.allDetectedCommandersChanged]) ++
          (if commanderOf entry = s.m_commanderName then []
            else [Signal.commanderNameChanged, Signal.commanderDetected (commanderOf entry)] ++
              (if s.m_commanderName = "" then []
                else [Signal.newJournalSession (commanderOf entry)]))) := by
  unfold extractCommanderName
  generalize commanderOf entry = n
  cases s
  by_cases h : n = ""
  · simp [h]
  · simp [h]
    split_ifs <;> simp_all

/-- The state reached by Alice's line followed by pinning Bob. -/
theorem alicePinnedBob_eq :
    alicePinnedBob =
      { JournalMonitor.init with
        m_commanderName := "Alice", m_actualJournalCommander := "Alice",
        m_allDetectedCommanders := ["Alice"],
        m_forcedCommanderName := "Bob", m_forcedCommanderEnabled := true } := by
  decide

/-- C1.  While a non-empty commander `A` is pinned and enabled and the journal
being read belongs to `B ≠ A`, `processFSDJump` and `processCarrierJump` leave
`m_currentSystem` and `m_lastJumpData` as they are and emit no signal, whatever
the entry holds. -/
theorem forced_filter_drops_jumps (s : JournalMonitor) (entry : QJsonObject) (A B : String)
    (hen : s.m_forcedCommanderEnabled = true) (hA : s.m_forcedCommanderName = A)
    (hne : A ≠ "") (hB : s.m_actualJournalCommander = B) (hAB : B ≠ A) :
    ((processFSDJump s entry).1.m_currentSystem = s.m_currentSystem ∧
      (processFSDJump s entry).1.m_lastJumpData = s.m_lastJumpData ∧
      (processFSDJump s entry).2 = []) ∧
    ((processCarrierJump s entry).1.m_currentSystem = s.m_currentSystem ∧
      (processCarrierJump s entry).1.m_lastJumpData = s.m_lastJumpData ∧
      (processCarrierJump s entry).2 = []) := by
  subst hA hB
  have h₁ : processFSDJump s entry = (s, []) := by
    simp [processFSDJump, hen, hne, hAB]
  have h₂ : processCarrierJump s entry = (s, []) := by
    simp [processCarrierJump, hen, hne, hAB]
  simp [h₁, h₂]

/-- Witness of C1: Bob pinned, Alice's journal, a jump to Sol. -/
theorem forced_filter_drops_jumps_witness :
    ((processFSDJump alicePinnedBob entryJumpSol).1.m_currentSystem = "" ∧
      (processFSDJump alicePinnedBob entryJumpSol).1.m_lastJumpData = [] ∧
      (processFSDJump alicePinnedBob entryJumpSol).2 = []) ∧
    ((processCarrierJump alicePinnedBob entryJumpSol).1.m_currentSystem = "" ∧
      (processCarrierJump alicePinnedBob entryJumpSol).1.m_lastJumpData = [] ∧
      (processCarrierJump alicePinnedBob entryJumpSol).2 = []) :=
  forced_filter_drops_jumps alicePinnedBob entryJumpSol "Bob" "Alice"
    (by decide) (by decide) (by decide) (by decide) (by decide)

/-- C2, the code at the failing input.  Bob is pinned and the journal belongs
to Alice, yet a `Location` line moves `m_currentSystem` to Sol, stores the entry
and emits `currentSystemChanged`; the `FSDJump` line to the same system is
dropped in the same state. -/
theorem location_bypasses_forced_filter :
    alicePinnedBob.m_forcedCommanderEnabled = true ∧
    alicePinnedBob.m_forcedCommanderName = "Bob" ∧
    alicePinnedBob.m_actualJournalCommander = "Alice" ∧
    processJournalLine QJsonDocument.fromJson alicePinnedBob
        "\x7b\"event\":\"Location\",\"StarSystem\":\"Sol\"\x7d" =
      ({ alicePinnedBob with
          m_currentSystem := "Sol"
          m_lastJumpData := [("event", .string "Location"), ("StarSystem", .string "Sol")] },
        [Signal.currentSystemChanged]) ∧
    processJournalLine QJsonDocument.fromJson alicePinnedBob lineJumpSol =
      (alicePinnedBob, []) := by
  decide

/-- C3.  Identity events are never filtered: replacing the pinned commander
and the enabled flag of a state by any other values changes neither the
`m_commanderName`, `m_actualJournalCommander` and `m_allDetectedCommanders`
that `extractCommanderName` produces nor the signals it emits.  In particular
an identity event naming `B`, that is an entry whose member `Name` is `B`, or
whose member `Name` is empty and whose member `Commander` is `B`, with `B` not
empty, sets `m_actualJournalCommander` and `m_commanderName` to `B` and makes
`B` a known commander, whoever is pinned and whether the filter is enabled or
not. -/
theorem identity_events_never_filtered (s : JournalMonitor) (A : String) (en : Bool)
    (entry : QJsonObject) (B : String) :
    (extractCommanderName
        { s with m_forcedCommanderName := A, m_forcedCommanderEnabled := en }
        entry).1.m_commanderName = (extractCommanderName s entry).1.m_commanderName ∧
    (extractCommanderName
        { s with m_forcedCommanderName := A, m_forcedCommanderEnabled := en }
        entry).1.m_actualJournalCommander =
      (extractCommanderName s entry).1.m_actualJournalCommander ∧
    (extractCommanderName
        { s with m_forcedCommanderName := A, m_forcedCommanderEnabled := en }
        entry).1.m_allDetectedCommanders =
      (extractCommanderName s entry).1.m_allDetectedCommanders ∧
    (extractCommanderName
        { s with m_forcedCommanderName := A, m_forcedCommanderEnabled := en }
        entry).2 = (extractCommanderName s entry).2 ∧
    (extractCommanderName
        { s with m_forcedCommanderName := A, m_forcedCommanderEnabled := en }
        entry).1.m_actualJournalCommander =
      (if commanderOf entry = "" then s.m_actualJournalCommander else commanderOf entry) ∧
    ((entry.value "Name").toString = B ∨
        ((entry.value "Name").toString = "" ∧ (entry.value "Commander").toString = B) →
      B ≠ "" →
      (extractCommanderName
          { s with m_forcedCommanderName := A, m_forcedCommanderEnabled := en }
          entry).1.m_actualJournalCommander = B ∧
        (extractCommanderName
          { s with m_forcedCommanderName := A, m_forcedCommanderEnabled := en }
          entry).1.m_commanderName = B ∧
        B ∈ (extractCommanderName
          { s with m_forcedCommanderName := A, m_forcedCommanderEnabled := en }
          entry).1.m_allDetectedCommanders) := by
  refine ⟨?_, ?_, ?_, ?_, ?_, ?_⟩
  · simp only [extractCommanderName_eq]
    by_cases h : commanderOf entry = "" <;> simp [h]
  · simp only [extractCommanderName_eq]
    by_cases h : commanderOf entry = "" <;> simp [h]
  · simp only [extractCommanderName_eq]
    by_cases h : commanderOf entry = "" <;> simp [h]
  · simp only [extractCommanderName_eq]
    by_cases h : commanderOf entry = "" <;> simp [h]
  · simp only [extractCommanderName_eq]
    by_cases h : commanderOf entry = "" <;> simp [h]
  · intro hB hne
    have hname : commanderOf entry = B := by
      unfold commanderOf
      rcases hB with h | ⟨h₁, h₂⟩
      · simp [h, hne]
      · simp [h₁, h₂]
    simp only [extractCommanderName_eq, hname, hne, ↓reduceIte, true_and]
    by_cases hmem : B ∈ s.m_allDetectedCommanders
    · simp [hmem]
    · simp [hmem]

/-- Witness of C3: Alice is pinned and the filter is enabled; a `Commander`
entry with `Name` Bob and a `LoadGame` entry with `Commander` Bob each set
`m_actualJournalCommander` to Bob, and so does Bob's `Commander` line read by
`processJournalLine`. -/
theorem identity_events_never_filtered_witness :
    monitorPinnedAlice.m_forcedCommanderEnabled = true ∧
    monitorPinnedAlice.m_forcedCommanderName = "Alice" ∧
    (extractCommanderName monitorPinnedAlice
      [("event", .string "Commander"), ("Name", .string "Bob")]).1.m_actualJournalCommander =
      "Bob" ∧
    (extractCommanderName monitorPinnedAlice
      [("event", .string "LoadGame"), ("Commander", .string "Bob")]).1.m_actualJournalCommander =
      "Bob" ∧
    (processJournalLine QJsonDocument.fromJson monitorPinnedAlice
      lineCommanderBob).1.m_actualJournalCommander = "Bob" :=
  ⟨by decide, by decide,
    ((identity_events_never_filtered monitorAtJ "Alice" true
      [("event", .string "Commander"), ("Name", .string "Bob")] "Bob").2.2.2.2.2
      (Or.inl (by decide)) (by decide)).1,
    ((identity_events_never_filtered monitorAtJ "Alice" true
      [("event", .string "LoadGame"), ("Commander", .string "Bob")] "Bob").2.2.2.2.2
      (Or.inr ⟨by decide, by decide⟩) (by decide)).1,
    by decide⟩

/-- C4.  A `Commander` or `LoadGame` line whose name `n` (`commanderOf`) is
non-empty leaves the monitor as it was except that `m_actualJournalCommander`
and `m_commanderName` are `n` and `n` is appended to `m_allDetectedCommanders`
when absent from it; with an empty name the monitor is unchanged and no signal
is emitted. -/
theorem identity_event_effect (fromJson : String → Option QJsonDocument) (s : JournalMonitor)
    (line : String) (doc : QJsonDocument) (hdoc : fromJson line = some doc)
    (hev : (doc.object.value "event").toString = "Commander" ∨
      (doc.object.value "event").toString = "LoadGame") :
    (commanderOf doc.object ≠ "" →
      (processJournalLine fromJson s line).1 =
        { s with
          m_actualJournalCommander := commanderOf doc.object
          m_commanderName := commanderOf doc.object
          m_allDetectedCommanders :=
            if commanderOf doc.object ∈ s.m_allDetectedCommanders then s.m_allDetectedCommanders
            else s.m_allDetectedCommanders ++ [commanderOf doc.object] }) ∧
    (commanderOf doc.object = "" → processJournalLine fromJson s line = (s, [])) := by
  have h : processJournalLine fromJson s line = extractCommanderName s doc.object := by
    rcases hev with hev | hev <;> simp [processJournalLine, hdoc, hev]
  rw [h, extractCommanderName_eq]
  constructor <;> intro hn <;> simp [hn]

/-- Witness of C4: Bob's `Commander` line read after Alice's, and a `LoadGame`
line that names nobody. -/
theorem identity_event_effect_witness :
    (processJournalLine QJsonDocument.fromJson alicePinnedBob lineCommanderBob).1 =
        { alicePinnedBob with
          m_actualJournalCommander := "Bob"
          m_commanderName := "Bob"
          m_allDetectedCommanders := ["Alice", "Bob"] } ∧
    processJournalLine QJsonDocument.fromJson alicePinnedBob "\x7b\"event\":\"LoadGame\"\x7d" =
        (alicePinnedBob, []) :=
  ⟨(identity_event_effect QJsonDocument.fromJson alicePinnedBob lineCommanderBob
      (.ofObject [("event", .string "Commander"), ("Name", .string "Bob")])
      (by decide) (by decide)).1 (by decide),
    (identity_event_effect QJsonDocument.fromJson alicePinnedBob "\x7b\"event\":\"LoadGame\"\x7d"
      (.ofObject [("event", .string "LoadGame")]) (by decide) (by decide)).2 (by decide)⟩

/-- The effect of `processFSDJump` in closed form. -/
theorem processFSDJump_eq (s : JournalMonitor) (entry : QJsonObject) :
    processFSDJump s entry =
      if (entry.value "StarSystem").toString ≠ "" ∧
          (entry.value "StarSystem").toString ≠ s.m_currentSystem ∧
          ¬(s.m_forcedCommanderEnabled = true ∧ s.m_forcedCommanderName ≠ "" ∧
            s.m_actualJournalCommander ≠ s.m_forcedCommanderName) then
        ({ s with m_currentSystem := (entry.value "StarSystem").toString, m_lastJumpData := entry },
          [Signal.currentSystemChanged,
            Signal.fsdJumpDetected (entry.value "StarSystem").toString entry])
      else (s, []) := by
  unfold processFSDJump
  generalize (entry.value "StarSystem").toString = system
  by_cases h₁ : system = "" <;> by_cases h₂ : system = s.m_currentSystem <;>
    by_cases h₃ : s.m_forcedCommanderEnabled = true <;>
    by_cases h₄ : s.m_forcedCommanderName = "" <;>
    by_cases h₅ : s.m_actualJournalCommander = s.m_forcedCommanderName <;>
    simp [h₁, h₂, h₃, h₄, h₅]

/-- The effect of `processCarrierJump` in closed form. -/
theorem processCarrierJump_eq (s : JournalMonitor) (entry : QJsonObject) :
    processCarrierJump s entry =
      if (entry.value "StarSystem").toString ≠ "" ∧
          (entry.value "StarSystem").toString ≠ s.m_currentSystem ∧
          ¬(s.m_forcedCommanderEnabled = true ∧ s.m_forcedCommanderName ≠ "" ∧
            s.m_actualJournalCommander ≠ s.m_forcedCommanderName) then
        ({ s with m_currentSystem := (entry.value "StarSystem").toString, m_lastJumpData := entry },
          [Signal.currentSystemChanged,
            Signal.carrierJumpDetected (entry.value "StarSystem").toString entry])
      else (s, []) := by
  unfold processCarrierJump
  generalize (entry.value "StarSystem").toString = system
  by_cases h₁ : system = "" <;> by_cases h₂ : system = s.m_currentSystem <;>
    by_cases h₃ : s.m_forcedCommanderEnabled = true <;>
    by_cases h₄ : s.m_forcedCommanderName = "" <;>
    by_cases h₅ : s.m_actualJournalCommander = s.m_forcedCommanderName <;>
    simp [h₁, h₂, h₃, h₄, h₅]

/-- The effect of `processLocation` in closed form. -/
theorem processLocation_eq (s : JournalMonitor) (entry : QJsonObject) :
    processLocation s entry =
      if (entry.value "StarSystem").toString ≠ "" ∧
          (entry.value "StarSystem").toString ≠ s.m_currentSystem then
        ({ s with m_currentSystem := (entry.value "StarSystem").toString, m_lastJumpData := entry },
          Signal.currentSystemChanged ::
            (if entry.contains "StarPos" = true then
              [Signal.fsdJumpDetected (entry.value "StarSystem").toString entry]
            else []))
      else (s, []) := by
  unfold processLocation
  generalize (entry.value "StarSystem").toString = system
  by_cases h₁ : system = "" <;> by_cases h₂ : system = s.m_currentSystem <;>
    by_cases h₃ : entry.contains "StarPos" = true <;>
    simp [h₁, h₂, h₃]

/-- The location handlers leave `m_commanderName` alone and never emit
`newJournalSession`. -/
theorem location_handlers_session (s : JournalMonitor) (entry : QJsonObject) :
    ((processFSDJump s entry).1.m_commanderName = s.m_commanderName ∧
      (processFSDJump s entry).2.filter Signal.isNewJournalSession = []) ∧
    ((processCarrierJump s entry).1.m_commanderName = s.m_commanderName ∧
      (processCarrierJump s entry).2.filter Signal.isNewJournalSession = []) ∧
    ((processLocation s entry).1.m_commanderName = s.m_commanderName ∧
      (processLocation s entry).2.filter Signal.isNewJournalSession = []) := by
  rw [processFSDJump_eq, processCarrierJump_eq, processLocation_eq]
  refine ⟨?_, ?_, ?_⟩
  · split_ifs <;> simp [Signal.isNewJournalSession, List.filter]
  · split_ifs <;> simp [Signal.isNewJournalSession, List.filter]
  · split_ifs <;> simp [Signal.isNewJournalSession, List.filter]

/-- What `extractCommanderName` does to `m_commanderName` and which
`newJournalSession` signals it emits. -/
theorem extractCommanderName_session (s : JournalMonitor) (entry : QJsonObject) :
    ((extractCommanderName s entry).1.m_commanderName,
      (extractCommanderName s entry).2.filter Signal.isNewJournalSession) =
      if commanderOf entry ≠ "" then
        (commanderOf entry,
          if s.m_commanderName ≠ "" ∧ s.m_commanderName ≠ commanderOf entry then
            [Signal.newJournalSession (commanderOf entry)]
          else [])
      else (s.m_commanderName, []) := by
  rw [extractCommanderName_eq]
  generalize commanderOf entry = n
  generalize hc : s.m_commanderName = c
  by_cases h : n = ""
  · simp [h, hc]
  · by_cases hm : n ∈ s.m_allDetectedCommanders <;> by_cases hnc : n = c <;>
      by_cases hp : c = "" <;>
      simp [h, hm, hnc, hp, Signal.isNewJournalSession, List.filter]
    all_goals first
      | (subst hnc; simp_all)
      | rw [if_neg (fun hcn => hnc hcn.symm)]

/-- What a line does to `m_commanderName` and which `newJournalSession` signals
it emits. -/
theorem processJournalLine_session (fromJson : String → Option QJsonDocument)
    (s : JournalMonitor) (line : String) :
    ((processJournalLine fromJson s line).1.m_commanderName,
      (processJournalLine fromJson s line).2.filter Signal.isNewJournalSession) =
      match fromJson line with
      | none => (s.m_commanderName, [])
      | some doc =>
        if ((doc.object.value "event").toString = "Commander" ∨
            (doc.object.value "event").toString = "LoadGame") ∧ commanderOf doc.object ≠ "" then
          (commanderOf doc.object,
            if s.m_commanderName ≠ "" ∧ s.m_commanderName ≠ commanderOf doc.object then
              [Signal.newJournalSession (commanderOf doc.object)]
            else [])
        else (s.m_commanderName, []) := by
  unfold processJournalLine
  cases hdoc : fromJson line with
  | none => simp
  | some doc =>
    simp only []
    generalize doc.object = entry
    generalize hev : (entry.value "event").toString = event
    have hl := location_handlers_session s entry
    have he := extractCommanderName_session s entry
    by_cases h1 : event = "Commander"
    · subst h1
      simpa using he
    · by_cases h2 : event = "FSDJump"
      · subst h2
        simp [hl.1]
      · by_cases h3 : event = "CarrierJump"
        · subst h3
          simp [hl.2.1]
        · by_cases h4 : event = "Location"
          · subst h4
            simp [hl.2.2]
          · by_cases h5 : event = "LoadGame"
            · subst h5
              simpa using he
            · simp [h1, h2, h3, h4, h5]

/-- The function `processLines` over a concatenation. -/
theorem processLines_append (fromJson : String → Option QJsonDocument) (s : JournalMonitor)
    (l₁ l₂ : List String) :
    processLines fromJson s (l₁ ++ l₂) =
      ((processLines fromJson (processLines fromJson s l₁).1 l₂).1,
        (processLines fromJson s l₁).2 ++
          (processLines fromJson (processLines fromJson s l₁).1 l₂).2) := by
  induction l₁ generalizing s with
  | nil => simp [processLines]
  | cons l ls ih => simp [processLines, ih, List.append_assoc]

/-- Lines that name no commander other than the current one keep
`m_commanderName` and emit no `newJournalSession`. -/
theorem processLines_same_commander (fromJson : String → Option QJsonDocument) (A : String)
    (mid : List String)
    (hmid : ∀ l ∈ mid, ∀ d, fromJson l = some d →
      ((d.object.value "event").toString = "Commander" ∨
        (d.object.value "event").toString = "LoadGame") →
      commanderOf d.object = A ∨ commanderOf d.object = "")
    (s : JournalMonitor) (hs : s.m_commanderName = A) :
    (processLines fromJson s mid).1.m_commanderName = A ∧
      (processLines fromJson s mid).2.filter Signal.isNewJournalSession = [] := by
  induction mid generalizing s with
  | nil => simp [processLines, hs]
  | cons l ls ih =>
    have hl := processJournalLine_session fromJson s l
    have key : (processJournalLine fromJson s l).1.m_commanderName = A ∧
        (processJournalLine fromJson s l).2.filter Signal.isNewJournalSession = [] := by
      cases hd : fromJson l with
      | none =>
        rw [hd] at hl
        simp only [Prod.mk.injEq] at hl
        exact ⟨hl.1.trans hs, hl.2⟩
      | some d =>
        rw [hd] at hl
        simp only at hl
        by_cases hid : ((d.object.value "event").toString = "Commander" ∨
            (d.object.value "event").toString = "LoadGame") ∧ commanderOf d.object ≠ ""
        · rw [if_pos hid] at hl
          have hA : commanderOf d.object = A := by
            rcases hmid l (List.mem_cons_self _ _) d hd hid.1 with h | h
            · exact h
            · exact absurd h hid.2
          simp only [Prod.mk.injEq] at hl
          refine ⟨hl.1.trans hA, ?_⟩
          rw [hl.2, hs, hA]
          simp
        · rw [if_neg hid] at hl
          simp only [Prod.mk.injEq] at hl
          exact ⟨hl.1.trans hs, hl.2⟩
    have ih' := ih (fun l' hl' => hmid l' (List.mem_cons_of_mem _ hl'))
      (processJournalLine fromJson s l).1 key.1
    simp only [processLines, List.filter_append]
    exact ⟨ih'.1, by rw [key.2, ih'.2]; rfl⟩

/-- C5.  An identity line with non-empty name `n` emits `newJournalSession n`
once when the previous `m_commanderName` was non-empty and different from `n`,
and no `newJournalSession` at all otherwise.  Hence, from a monitor without a
commander, a line naming `A`, then lines naming nobody else, then a line naming
`B ≠ A` emit one `newJournalSession` in total, and it carries `B`. -/
theorem new_session_signal (fromJson : String → Option QJsonDocument) (s : JournalMonitor)
    (line : String) (doc : QJsonDocument) (hdoc : fromJson line = some doc)
    (hev : (doc.object.value "event").toString = "Commander" ∨
      (doc.object.value "event").toString = "LoadGame")
    (hn : commanderOf doc.object ≠ "") :
    (processJournalLine fromJson s line).2.filter Signal.isNewJournalSession =
      (if s.m_commanderName ≠ "" ∧ s.m_commanderName ≠ commanderOf doc.object then
        [Signal.newJournalSession (commanderOf doc.object)]
      else []) ∧
    (∀ (s₀ : JournalMonitor) (lineA lineB : String) (mid : List String)
      (docA docB : QJsonDocument),
      s₀.m_commanderName = "" →
      fromJson lineA = some docA →
      ((docA.object.value "event").toString = "Commander" ∨
        (docA.object.value "event").toString = "LoadGame") →
      commanderOf docA.object ≠ "" →
      fromJson lineB = some docB →
      ((docB.object.value "event").toString = "Commander" ∨
        (docB.object.value "event").toString = "LoadGame") →
      commanderOf docB.object ≠ "" →
      commanderOf docA.object ≠ commanderOf docB.object →
      (∀ l ∈ mid, ∀ d, fromJson l = some d →
        ((d.object.value "event").toString = "Commander" ∨
          (d.object.value "event").toString = "LoadGame") →
        commanderOf d.object = commanderOf docA.object ∨ commanderOf d.object = "") →
      (processLines fromJson s₀ (lineA :: (mid ++ [lineB]))).2.filter
          Signal.isNewJournalSession =
        [Signal.newJournalSession (commanderOf docB.object)]) := by
  constructor
  · have h := processJournalLine_session fromJson s line
    rw [hdoc] at h
    simp only [hev, hn, ne_eq, not_false_eq_true, and_self, ↓reduceIte, Prod.mk.injEq] at h
    simpa using h.2
  · intro s₀ lineA lineB mid docA docB hs₀ hA hevA hnA hB hevB hnB hAB hmid
    have h₁ := processJournalLine_session fromJson s₀ lineA
    rw [hA] at h₁
    simp only [hevA, hnA, ne_eq, not_false_eq_true, and_self, ↓reduceIte, Prod.mk.injEq,
      hs₀, not_true_eq_false, false_and] at h₁
    have h₂ := processLines_same_commander fromJson (commanderOf docA.object) mid hmid
      (processJournalLine fromJson s₀ lineA).1 h₁.1
    have h₃ := processJournalLine_session fromJson
      (processLines fromJson (processJournalLine fromJson s₀ lineA).1 mid).1 lineB
    rw [hB] at h₃
    simp only [hevB, hnB, ne_eq, not_false_eq_true, and_self, ↓reduceIte, Prod.mk.injEq,
      h₂.1, hnA, hAB] at h₃
    simp only [processLines, processLines_append, List.filter_append, h₁.2, h₂.2, h₃.2,
      List.nil_append, List.append_nil]

/-- Witness of C5: Alice's line, a jump, then Bob's line, from the initial
monitor. -/
theorem new_session_signal_witness :
    (processJournalLine QJsonDocument.fromJson alicePinnedBob lineCommanderBob).2.filter
        Signal.isNewJournalSession = [Signal.newJournalSession "Bob"] ∧
    (processLines QJsonDocument.fromJson JournalMonitor.init
        [lineCommanderAlice, lineJumpSol, lineCommanderBob]).2.filter
        Signal.isNewJournalSession = [Signal.newJournalSession "Bob"] :=
  ⟨(new_session_signal QJsonDocument.fromJson alicePinnedBob lineCommanderBob
      (.ofObject [("event", .string "Commander"), ("Name", .string "Bob")])
      (by decide) (by decide) (by decide)).1,
    (new_session_signal QJsonDocument.fromJson alicePinnedBob lineCommanderBob
      (.ofObject [("event", .string "Commander"), ("Name", .string "Bob")])
      (by decide) (by decide) (by decide)).2 JournalMonitor.init lineCommanderAlice
      lineCommanderBob [lineJumpSol]
      (.ofObject [("event", .string "Commander"), ("Name", .string "Alice")])
      (.ofObject [("event", .string "Commander"), ("Name", .string "Bob")])
      (by decide) (by decide) (by decide) (by decide) (by decide) (by decide) (by decide)
      (by decide) (by decide)⟩

/-- C7.  An `FSDJump`, `CarrierJump` or `Location` line that the forced filter
does not reject and whose `StarSystem` is non-empty and new leaves the monitor
as it was except that `m_currentSystem` is that system and `m_lastJumpData` is
the whole decoded object; it emits `currentSystemChanged` first, and every
`fsdJumpDetected` / `carrierJumpDetected` it emits carries the system and that
same whole object. -/
theorem accepted_location_update (fromJson : String → Option QJsonDocument)
    (s : JournalMonitor) (line : String) (doc : QJsonDocument)
    (hdoc : fromJson line = some doc)
    (hev : (doc.object.value "event").toString = "FSDJump" ∨
      (doc.object.value "event").toString = "CarrierJump" ∨
      (doc.object.value "event").toString = "Location")
    (hacc : ¬(s.m_forcedCommanderEnabled = true ∧ s.m_forcedCommanderName ≠ "" ∧
      s.m_actualJournalCommander ≠ s.m_forcedCommanderName))
    (hsys : (doc.object.value "StarSystem").toString ≠ "")
    (hnew : (doc.object.value "StarSystem").toString ≠ s.m_currentSystem) :
    (processJournalLine fromJson s line).1 =
      { s with
        m_currentSystem := (doc.object.value "StarSystem").toString
        m_lastJumpData := doc.object } ∧
    (processJournalLine fromJson s line).2 =
      Signal.currentSystemChanged ::
        (if (doc.object.value "event").toString = "FSDJump" then
          [Signal.fsdJumpDetected (doc.object.value "StarSystem").toString doc.object]
        else if (doc.object.value "event").toString = "CarrierJump" then
          [Signal.carrierJumpDetected (doc.object.value "StarSystem").toString doc.object]
        else if doc.object.contains "StarPos" = true then
          [Signal.fsdJumpDetected (doc.object.value "StarSystem").toString doc.object]
        else []) ∧
    (∀ sys e, Signal.fsdJumpDetected sys e ∈ (processJournalLine fromJson s line).2 ∨
        Signal.carrierJumpDetected sys e ∈ (processJournalLine fromJson s line).2 →
      sys = (doc.object.value "StarSystem").toString ∧ e = doc.object) := by
  have hcond : (doc.object.value "StarSystem").toString ≠ "" ∧
      (doc.object.value "StarSystem").toString ≠ s.m_currentSystem ∧
      ¬(s.m_forcedCommanderEnabled = true ∧ s.m_forcedCommanderName ≠ "" ∧
        s.m_actualJournalCommander ≠ s.m_forcedCommanderName) := ⟨hsys, hnew, hacc⟩
  rcases hev with hev | hev | hev
  · have h : processJournalLine fromJson s line = processFSDJump s doc.object := by
      simp [processJournalLine, hdoc, hev]
    rw [h, processFSDJump_eq, if_pos hcond]
    simp [hev]
  · have h : processJournalLine fromJson s line = processCarrierJump s doc.object := by
      simp [processJournalLine, hdoc, hev]
    rw [h, processCarrierJump_eq, if_pos hcond]
    simp [hev]
  · have h : processJournalLine fromJson s line = processLocation s doc.object := by
      simp [processJournalLine, hdoc, hev]
    rw [h, processLocation_eq, if_pos ⟨hsys, hnew⟩]
    simp [hev]

/-- Witness of C7: the jump to Sol read by a fresh monitor. -/
theorem accepted_location_update_witness :
    (processJournalLine QJsonDocument.fromJson JournalMonitor.init lineJumpSol).1 =
      { JournalMonitor.init with m_currentSystem := "Sol", m_lastJumpData := entryJumpSol } ∧
    (processJournalLine QJsonDocument.fromJson JournalMonitor.init lineJumpSol).2 =
      [Signal.currentSystemChanged, Signal.fsdJumpDetected "Sol" entryJumpSol] :=
  ⟨(accepted_location_update QJsonDocument.fromJson JournalMonitor.init lineJumpSol
      (.ofObject entryJumpSol) (by decide) (by decide) (by decide) (by decide) (by decide)).1,
    (accepted_location_update QJsonDocument.fromJson JournalMonitor.init lineJumpSol
      (.ofObject entryJumpSol) (by decide) (by decide) (by decide) (by decide) (by decide)).2.1⟩

/-- C8.  An `FSDJump`, `CarrierJump` or `Location` line whose `StarSystem` is
empty, missing or equal to `m_currentSystem` changes nothing and emits nothing;
and whatever the line, reading it a second time right after the first changes
nothing more and emits nothing. -/
theorem location_update_idempotent (fromJson : String → Option QJsonDocument)
    (s : JournalMonitor) (line : String) (doc : QJsonDocument)
    (hdoc : fromJson line = some doc)
    (hev : (doc.object.value "event").toString = "FSDJump" ∨
      (doc.object.value "event").toString = "CarrierJump" ∨
      (doc.object.value "event").toString = "Location") :
    ((doc.object.value "StarSystem").toString = "" ∨
        (doc.object.value "StarSystem").toString = s.m_currentSystem →
      processJournalLine fromJson s line = (s, [])) ∧
    processJournalLine fromJson (processJournalLine fromJson s line).1 line =
      ((processJournalLine fromJson s line).1, []) := by
  rcases hev with hev | hev | hev
  · have h : ∀ t, processJournalLine fromJson t line = processFSDJump t doc.object := by
      intro t
      simp [processJournalLine, hdoc, hev]
    simp only [h, processFSDJump_eq]
    constructor
    · intro hs
      rw [if_neg]
      rintro ⟨h₁, h₂, -⟩
      exact hs.elim h₁ h₂
    · split_ifs <;> simp_all
  · have h : ∀ t, processJournalLine fromJson t line = processCarrierJump t doc.object := by
      intro t
      simp [processJournalLine, hdoc, hev]
    simp only [h, processCarrierJump_eq]
    constructor
    · intro hs
      rw [if_neg]
      rintro ⟨h₁, h₂, -⟩
      exact hs.elim h₁ h₂
    · split_ifs <;> simp_all
  · have h : ∀ t, processJournalLine fromJson t line = processLocation t doc.object := by
      intro t
      simp [processJournalLine, hdoc, hev]
    simp only [h, processLocation_eq]
    constructor
    · intro hs
      rw [if_neg]
      rintro ⟨h₁, h₂⟩
      exact hs.elim h₁ h₂
    · split_ifs <;> simp_all

/-- Witness of C8: a jump line without `StarSystem`, and the Deciat line read
twice by a fresh monitor. -/
theorem location_update_idempotent_witness :
    processJournalLine QJsonDocument.fromJson alicePinnedBob "\x7b\"event\":\"FSDJump\"\x7d" =
      (alicePinnedBob, []) ∧
    processJournalLine QJsonDocument.fromJson
        (processJournalLine QJsonDocument.fromJson JournalMonitor.init lineLocationDeciat).1
        lineLocationDeciat =
      ((processJournalLine QJsonDocument.fromJson JournalMonitor.init lineLocationDeciat).1,
        []) :=
  ⟨(location_update_idempotent QJsonDocument.fromJson alicePinnedBob
      "\x7b\"event\":\"FSDJump\"\x7d" (.ofObject [("event", .string "FSDJump")])
      (by decide) (by decide)).1 (by decide),
    (location_update_idempotent QJsonDocument.fromJson JournalMonitor.init lineLocationDeciat
      (.ofObject entryLocationDeciat) (by decide) (by decide)).2⟩

/-- C9.  A `Location` line whose `StarSystem` is non-empty and new sets
`m_currentSystem` to it and emits `currentSystemChanged`, with or without
coordinates; it emits an `fsdJumpDetected` if and only if the decoded object
has a `StarPos` member. -/
theorem location_without_coordinates (fromJson : String → Option QJsonDocument)
    (s : JournalMonitor) (line : String) (doc : QJsonDocument)
    (hdoc : fromJson line = some doc)
    (hev : (doc.object.value "event").toString = "Location")
    (hsys : (doc.object.value "StarSystem").toString ≠ "")
    (hnew : (doc.object.value "StarSystem").toString ≠ s.m_currentSystem) :
    (processJournalLine fromJson s line).1.m_currentSystem =
      (doc.object.value "StarSystem").toString ∧
    Signal.currentSystemChanged ∈ (processJournalLine fromJson s line).2 ∧
    ((∃ sig ∈ (processJournalLine fromJson s line).2, sig.isFsdJumpDetected = true) ↔
      doc.object.contains "StarPos" = true) ∧
    (doc.object.contains "StarPos" = false →
      (processJournalLine fromJson s line).2 = [Signal.currentSystemChanged]) := by
  have h : processJournalLine fromJson s line = processLocation s doc.object := by
    simp [processJournalLine, hdoc, hev]
  rw [h, processLocation_eq, if_pos ⟨hsys, hnew⟩]
  by_cases hp : doc.object.contains "StarPos" = true
  · simp [hp, Signal.isFsdJumpDetected]
  · simp [hp, Signal.isFsdJumpDetected]

/-- Witness of C9: the line `{"event":"Location","StarSystem":"Deciat"}` read
while Bob is pinned sets the system to Deciat and emits `currentSystemChanged`
alone. -/
theorem location_without_coordinates_witness :
    (processJournalLine QJsonDocument.fromJson alicePinnedBob
        lineLocationDeciat).1.m_currentSystem = "Deciat" ∧
    (processJournalLine QJsonDocument.fromJson alicePinnedBob lineLocationDeciat).2 =
      [Signal.currentSystemChanged] :=
  ⟨(location_without_coordinates QJsonDocument.fromJson alicePinnedBob lineLocationDeciat
      (.ofObject entryLocationDeciat) (by decide) (by decide) (by decide) (by decide)).1,
    (location_without_coordinates QJsonDocument.fromJson alicePinnedBob lineLocationDeciat
      (.ofObject entryLocationDeciat) (by decide) (by decide) (by decide)
      (by decide)).2.2.2 (by decide)⟩

/-- C10.  A line that does not decode, that decodes to something else than an
object, that has no `event` member, or whose `event` is none of the five
handled names leaves the monitor unchanged and emits nothing, and the lines
after it are processed as if it were not there. -/
theorem unusable_line_is_skipped (fromJson : String → Option QJsonDocument)
    (s : JournalMonitor) (line : String)
    (h : fromJson line = none ∨
      ∃ doc, fromJson line = some doc ∧
        ((∀ o, doc ≠ QJsonDocument.ofObject o) ∨
          doc.object.contains "event" = false ∨
          ((doc.object.value "event").toString ≠ "Commander" ∧
            (doc.object.value "event").toString ≠ "LoadGame" ∧
            (doc.object.value "event").toString ≠ "FSDJump" ∧
            (doc.object.value "event").toString ≠ "CarrierJump" ∧
            (doc.object.value "event").toString ≠ "Location"))) :
    processJournalLine fromJson s line = (s, []) ∧
    ∀ rest, processLines fromJson s (line :: rest) = processLines fromJson s rest := by
  have key : processJournalLine fromJson s line = (s, []) := by
    rcases h with h | ⟨doc, hdoc, h⟩
    · simp [processJournalLine, h]
    · have hev : (doc.object.value "event").toString ≠ "Commander" ∧
          (doc.object.value "event").toString ≠ "LoadGame" ∧
          (doc.object.value "event").toString ≠ "FSDJump" ∧
          (doc.object.value "event").toString ≠ "CarrierJump" ∧
          (doc.object.value "event").toString ≠ "Location" := by
        rcases h with h | h | h
        · have ho : doc.object = [] := by
            cases doc with
            | empty => rfl
            | ofArray a => rfl
            | ofObject o => exact absurd rfl (h o)
          rw [ho]
          decide
        · have hv : doc.object.value "event" = QJsonValue.undefined := by
            unfold QJsonObject.value
            unfold QJsonObject.contains at h
            have hf : List.find? (fun kv => kv.1 == "event") doc.object = none := by
              rw [List.find?_eq_none]
              intro x hx hxe
              have : doc.object.any (fun kv => kv.1 == "event") = true :=
                List.any_eq_true.mpr ⟨x, hx, hxe⟩
              rw [h] at this
              exact Bool.noConfusion this
            rw [hf]
          rw [hv]
          decide
        · exact h
      obtain ⟨h₁, h₂, h₃, h₄, h₅⟩ := hev
      simp [processJournalLine, hdoc, h₁, h₂, h₃, h₄, h₅]
  refine ⟨key, fun rest => ?_⟩
  simp [processLines, key]

/-- Witness of C10: a truncated line, an array, an object without `event` and
an unhandled event, each followed by the jump to Sol. -/
theorem unusable_line_is_skipped_witness :
    (processJournalLine QJsonDocument.fromJson alicePinnedBob
        "\x7b\"event\":\"FSDJump\",\"StarSys" = (alicePinnedBob, []) ∧
      processJournalLine QJsonDocument.fromJson alicePinnedBob "[1, 2]" = (alicePinnedBob, []) ∧
      processJournalLine QJsonDocument.fromJson alicePinnedBob
        "\x7b\"StarSystem\":\"Sol\"\x7d" = (alicePinnedBob, []) ∧
      processJournalLine QJsonDocument.fromJson alicePinnedBob
        "\x7b\"event\":\"Fileheader\",\"Odyssey\":true\x7d" = (alicePinnedBob, [])) ∧
    processLines QJsonDocument.fromJson JournalMonitor.init
        ["\x7b\"event\":\"FSDJump\",\"StarSys", lineJumpSol] =
      processLines QJsonDocument.fromJson JournalMonitor.init [lineJumpSol] :=
  ⟨⟨(unusable_line_is_skipped QJsonDocument.fromJson alicePinnedBob
        "\x7b\"event\":\"FSDJump\",\"StarSys" (Or.inl (by decide))).1,
      (unusable_line_is_skipped QJsonDocument.fromJson alicePinnedBob "[1, 2]"
        (Or.inr ⟨.ofArray [.double 1 0, .double 2 0], by decide,
          Or.inl (fun o ho => QJsonDocument.noConfusion ho)⟩)).1,
      (unusable_line_is_skipped QJsonDocument.fromJson alicePinnedBob
        "\x7b\"StarSystem\":\"Sol\"\x7d"
        (Or.inr ⟨.ofObject [("StarSystem", .string "Sol")], by decide,
          Or.inr (Or.inl (by decide))⟩)).1,
      (unusable_line_is_skipped QJsonDocument.fromJson alicePinnedBob
        "\x7b\"event\":\"Fileheader\",\"Odyssey\":true\x7d"
        (Or.inr ⟨.ofObject [("event", .string "Fileheader"), ("Odyssey", .bool true)],
          by decide, Or.inr (Or.inr (by decide))⟩)).1⟩,
    (unusable_line_is_skipped QJsonDocument.fromJson JournalMonitor.init
      "\x7b\"event\":\"FSDJump\",\"StarSys" (Or.inl (by decide))).2 [lineJumpSol]⟩

/-- The relation `KnownCommandersGrow` holds between a list and itself. -/
theorem KnownCommandersGrow.refl (l : List String) : KnownCommandersGrow l l :=
  ⟨List.prefix_refl l, fun h => h⟩

/-- The relation `KnownCommandersGrow` composes. -/
theorem KnownCommandersGrow.trans {a b c : List String} (h₁ : KnownCommandersGrow a b)
    (h₂ : KnownCommandersGrow b c) : KnownCommandersGrow a c :=
  ⟨h₁.1.trans h₂.1, fun h => h₂.2 (h₁.2 h)⟩

/-- Appending a non-empty name that is absent. -/
theorem KnownCommandersGrow.append_new (l : List String) (n : String) (hn : n ≠ "")
    (habs : n ∉ l) : KnownCommandersGrow l (l ++ [n]) := by
  refine ⟨List.prefix_append l [n], fun h => ⟨?_, ?_⟩⟩
  · rw [List.nodup_append]
    refine ⟨h.1, List.nodup_singleton n, ?_⟩
    intro a ha hb
    rw [List.mem_singleton] at hb
    exact habs (hb ▸ ha)
  · intro hmem
    rw [List.mem_append, List.mem_singleton] at hmem
    rcases hmem with hmem | hmem
    · exact h.2 hmem
    · exact hn hmem.symm

/-- The update of lines 709-713 only grows the list. -/
theorem scanStep_grow (acc : List String × Nat) (commander : String) :
    KnownCommandersGrow acc.1
      (if (!isEmpty commander && !acc.1.contains commander) = true then
        (acc.1 ++ [commander], acc.2 + 1)
      else acc).1 := by
  split_ifs with h
  · simp only [Bool.and_eq_true, Bool.not_eq_true', isEmpty_eq_false,
      List.contains_eq_any_beq, List.any_eq_false, beq_iff_eq] at h
    refine KnownCommandersGrow.append_new _ _ h.1 ?_
    intro hmem
    exact h.2 _ hmem rfl
  · exact KnownCommandersGrow.refl _

/-- One scanned line only grows the list. -/
theorem scanLine_grow (fromJson : String → Option QJsonDocument) (acc : List String × Nat)
    (raw : String) : KnownCommandersGrow acc.1 (scanLine fromJson acc raw).1 := by
  unfold scanLine
  simp only []
  by_cases h₁ : isEmpty (trimmed raw) = true
  · rw [if_pos h₁]
    exact KnownCommandersGrow.refl _
  · rw [if_neg h₁]
    by_cases h₂ : (contains (trimmed raw) eventLoadGame ||
        contains (trimmed raw) eventCommander) = true
    · rw [if_pos h₂]
      cases fromJson (trimmed raw) with
      | none => exact KnownCommandersGrow.refl _
      | some doc => exact scanStep_grow acc _
    · rw [if_neg h₂]
      exact KnownCommandersGrow.refl _

/-- A fold of `scanLine` only grows the list. -/
theorem scanLines_grow (fromJson : String → Option QJsonDocument) (lines : List String)
    (acc : List String × Nat) :
    KnownCommandersGrow acc.1 (lines.foldl (scanLine fromJson) acc).1 := by
  induction lines generalizing acc with
  | nil => exact KnownCommandersGrow.refl _
  | cons l ls ih => exact (scanLine_grow fromJson acc l).trans (ih _)

/-- One scanned journal only grows the list. -/
theorem scanJournal_grow (fs : FileSystem) (fromJson : String → Option QJsonDocument)
    (acc : List String × Nat) (journalPath : String) :
    KnownCommandersGrow acc.1 (scanJournal fs fromJson acc journalPath).1 := by
  unfold scanJournal
  cases fs.contents journalPath with
  | none => exact KnownCommandersGrow.refl _
  | some content => exact scanLines_grow fromJson _ acc

/-- A fold of `scanJournal` only grows the list. -/
theorem scanJournals_grow (fs : FileSystem) (fromJson : String → Option QJsonDocument)
    (journals : List String) (acc : List String × Nat) :
    KnownCommandersGrow acc.1 (journals.foldl (scanJournal fs fromJson) acc).1 := by
  induction journals generalizing acc with
  | nil => exact KnownCommandersGrow.refl _
  | cons j js ih => exact (scanJournal_grow fs fromJson acc j).trans (ih _)

/-- A journal line only grows the list. -/
theorem processJournalLine_grow (fromJson : String → Option QJsonDocument)
    (s : JournalMonitor) (line : String) :
    KnownCommandersGrow s.m_allDetectedCommanders
      (processJournalLine fromJson s line).1.m_allDetectedCommanders := by
  have hextract : ∀ entry, KnownCommandersGrow s.m_allDetectedCommanders
      (extractCommanderName s entry).1.m_allDetectedCommanders := by
    intro entry
    rw [extractCommanderName_eq]
    by_cases h : commanderOf entry = ""
    · simp only [h, ↓reduceIte]
      exact KnownCommandersGrow.refl _
    · simp only [h, ↓reduceIte]
      by_cases hm : commanderOf entry ∈ s.m_allDetectedCommanders
      · simp only [hm, ↓reduceIte]
        exact KnownCommandersGrow.refl _
      · simp only [hm, ↓reduceIte]
        exact KnownCommandersGrow.append_new _ _ h hm
  unfold processJournalLine
  cases fromJson line with
  | none => exact KnownCommandersGrow.refl _
  | some doc =>
    simp only []
    split_ifs
    · exact hextract _
    · rw [processFSDJump_eq]
      split_ifs <;> exact KnownCommandersGrow.refl _
    · rw [processCarrierJump_eq]
      split_ifs <;> exact KnownCommandersGrow.refl _
    · rw [processLocation_eq]
      split_ifs <;> exact KnownCommandersGrow.refl _
    · exact hextract _
    · exact KnownCommandersGrow.refl _

/-- C6.  Every operation of the monitor only grows `m_allDetectedCommanders`:
for `processJournalLine` on any line, `scanAllJournalsForCommanders`,
`switchToCommander`, `setForcedCommander` and `updateCurrentJournalFile`, the
list before the call is a prefix of the list after it, and a list that had no
duplicate and no empty name has none afterwards. -/
theorem known_commanders_only_grow (fs : FileSystem)
    (fromJson : String → Option QJsonDocument) (fromString : String → QDateTime)
    (s : JournalMonitor) (line commanderName forcedCommander : String) (enabled : Bool) :
    KnownCommandersGrow s.m_allDetectedCommanders
      (processJournalLine fromJson s line).1.m_allDetectedCommanders ∧
    KnownCommandersGrow s.m_allDetectedCommanders
      (scanAllJournalsForCommanders fs fromJson s).1.m_allDetectedCommanders ∧
    KnownCommandersGrow s.m_allDetectedCommanders
      (switchToCommander fs fromJson fromString s commanderName).1.m_allDetectedCommanders ∧
    KnownCommandersGrow s.m_allDetectedCommanders
      (setForcedCommander s forcedCommander enabled).1.m_allDetectedCommanders ∧
    KnownCommandersGrow s.m_allDetectedCommanders
      (updateCurrentJournalFile fs fromJson s).1.m_allDetectedCommanders := by
  refine ⟨processJournalLine_grow fromJson s line, ?_, ?_, ?_, ?_⟩
  · unfold scanAllJournalsForCommanders
    simp only []
    split_ifs
    · exact KnownCommandersGrow.refl _
    · exact scanJournals_grow fs fromJson _ (s.m_allDetectedCommanders, 0)
    · exact scanJournals_grow fs fromJson _ (s.m_allDetectedCommanders, 0)
  · unfold switchToCommander
    simp only []
    split_ifs <;> exact KnownCommandersGrow.refl _
  · exact KnownCommandersGrow.refl _
  · unfold updateCurrentJournalFile
    simp only []
    split_ifs <;> exact KnownCommandersGrow.refl _

/-! ## The tailer -/

/-- On a monitor that is not monitoring, `setJournalPath` never restarts. -/
theorem setJournalPathWith_stopped (r₁ r₂ : JournalMonitor → Step) (s : JournalMonitor)
    (path : String) (hs : s.m_isMonitoring = false) :
    setJournalPathWith r₁ s path = setJournalPathWith r₂ s path := by
  simp [setJournalPathWith, hs]

/-- On a monitor that is not monitoring, `startMonitoring` never reaches the
nested call of line 40: its outcome does not depend on what stands for it. -/
theorem startMonitoringWith_stopped (r₁ r₂ : JournalMonitor → Step) (fs : FileSystem)
    (fromJson : String → Option QJsonDocument) (possiblePaths : List String)
    (s : JournalMonitor) (hs : s.m_isMonitoring = false) :
    startMonitoringWith r₁ fs fromJson possiblePaths s =
      startMonitoringWith r₂ fs fromJson possiblePaths s := by
  have hanalyze : ∀ path, analyzeJournalFolderWith r₁ fs s path =
      analyzeJournalFolderWith r₂ fs s path := by
    intro path
    simp only [analyzeJournalFolderWith, setJournalPathWith_stopped r₁ r₂ s path hs]
  have hdetect : autoDetectJournalFolderWith r₁ fs s possiblePaths =
      autoDetectJournalFolderWith r₂ fs s possiblePaths := by
    induction possiblePaths with
    | nil => rfl
    | cons path rest ih => simp only [autoDetectJournalFolderWith, hanalyze, ih]
  have hmon : ∀ paths, (autoDetectJournalFolderWith r₂ fs s paths).2.monitor.m_isMonitoring
      = false := by
    intro paths
    induction paths with
    | nil => simpa [autoDetectJournalFolderWith] using hs
    | cons path rest ih =>
      simp only [autoDetectJournalFolderWith]
      split_ifs with h
      · simp only [analyzeJournalFolderWith]
        split_ifs
        · exact hs
        · exact hs
        · simp only [setJournalPathWith, hs]
          split_ifs <;> first | exact hs | rfl | contradiction
        · exact hs
      · exact ih
  simp only [startMonitoringWith, hdetect]
  split_ifs with h₁ h₂
  · simp only [Step.andThen,
      setJournalPathWith_stopped r₁ r₂ _ _ (hmon possiblePaths)]
  · rfl
  · rfl

set_option maxRecDepth 100000 in
/-- C11, the code at the failing input.  The folder holds one journal of three
lines.  `startMonitoring` hands the three lines to `processJournalLine` and
leaves `m_lastFileSize` at 0; the first `checkForUpdates` after it, with the
file unchanged, hands the same three lines over again and emits the two jumps a
second time. -/
theorem startup_lines_are_delivered_again :
    (startMonitoring (diskWith textAliceSolDeciat) QJsonDocument.fromJson []
        monitorAtJ).delivered = [lineCommanderAlice, lineJumpSol, lineJumpDeciat] ∧
    (startMonitoring (diskWith textAliceSolDeciat) QJsonDocument.fromJson []
        monitorAtJ).monitor.m_currentJournalFile = "/j/Journal.1.log" ∧
    (startMonitoring (diskWith textAliceSolDeciat) QJsonDocument.fromJson []
        monitorAtJ).monitor.m_lastFileSize = 0 ∧
    (checkForUpdates (diskWith textAliceSolDeciat) QJsonDocument.fromJson
        (startMonitoring (diskWith textAliceSolDeciat) QJsonDocument.fromJson []
          monitorAtJ).monitor).delivered =
      [lineCommanderAlice, lineJumpSol, lineJumpDeciat] ∧
    (checkForUpdates (diskWith textAliceSolDeciat) QJsonDocument.fromJson
        (startMonitoring (diskWith textAliceSolDeciat) QJsonDocument.fromJson []
          monitorAtJ).monitor).signals =
      [Signal.currentSystemChanged, Signal.fsdJumpDetected "Sol" entryJumpSol,
        Signal.currentSystemChanged, Signal.fsdJumpDetected "Deciat" entryJumpDeciat] := by
  decide

/-- The relation `SameBookkeeping` holds between a monitor and itself. -/
theorem sameBookkeeping_refl (s : JournalMonitor) : SameBookkeeping s s :=
  ⟨rfl, rfl, rfl, rfl, rfl, rfl, rfl, rfl, rfl⟩

/-- The relation `SameBookkeeping` composes. -/
theorem sameBookkeeping_trans {s t u : JournalMonitor} (h₁ : SameBookkeeping s t)
    (h₂ : SameBookkeeping t u) : SameBookkeeping s u := by
  obtain ⟨a₁, a₂, a₃, a₄, a₅, a₆, a₇, a₈, a₉⟩ := h₁
  obtain ⟨b₁, b₂, b₃, b₄, b₅, b₆, b₇, b₈, b₉⟩ := h₂
  exact ⟨b₁.trans a₁, b₂.trans a₂, b₃.trans a₃, b₄.trans a₄, b₅.trans a₅, b₆.trans a₆,
    b₇.trans a₇, b₈.trans a₈, b₉.trans a₉⟩

/-- A journal line leaves the bookkeeping fields alone. -/
theorem processJournalLine_bookkeeping (fromJson : String → Option QJsonDocument)
    (s : JournalMonitor) (line : String) :
    SameBookkeeping s (processJournalLine fromJson s line).1 := by
  unfold processJournalLine
  cases fromJson line with
  | none => exact sameBookkeeping_refl s
  | some doc =>
    simp only []
    split_ifs
    · rw [extractCommanderName_eq]
      split_ifs <;> exact ⟨rfl, rfl, rfl, rfl, rfl, rfl, rfl, rfl, rfl⟩
    · rw [processFSDJump_eq]
      split_ifs <;> exact ⟨rfl, rfl, rfl, rfl, rfl, rfl, rfl, rfl, rfl⟩
    · rw [processCarrierJump_eq]
      split_ifs <;> exact ⟨rfl, rfl, rfl, rfl, rfl, rfl, rfl, rfl, rfl⟩
    · rw [processLocation_eq]
      split_ifs <;> exact ⟨rfl, rfl, rfl, rfl, rfl, rfl, rfl, rfl, rfl⟩
    · rw [extractCommanderName_eq]
      split_ifs <;> exact ⟨rfl, rfl, rfl, rfl, rfl, rfl, rfl, rfl, rfl⟩
    · exact sameBookkeeping_refl s

/-- Journal lines leave the bookkeeping fields alone. -/
theorem processLines_bookkeeping (fromJson : String → Option QJsonDocument)
    (lines : List String) (s : JournalMonitor) :
    SameBookkeeping s (processLines fromJson s lines).1 := by
  induction lines generalizing s with
  | nil => exact sameBookkeeping_refl s
  | cons l ls ih =>
    exact sameBookkeeping_trans (processJournalLine_bookkeeping fromJson s l) (ih _)

/-- Reading a file leaves the bookkeeping fields alone, whether it opens or
not. -/
theorem processJournalFile_bookkeeping (fs : FileSystem)
    (fromJson : String → Option QJsonDocument) (s : JournalMonitor) (filePath : String) :
    SameBookkeeping s (processJournalFile fs fromJson s filePath).monitor := by
  unfold processJournalFile
  cases fs.contents filePath with
  | none => exact sameBookkeeping_refl s
  | some content => exact processLines_bookkeeping fromJson _ s

set_option maxRecDepth 100000 in
/-- C12, the code at the failing input.  The monitor has consumed the first
line of its journal; the file has grown by two jump lines but cannot be opened
at the moment of the step.  `onFileChanged` and the growth check of
`checkForUpdates` emit `journalError`, read nothing, and still store the new
size as the offset, so the unread lines lie behind the offset: once the file
opens again, the next step has nothing to read. -/
theorem offset_skips_unread_text_when_open_fails :
    monitorAfterAliceLine.m_lastFileSize < textAliceSolDeciat.length ∧
    onFileChanged (lockedDiskWith textAliceSolDeciat) QJsonDocument.fromJson
        monitorAfterAliceLine "/j/Journal.1.log" =
      { monitor := { monitorAfterAliceLine with m_lastFileSize := textAliceSolDeciat.length }
        signals := [Signal.journalError "Failed to open journal file: /j/Journal.1.log"]
        delivered := [] } ∧
    checkForGrowth (lockedDiskWith textAliceSolDeciat) QJsonDocument.fromJson
        monitorAfterAliceLine =
      onFileChanged (lockedDiskWith textAliceSolDeciat) QJsonDocument.fromJson
        monitorAfterAliceLine "/j/Journal.1.log" ∧
    onFileChanged (diskWith textAliceSolDeciat) QJsonDocument.fromJson
        { monitorAfterAliceLine with m_lastFileSize := textAliceSolDeciat.length }
        "/j/Journal.1.log" =
      { monitor := { monitorAfterAliceLine with m_lastFileSize := textAliceSolDeciat.length }
        signals := [], delivered := [] } ∧
    (onFileChanged (diskWith textAliceSolDeciat) QJsonDocument.fromJson
        monitorAfterAliceLine "/j/Journal.1.log").delivered = [lineJumpSol, lineJumpDeciat] := by
  decide

/-- The offset after a tail-read step is at least the size of the file the
step looked at, and the step keeps the current journal. -/
theorem tail_read_offset (fs : FileSystem) (fromJson : String → Option QJsonDocument)
    (s : JournalMonitor) :
    ((onFileChanged fs fromJson s s.m_currentJournalFile).monitor.m_currentJournalFile =
        s.m_currentJournalFile ∧
      fs.size s.m_currentJournalFile ≤
        (onFileChanged fs fromJson s s.m_currentJournalFile).monitor.m_lastFileSize ∧
      s.m_lastFileSize ≤
        (onFileChanged fs fromJson s s.m_currentJournalFile).monitor.m_lastFileSize) ∧
    ((checkForGrowth fs fromJson s).monitor.m_currentJournalFile = s.m_currentJournalFile ∧
      (s.m_currentJournalFile ≠ "" → fs.fileExists s.m_currentJournalFile = true →
        fs.size s.m_currentJournalFile ≤ (checkForGrowth fs fromJson s).monitor.m_lastFileSize) ∧
      s.m_lastFileSize ≤ (checkForGrowth fs fromJson s).monitor.m_lastFileSize) := by
  have hb := processJournalFile_bookkeeping fs fromJson s s.m_currentJournalFile
  obtain ⟨-, hcur, hoff, -⟩ := hb
  constructor
  · unfold onFileChanged
    rw [if_pos (beq_self_eq_true _)]
    by_cases hg : fs.size s.m_currentJournalFile > s.m_lastFileSize
    · rw [if_pos hg]
      exact ⟨hcur, le_refl _, le_of_lt hg⟩
    · rw [if_neg hg]
      exact ⟨rfl, Nat.le_of_not_gt hg, le_refl _⟩
  · unfold checkForGrowth
    by_cases h₁ : (!isEmpty s.m_currentJournalFile) = true
    · rw [if_pos h₁]
      by_cases h₂ : (fs.fileExists s.m_currentJournalFile &&
          decide (fs.size s.m_currentJournalFile > s.m_lastFileSize)) = true
      · rw [if_pos h₂]
        simp only [Bool.and_eq_true, decide_eq_true_eq] at h₂
        exact ⟨hcur, fun _ _ => le_refl _, le_of_lt h₂.2⟩
      · rw [if_neg h₂]
        refine ⟨rfl, fun _ hex => ?_, le_refl _⟩
        simp only [hex, Bool.true_and, decide_eq_true_eq] at h₂
        exact Nat.le_of_not_gt h₂
    · rw [if_neg h₁]
      refine ⟨rfl, fun hne _ => ?_, le_refl _⟩
      simp [hne] at h₁

/-- C13.  Let a tail-read step (`onFileChanged` for the current journal, or the
growth check of `checkForUpdates`) have run, and let the size of the journal
not have grown since.  Then a further tail-read step of either kind hands no
line to `processJournalLine`, emits no signal and leaves the monitor, its offset
included, as it is, however often it is repeated; the same holds for a whole
`checkForUpdates` as long as no other journal is the latest usable one. -/
theorem tail_read_idempotent (fs fs' : FileSystem) (fromJson : String → Option QJsonDocument)
    (s s' : JournalMonitor)
    (hne : s.m_currentJournalFile ≠ "")
    (hmiss : fs.fileExists s.m_currentJournalFile = false → fs.size s.m_currentJournalFile = 0)
    (hsize : fs'.size s.m_currentJournalFile ≤ fs.size s.m_currentJournalFile)
    (hstep : s' = (onFileChanged fs fromJson s s.m_currentJournalFile).monitor ∨
      s' = (checkForGrowth fs fromJson s).monitor) :
    onFileChanged fs' fromJson s' s'.m_currentJournalFile =
      { monitor := s', signals := [], delivered := [] } ∧
    checkForGrowth fs' fromJson s' = { monitor := s', signals := [], delivered := [] } ∧
    (getLatestJournalFile fs' s' = "" ∨
        getLatestJournalFile fs' s' = s'.m_currentJournalFile →
      checkForUpdates fs' fromJson s' = { monitor := s', signals := [], delivered := [] }) ∧
    (∀ n : ℕ,
      (fun t => (onFileChanged fs' fromJson t t.m_currentJournalFile).monitor)^[n] s' = s' ∧
      (fun t => (checkForGrowth fs' fromJson t).monitor)^[n] s' = s') := by
  have hoff := tail_read_offset fs fromJson s
  have hs' : s'.m_currentJournalFile = s.m_currentJournalFile ∧
      fs.size s.m_currentJournalFile ≤ s'.m_lastFileSize := by
    rcases hstep with h | h
    · rw [h]
      exact ⟨hoff.1.1, hoff.1.2.1⟩
    · rw [h]
      refine ⟨hoff.2.1, ?_⟩
      by_cases hex : fs.fileExists s.m_currentJournalFile = true
      · exact hoff.2.2.1 hne hex
      · rw [hmiss (by simpa using hex)]
        exact Nat.zero_le _
  have hng : ¬ fs'.size s'.m_currentJournalFile > s'.m_lastFileSize := by
    rw [hs'.1]
    omega
  have h₁ : onFileChanged fs' fromJson s' s'.m_currentJournalFile =
      { monitor := s', signals := [], delivered := [] } := by
    unfold onFileChanged
    rw [if_pos (beq_self_eq_true _), if_neg hng]
  have h₂ : checkForGrowth fs' fromJson s' =
      { monitor := s', signals := [], delivered := [] } := by
    unfold checkForGrowth
    split_ifs with ha hb
    · simp only [Bool.and_eq_true, decide_eq_true_eq] at hb
      exact absurd hb.2 hng
    · rfl
    · rfl
  refine ⟨h₁, h₂, ?_, ?_⟩
  · intro hlatest
    unfold checkForUpdates
    rw [h₂]
    simp only [Step.andThen, List.nil_append]
    rw [if_neg]
    intro hcond
    simp only [Bool.and_eq_true, Bool.not_eq_true', isEmpty_eq_false, bne_iff_ne, ne_eq] at hcond
    rcases hlatest with h | h
    · exact hcond.1 h
    · exact hcond.2 h
  · intro n
    constructor
    · induction n with
      | zero => rfl
      | succ k ih => rw [Function.iterate_succ_apply', ih, h₁]
    · induction n with
      | zero => rfl
      | succ k ih => rw [Function.iterate_succ_apply', ih, h₂]

set_option maxRecDepth 100000 in
/-- Witness of C13: the journal of three lines, read once from behind Alice's
line, then polled again. -/
theorem tail_read_idempotent_witness :
    (onFileChanged (diskWith textAliceSolDeciat) QJsonDocument.fromJson monitorAfterAliceLine
        "/j/Journal.1.log").delivered = [lineJumpSol, lineJumpDeciat] ∧
    checkForGrowth (diskWith textAliceSolDeciat) QJsonDocument.fromJson
        (onFileChanged (diskWith textAliceSolDeciat) QJsonDocument.fromJson
          monitorAfterAliceLine "/j/Journal.1.log").monitor =
      { monitor := (onFileChanged (diskWith textAliceSolDeciat) QJsonDocument.fromJson
          monitorAfterAliceLine "/j/Journal.1.log").monitor
        signals := [], delivered := [] } :=
  ⟨by decide,
    (tail_read_idempotent (diskWith textAliceSolDeciat) (diskWith textAliceSolDeciat)
      QJsonDocument.fromJson monitorAfterAliceLine
      (onFileChanged (diskWith textAliceSolDeciat) QJsonDocument.fromJson
        monitorAfterAliceLine "/j/Journal.1.log").monitor
      (by decide) (by decide) (le_refl _) (Or.inl rfl)).2.1⟩

/-- The sample disk is coherent at its journal. -/
theorem diskWith_coherent (text : String) : (diskWith text).Coherent "/j/Journal.1.log" := by
  refine ⟨fun h => ?_, fun content h => ?_⟩
  · simp [diskWith] at h
  · simp only [diskWith, beq_self_eq_true, ↓reduceIte, Option.some.injEq] at h
    subst h
    simp [diskWith]

/-- What `updateCurrentJournalFile` does to the tail target and the offset. -/
theorem updateCurrentJournalFile_target (fs : FileSystem)
    (fromJson : String → Option QJsonDocument) (s : JournalMonitor) :
    (getLatestJournalFile fs s ≠ "" ∧ getLatestJournalFile fs s ≠ s.m_currentJournalFile →
      (updateCurrentJournalFile fs fromJson s).1.m_currentJournalFile =
          getLatestJournalFile fs s ∧
        (updateCurrentJournalFile fs fromJson s).1.m_lastFileSize = 0) ∧
    (getLatestJournalFile fs s = "" ∨ getLatestJournalFile fs s = s.m_currentJournalFile →
      updateCurrentJournalFile fs fromJson s = (s, [])) := by
  constructor
  · intro h
    have hcond : (!isEmpty (getLatestJournalFile fs s) &&
        getLatestJournalFile fs s != s.m_currentJournalFile) = true := by
      simp [h.1, h.2]
    unfold updateCurrentJournalFile
    simp only [hcond, ↓reduceIte]
    constructor <;> (split_ifs <;> rfl)
  · intro h
    have hcond : ¬ (!isEmpty (getLatestJournalFile fs s) &&
        getLatestJournalFile fs s != s.m_currentJournalFile) = true := by
      simp only [Bool.and_eq_true, Bool.not_eq_true', isEmpty_eq_false, bne_iff_ne, ne_eq,
        not_and, not_not]
      intro hne
      rcases h with h | h
      · exact absurd h hne
      · exact h
    unfold updateCurrentJournalFile
    simp only []
    rw [if_neg hcond]

/-- The loop of `hasValidJournalData` in closed form: the flags on entry, or a
marked line among those the counter still lets through. -/
theorem hasValidJournalDataLoop_eq (lines : List String) (lineCount : Nat)
    (hasJump hasCommander : Bool) :
    hasValidJournalDataLoop lines lineCount hasJump hasCommander =
      (hasJump || hasCommander ||
        (lines.take (100 - lineCount)).any fun raw =>
          (contains (trimmed raw) eventFSDJump || contains (trimmed raw) eventCarrierJump) ||
            (contains (trimmed raw) eventCommander || contains (trimmed raw) eventLoadGame)) := by
  induction lines generalizing lineCount hasJump hasCommander with
  | nil => simp [hasValidJournalDataLoop]
  | cons raw rest ih =>
    unfold hasValidJournalDataLoop
    by_cases hlt : lineCount < 100
    · have hsub : 100 - lineCount = (100 - (lineCount + 1)) + 1 := by omega
      rw [if_pos hlt, hsub, List.take_succ_cons, List.any_cons]
      simp only []
      rw [ih]
      generalize (contains (trimmed raw) eventFSDJump ||
        contains (trimmed raw) eventCarrierJump) = jm
      generalize (contains (trimmed raw) eventCommander ||
        contains (trimmed raw) eventLoadGame) = cm
      generalize (List.take (100 - (lineCount + 1)) rest).any _ = tl
      cases hasJump <;> cases hasCommander <;> cases jm <;> cases cm <;> cases tl <;> rfl
    · have hsub : 100 - lineCount = 0 := by omega
      rw [if_neg hlt, hsub]
      simp

set_option maxRecDepth 100000 in
/-- Counterexample to C16.  A journal of one hundred blank lines followed by a
`Commander` line is rejected although its first non-empty line is an identity
event: the blank lines use up the window.  A journal whose only line is a jump
written with blanks after the colons is rejected too, although
`processJournalLine` takes that line as a jump; and a journal whose only line
is a truncated jump is accepted. -/
theorem usable_window_counterexample :
    (hasValidJournalData (diskWith textBlankThenAlice) "/j/Journal.1.log" = false ∧
      usableBySpec (diskWith textBlankThenAlice) QJsonDocument.fromJson "/j/Journal.1.log"
        = true) ∧
    (hasValidJournalData (diskWith lineJumpSolSpaced) "/j/Journal.1.log" = false ∧
      usableBySpec (diskWith lineJumpSolSpaced) QJsonDocument.fromJson "/j/Journal.1.log"
        = true ∧
      (processJournalLine QJsonDocument.fromJson JournalMonitor.init
        lineJumpSolSpaced).1.m_currentSystem = "Sol") ∧
    (hasValidJournalData (diskWith jumpSolHead) "/j/Journal.1.log" = true ∧
      usableBySpec (diskWith jumpSolHead) QJsonDocument.fromJson "/j/Journal.1.log"
        = false) := by
  decide

/-- C16 as amended.  `hasValidJournalData` accepts a file exactly when the file
opens and one of its first 100 lines, blank lines counted, contains one of the
texts `"event":"FSDJump"`, `"event":"CarrierJump"`, `"event":"Commander"`,
`"event":"LoadGame"`; a file that does not open is rejected. -/
theorem hasValidJournalData_iff (fs : FileSystem) (filePath : String) :
    (hasValidJournalData fs filePath = true ↔
      ∃ content, fs.contents filePath = some content ∧
        ∃ raw ∈ (readLines content).take 100,
          contains (trimmed raw) eventFSDJump = true ∨
            contains (trimmed raw) eventCarrierJump = true ∨
            contains (trimmed raw) eventCommander = true ∨
            contains (trimmed raw) eventLoadGame = true) ∧
    (fs.contents filePath = none → hasValidJournalData fs filePath = false) := by
  unfold hasValidJournalData
  cases hc : fs.contents filePath with
  | none => simp
  | some content =>
    simp only [hasValidJournalDataLoop_eq, Bool.or_self, Bool.false_or, Nat.sub_zero,
      List.any_eq_true, Bool.or_eq_true, Option.some.injEq, exists_eq_left', reduceCtorEq,
      false_implies, and_true]
    constructor
    · rintro ⟨raw, hmem, h⟩
      refine ⟨raw, hmem, ?_⟩
      tauto
    · rintro ⟨raw, hmem, h⟩
      refine ⟨raw, hmem, ?_⟩
      tauto

/-- C17.  `findLatestJournalWithFSDJump` returns the first candidate of the
list, which is ordered newest first, that `hasValidJournalData` accepts: when
some candidate is usable, the result is usable and every candidate before it is
not; when none is usable, in particular when the list is empty, the result is
the empty path; and, candidates being non-empty paths, the result is empty only
when none is usable. -/
theorem findLatest_is_first_usable (fs : FileSystem) (directory : String) :
    ((∃ c ∈ findJournalFiles fs directory, hasValidJournalData fs c = true) →
      hasValidJournalData fs (findLatestJournalWithFSDJump fs directory) = true ∧
        ∃ newer older,
          findJournalFiles fs directory =
              newer ++ findLatestJournalWithFSDJump fs directory :: older ∧
            ∀ q ∈ newer, hasValidJournalData fs q = false) ∧
    ((∀ c ∈ findJournalFiles fs directory, hasValidJournalData fs c = false) →
      findLatestJournalWithFSDJump fs directory = "") ∧
    (findJournalFiles fs directory = [] → findLatestJournalWithFSDJump fs directory = "") ∧
    ("" ∉ findJournalFiles fs directory →
      (findLatestJournalWithFSDJump fs directory = "" ↔
        ∀ c ∈ findJournalFiles fs directory, hasValidJournalData fs c = false)) := by
  unfold findLatestJournalWithFSDJump
  cases hf : (findJournalFiles fs directory).find? (hasValidJournalData fs) with
  | none =>
    have hnone := List.find?_eq_none.mp hf
    refine ⟨?_, fun _ => rfl, fun _ => rfl, fun _ => ⟨fun _ c hc => ?_, fun _ => rfl⟩⟩
    · rintro ⟨c, hc, hv⟩
      exact absurd hv (hnone c hc)
    · simpa using hnone c hc
  | some p =>
    obtain ⟨hp, newer, older, hsplit, hnewer⟩ := List.find?_eq_some.mp hf
    have hmem : p ∈ findJournalFiles fs directory := by
      rw [hsplit]
      simp
    refine ⟨fun _ => ⟨hp, newer, older, hsplit, fun q hq => ?_⟩, fun hall => ?_, fun hnil => ?_,
      fun hne => ⟨fun hres => ?_, fun hall => ?_⟩⟩
    · simpa using hnewer q hq
    · exact absurd hp (by simp [hall p hmem])
    · rw [hnil] at hmem
      simp at hmem
    · simp only at hres
      rw [hres] at hmem
      exact absurd hmem hne
    · exact absurd hp (by simp [hall p hmem])

/-! ## Switching commander -/

/-- A candidate with a non-empty system and a valid time: `keepLater` returns
the later of the two, the location kept so far on a tie. -/
theorem keepLater_valid (acc e : LatestLocation) (hsys : e.system ≠ "") (t : Int)
    (ht : e.time = some t) :
    (keepLater acc e = acc ∨ keepLater acc e = e) ∧
      NotLater acc.time (keepLater acc e).time ∧ NotLater e.time (keepLater acc e).time := by
  cases hacc : acc.time with
  | none =>
    have hk : keepLater acc e = e := by
      simp [keepLater, hsys, hacc, QDateTime.isNull]
    rw [hk]
    refine ⟨Or.inr rfl, fun u hu => ?_, fun u hu => ⟨u, hu, le_refl u⟩⟩
    simp at hu
  | some ta =>
    by_cases hgt : t > ta
    · have hk : keepLater acc e = e := by
        simp [keepLater, hsys, hacc, ht, QDateTime.isNull, QDateTime.gt, hgt]
      rw [hk]
      refine ⟨Or.inr rfl, fun u hu => ⟨t, ht, ?_⟩, fun u hu => ⟨u, hu, le_refl u⟩⟩
      simp only [Option.some.injEq] at hu
      omega
    · have hk : keepLater acc e = acc := by
        simp [keepLater, hsys, hacc, ht, QDateTime.isNull, QDateTime.gt, hgt]
      rw [hk]
      refine ⟨Or.inl rfl, fun u hu => ⟨u, by rw [hacc]; exact hu, le_refl u⟩,
        fun u hu => ⟨ta, hacc, ?_⟩⟩
      rw [ht] at hu
      simp only [Option.some.injEq] at hu
      omega

/-- A candidate with an empty system is never kept. -/
theorem keepLater_empty (acc e : LatestLocation) (hsys : e.system = "") :
    keepLater acc e = acc := by
  simp [keepLater, hsys]

/-- The relation `NotLater` holds between a time and itself. -/
theorem notLater_refl (a : QDateTime) : NotLater a a := fun t ht => ⟨t, ht, le_refl t⟩

/-- The relation `NotLater` composes. -/
theorem notLater_trans {a b c : QDateTime} (h₁ : NotLater a b) (h₂ : NotLater b c) :
    NotLater a c := by
  intro t ht
  obtain ⟨u, hu, htu⟩ := h₁ t ht
  obtain ⟨v, hv, huv⟩ := h₂ u hu
  exact ⟨v, hv, le_trans htu huv⟩

/-- One line of the second loop of `switchToCommander` offers the location
events it holds to `keepLater`. -/
theorem scanLocationLine_eq (fromJson : String → Option QJsonDocument)
    (fromString : String → QDateTime) (acc : LatestLocation) (raw : String) :
    scanLocationLine fromJson fromString acc raw =
      (locationEvents fromJson fromString [raw]).foldl keepLater acc := by
  unfold locationEvents scanLocationLine
  by_cases hemp : isEmpty (trimmed raw) = true
  · simp only [hemp, ↓reduceIte, List.filterMap_cons, List.filterMap_nil, List.foldl_nil]
  · cases hdoc : fromJson (trimmed raw) with
    | none =>
      simp only [hemp, Bool.false_eq_true, ↓reduceIte, List.filterMap_cons, hdoc,
        List.filterMap_nil, List.foldl_nil]
    | some doc =>
      by_cases hev : ((doc.object.value "event").toString == "FSDJump" ||
          (doc.object.value "event").toString == "CarrierJump" ||
          (doc.object.value "event").toString == "Location") = true
      · simp only [hemp, Bool.false_eq_true, ↓reduceIte, hev, List.filterMap_cons, hdoc,
          List.filterMap_nil, List.foldl_cons, List.foldl_nil]
        rfl
      · simp only [hemp, Bool.false_eq_true, ↓reduceIte, hev, List.filterMap_cons, hdoc,
          List.filterMap_nil, List.foldl_nil]

/-- The location events of a journal, line by line. -/
theorem locationEvents_cons (fromJson : String → Option QJsonDocument)
    (fromString : String → QDateTime) (raw : String) (rest : List String) :
    locationEvents fromJson fromString (raw :: rest) =
      locationEvents fromJson fromString [raw] ++ locationEvents fromJson fromString rest := by
  unfold locationEvents
  rw [← List.filterMap_append]
  rfl

/-- The second loop of `switchToCommander` is a fold of `keepLater` over the
location events of the journal. -/
theorem scanLocationLines_eq (fromJson : String → Option QJsonDocument)
    (fromString : String → QDateTime) (lines : List String) (acc : LatestLocation) :
    lines.foldl (scanLocationLine fromJson fromString) acc =
      (locationEvents fromJson fromString lines).foldl keepLater acc := by
  induction lines generalizing acc with
  | nil => rfl
  | cons raw rest ih =>
    rw [List.foldl_cons, ih, locationEvents_cons, List.foldl_append, scanLocationLine_eq]

/-- What one journal does in `switchToCommander`: a journal recognised as
`name`'s offers its latest location event, any other journal nothing. -/
theorem scanJournalForCommander_eq (fs : FileSystem)
    (fromJson : String → Option QJsonDocument) (fromString : String → QDateTime)
    (name : String) (acc : LatestLocation) (path : String) :
    scanJournalForCommander fs fromJson fromString name acc path =
      if recognisedAs fs fromJson name path then
        keepLater acc
          ((eventsOfJournal fs fromJson fromString path).foldl keepLater LatestLocation.unset)
      else acc := by
  unfold scanJournalForCommander recognisedAs eventsOfJournal
  cases fs.contents path with
  | none => simp
  | some content =>
    simp only [scanLocationLines_eq]
    by_cases hown : journalOwnerLoop fromJson (readLines content) 0 = name
    · simp [hown, keepLater]
    · simp [hown]

/-- A fold of `keepLater` over events with non-empty systems and valid times
ends on the start value or on one of the events, and on a time that none of
them is later than. -/
theorem foldl_keepLater_valid (evs : List LatestLocation)
    (hvalid : ∀ e ∈ evs, e.system ≠ "" ∧ e.time ≠ none) (acc : LatestLocation) :
    (evs.foldl keepLater acc = acc ∨ evs.foldl keepLater acc ∈ evs) ∧
      NotLater acc.time (evs.foldl keepLater acc).time ∧
      ∀ e ∈ evs, NotLater e.time (evs.foldl keepLater acc).time := by
  induction evs generalizing acc with
  | nil => exact ⟨Or.inl rfl, notLater_refl _, fun e he => absurd he (List.not_mem_nil e)⟩
  | cons e rest ih =>
    obtain ⟨hsys, htime⟩ := hvalid e (List.mem_cons_self _ _)
    obtain ⟨t, ht⟩ := Option.ne_none_iff_exists'.mp htime
    obtain ⟨hk, hacc, he⟩ := keepLater_valid acc e hsys t ht
    obtain ⟨h₁, h₂, h₃⟩ := ih (fun x hx => hvalid x (List.mem_cons_of_mem _ hx)) (keepLater acc e)
    rw [List.foldl_cons]
    refine ⟨?_, notLater_trans hacc h₂, ?_⟩
    · rcases h₁ with h₁ | h₁
      · rcases hk with hk | hk
        · exact Or.inl (h₁.trans hk)
        · exact Or.inr (by rw [h₁, hk]; exact List.mem_cons_self _ _)
      · exact Or.inr (List.mem_cons_of_mem _ h₁)
    · intro x hx
      rcases List.mem_cons.mp hx with hx | hx
      · rw [hx]
        exact notLater_trans he h₂
      · exact h₃ x hx

/-- The recognised events of a list of journals, journal by journal. -/
theorem recognisedEvents_cons (fs : FileSystem) (fromJson : String → Option QJsonDocument)
    (fromString : String → QDateTime) (name path : String) (rest : List String) :
    recognisedEvents fs fromJson fromString name (path :: rest) =
      (if recognisedAs fs fromJson name path then eventsOfJournal fs fromJson fromString path
        else []) ++ recognisedEvents fs fromJson fromString name rest := by
  unfold recognisedEvents
  by_cases h : recognisedAs fs fromJson name path = true
  · simp [List.filter_cons, h]
  · simp [List.filter_cons, h]

/-- The loop of `switchToCommander` over journals whose recognised events have
non-empty systems and valid times ends on the start value or on one of these
events, and on a time that none of them is later than. -/
theorem foldl_scanJournal_valid (fs : FileSystem) (fromJson : String → Option QJsonDocument)
    (fromString : String → QDateTime) (name : String) (files : List String)
    (hvalid : ∀ e ∈ recognisedEvents fs fromJson fromString name files,
      e.system ≠ "" ∧ e.time ≠ none)
    (acc : LatestLocation) :
    (files.foldl (scanJournalForCommander fs fromJson fromString name) acc = acc ∨
        files.foldl (scanJournalForCommander fs fromJson fromString name) acc ∈
          recognisedEvents fs fromJson fromString name files) ∧
      NotLater acc.time
        (files.foldl (scanJournalForCommander fs fromJson fromString name) acc).time ∧
      ∀ e ∈ recognisedEvents fs fromJson fromString name files,
        NotLater e.time
          (files.foldl (scanJournalForCommander fs fromJson fromString name) acc).time := by
  induction files generalizing acc with
  | nil =>
    exact ⟨Or.inl rfl, notLater_refl _, fun e he => absurd he (by simp [recognisedEvents])⟩
  | cons path rest ih =>
    rw [recognisedEvents_cons] at hvalid ⊢
    rw [List.foldl_cons, scanJournalForCommander_eq]
    have hrest : ∀ e ∈ recognisedEvents fs fromJson fromString name rest,
        e.system ≠ "" ∧ e.time ≠ none :=
      fun e he => hvalid e (List.mem_append_right _ he)
    by_cases hrec : recognisedAs fs fromJson name path = true
    · simp only [hrec, ↓reduceIte] at hvalid ⊢
      have hfile : ∀ e ∈ eventsOfJournal fs fromJson fromString path,
          e.system ≠ "" ∧ e.time ≠ none :=
        fun e he => hvalid e (List.mem_append_left _ he)
      obtain ⟨hm, -, hmax⟩ := foldl_keepLater_valid _ hfile LatestLocation.unset
      generalize hmdef : (eventsOfJournal fs fromJson fromString path).foldl keepLater
        LatestLocation.unset = m at hm hmax
      have hstep : (keepLater acc m = acc ∨
            keepLater acc m ∈ eventsOfJournal fs fromJson fromString path) ∧
          NotLater acc.time (keepLater acc m).time ∧
          ∀ e ∈ eventsOfJournal fs fromJson fromString path,
            NotLater e.time (keepLater acc m).time := by
        rcases hm with hm | hm
        · have hk : keepLater acc m = acc := keepLater_empty acc m (by rw [hm]; rfl)
          rw [hk]
          refine ⟨Or.inl rfl, notLater_refl _, fun e he t ht => ?_⟩
          obtain ⟨u, hu, -⟩ := hmax e he t ht
          rw [hm] at hu
          exact absurd hu (by simp [LatestLocation.unset])
        · obtain ⟨hsys, htime⟩ := hfile m hm
          obtain ⟨t, ht⟩ := Option.ne_none_iff_exists'.mp htime
          obtain ⟨hk, hacc, hme⟩ := keepLater_valid acc m hsys t ht
          refine ⟨?_, hacc, fun e he => notLater_trans (hmax e he) hme⟩
          rcases hk with hk | hk
          · exact Or.inl hk
          · exact Or.inr (by rw [hk]; exact hm)
      obtain ⟨h₁, h₂, h₃⟩ := ih hrest (keepLater acc m)
      obtain ⟨s₁, s₂, s₃⟩ := hstep
      refine ⟨?_, notLater_trans s₂ h₂, ?_⟩
      · rcases h₁ with h₁ | h₁
        · rcases s₁ with s₁ | s₁
          · exact Or.inl (h₁.trans s₁)
          · exact Or.inr (List.mem_append_left _ (by rw [h₁]; exact s₁))
        · exact Or.inr (List.mem_append_right _ h₁)
      · intro e he
        rcases List.mem_append.mp he with he | he
        · exact notLater_trans (s₃ e he) h₂
        · exact h₃ e he
    · simp only [hrec, Bool.false_eq_true, ↓reduceIte, List.nil_append] at hvalid ⊢
      exact ih hrest acc

/-- Among events with valid, pairwise distinct times, the loop of
`switchToCommander` started from nothing ends on the event that none is later
than. -/
theorem foldl_scanJournal_best (fs : FileSystem) (fromJson : String → Option QJsonDocument)
    (fromString : String → QDateTime) (name : String) (files : List String)
    (best : LatestLocation)
    (hvalid : ∀ e ∈ recognisedEvents fs fromJson fromString name files,
      e.system ≠ "" ∧ e.time ≠ none)
    (hdistinct : (recognisedEvents fs fromJson fromString name files).Pairwise
      fun a b => a.time ≠ b.time)
    (hbest : best ∈ recognisedEvents fs fromJson fromString name files)
    (hmax : ∀ e ∈ recognisedEvents fs fromJson fromString name files,
      NotLater e.time best.time) :
    files.foldl (scanJournalForCommander fs fromJson fromString name) LatestLocation.unset =
      best := by
  obtain ⟨h₁, -, h₃⟩ := foldl_scanJournal_valid fs fromJson fromString name files hvalid
    LatestLocation.unset
  generalize files.foldl (scanJournalForCommander fs fromJson fromString name)
    LatestLocation.unset = r at h₁ h₃
  obtain ⟨tb, htb⟩ := Option.ne_none_iff_exists'.mp (hvalid best hbest).2
  obtain ⟨tr, htr, hle₁⟩ := h₃ best hbest tb htb
  have hmem : r ∈ recognisedEvents fs fromJson fromString name files := by
    rcases h₁ with h₁ | h₁
    · rw [h₁] at htr
      exact absurd htr (by simp [LatestLocation.unset])
    · exact h₁
  obtain ⟨u, hu, hle₂⟩ := hmax r hmem tr htr
  rw [htb] at hu
  simp only [Option.some.injEq] at hu
  have htime : r.time = best.time := by
    rw [htr, htb]
    congr 1
    omega
  by_contra hne
  exact (List.Pairwise.forall (fun a b hab => Ne.symm hab) hdistinct hmem hbest hne) htime

/-- The test `QDateTime.notLater` decides `NotLater`. -/
theorem notLater_iff (a b : QDateTime) : NotLater a b ↔ a.notLater b = true := by
  cases a with
  | none => simp [NotLater, QDateTime.notLater]
  | some t =>
    cases b with
    | none => simp [NotLater, QDateTime.notLater]
    | some u => simp [NotLater, QDateTime.notLater]

/-- The timestamps of the sample jump lines. -/
theorem isoInstant_samples :
    isoInstant "2024-01-01T00:00:00Z" = some 1704067200000 ∧
      isoInstant "2024-01-01T01:00:00Z" = some 1704070800000 ∧
      isoInstant "yesterday" = none := by
  decide

/-- The argument of `foldl_scanJournal_best` for the journals in any other
order. -/
theorem foldl_scanJournal_best_perm (fs : FileSystem)
    (fromJson : String → Option QJsonDocument) (fromString : String → QDateTime)
    (name : String) (files files' : List String) (hperm : files'.Perm files)
    (best : LatestLocation)
    (hvalid : ∀ e ∈ recognisedEvents fs fromJson fromString name files,
      e.system ≠ "" ∧ e.time ≠ none)
    (hdistinct : (recognisedEvents fs fromJson fromString name files).Pairwise
      fun a b => a.time ≠ b.time)
    (hbest : best ∈ recognisedEvents fs fromJson fromString name files)
    (hmax : ∀ e ∈ recognisedEvents fs fromJson fromString name files,
      NotLater e.time best.time) :
    files'.foldl (scanJournalForCommander fs fromJson fromString name) LatestLocation.unset =
      best := by
  have hE : (recognisedEvents fs fromJson fromString name files').Perm
      (recognisedEvents fs fromJson fromString name files) :=
    List.Perm.flatMap_right _ (hperm.filter _)
  exact foldl_scanJournal_best fs fromJson fromString name files' best
    (fun e he => hvalid e (hE.mem_iff.mp he))
    ((hE.pairwise_iff (fun hab => Ne.symm hab)).mpr hdistinct)
    (hE.mem_iff.mpr hbest)
    (fun e he => hmax e (hE.mem_iff.mp he))

/-- Member function `switchToCommander` once its guards are passed: the loop
over the readable journals, and the two ways to end. -/
theorem switchToCommander_eq (fs : FileSystem) (fromJson : String → Option QJsonDocument)
    (fromString : String → QDateTime) (s : JournalMonitor) (name : String)
    (hname : name ≠ "") (hpath : s.m_journalPath ≠ "")
    (hdir : fs.dirExists s.m_journalPath = true) (latest : LatestLocation)
    (hlatest : (((fs.journalEntries s.m_journalPath).filter fs.readable).reverse).foldl
      (scanJournalForCommander fs fromJson fromString name) LatestLocation.unset = latest) :
    switchToCommander fs fromJson fromString s name =
      if latest.system = "" then
        ({ s with m_commanderName := name },
          [Signal.commanderNameChanged, Signal.commanderDetected name])
      else
        ({ s with
            m_commanderName := name
            m_currentSystem := latest.system
            m_lastJumpData := latest.jumpData },
          Signal.currentSystemChanged ::
            ((if latest.jumpData.contains "StarPos" then
                [Signal.fsdJumpDetected latest.system latest.jumpData]
              else []) ++
              [Signal.commanderNameChanged, Signal.commanderDetected name])) := by
  unfold switchToCommander
  simp only [isEmpty_eq_true, hname, decide_False, hpath, Bool.or_self, Bool.false_eq_true,
    ↓reduceIte, hdir, Bool.not_true, hlatest]
  by_cases hsys : latest.system = ""
  · simp [hsys, hname, hpath]
  · simp [hsys, hname, hpath]

set_option maxRecDepth 100000 in
/-- Counterexample to C18.  Two journals are authored by Alice, their first
identity event naming her; their jumps carry the valid times 00:00 (Sol) and
01:00 (Deciat).  The journal with the later jump has its `Commander` line on
the eleventh line, beyond the ten lines `switchToCommander` looks at, so it is
passed over and the result is Sol, not Deciat. -/
theorem latest_wins_counterexample :
    authoredBy diskDeepAlice QJsonDocument.fromJson "Alice" "/j/Journal.2.log" = true ∧
    authoredBy diskDeepAlice QJsonDocument.fromJson "Alice" "/j/Journal.1.log" = true ∧
    eventsOfJournal diskDeepAlice QJsonDocument.fromJson isoInstant "/j/Journal.2.log" =
      [eventDeciat] ∧
    eventsOfJournal diskDeepAlice QJsonDocument.fromJson isoInstant "/j/Journal.1.log" =
      [eventSol] ∧
    eventSol.time = some 1704067200000 ∧ eventDeciat.time = some 1704070800000 ∧
    (switchToCommander diskDeepAlice QJsonDocument.fromJson isoInstant monitorAtJ
        "Alice").1.m_currentSystem = "Sol" ∧
    (switchToCommander diskDeepAlice QJsonDocument.fromJson isoInstant monitorAtJ
        "Alice").1.m_lastJumpData = entryJumpSol := by
  decide

/-- C18 as amended.  Take the readable journals that `switchToCommander`
recognises as `name`'s (the first identity event within the first ten lines
names `name`).  If their location events all have a non-empty system and a
valid time, the times being pairwise distinct, then `switchToCommander` sets
`m_currentSystem` and `m_lastJumpData` to the system and the entry of the event
that no other is later than, and the outcome is the same for every order in
which the folder lists its journals. -/
theorem latest_event_wins (fs : FileSystem) (fromJson : String → Option QJsonDocument)
    (fromString : String → QDateTime) (s : JournalMonitor) (name : String)
    (best : LatestLocation)
    (hname : name ≠ "") (hpath : s.m_journalPath ≠ "")
    (hdir : fs.dirExists s.m_journalPath = true)
    (hvalid : ∀ e ∈ recognisedEvents fs fromJson fromString name
        ((fs.journalEntries s.m_journalPath).filter fs.readable),
      e.system ≠ "" ∧ e.time ≠ none)
    (hdistinct : (recognisedEvents fs fromJson fromString name
        ((fs.journalEntries s.m_journalPath).filter fs.readable)).Pairwise
      fun a b => a.time ≠ b.time)
    (hbest : best ∈ recognisedEvents fs fromJson fromString name
      ((fs.journalEntries s.m_journalPath).filter fs.readable))
    (hmax : ∀ e ∈ recognisedEvents fs fromJson fromString name
        ((fs.journalEntries s.m_journalPath).filter fs.readable),
      NotLater e.time best.time) :
    (switchToCommander fs fromJson fromString s name).1 =
      { s with
        m_commanderName := name
        m_currentSystem := best.system
        m_lastJumpData := best.jumpData } ∧
    ∀ entries : String → List String,
      (entries s.m_journalPath).Perm (fs.journalEntries s.m_journalPath) →
      switchToCommander (fs.withEntries entries) fromJson fromString s name =
        switchToCommander fs fromJson fromString s name := by
  have hsys : best.system ≠ "" := (hvalid best hbest).1
  have hfold := foldl_scanJournal_best_perm fs fromJson fromString name _
    ((fs.journalEntries s.m_journalPath).filter fs.readable).reverse
    (List.reverse_perm _) best hvalid hdistinct hbest hmax
  have hmain := switchToCommander_eq fs fromJson fromString s name hname hpath hdir best hfold
  constructor
  · rw [hmain, if_neg hsys]
  · intro entries hperm
    have hfold' : ((((fs.withEntries entries).journalEntries s.m_journalPath).filter
        (fs.withEntries entries).readable).reverse).foldl
        (scanJournalForCommander (fs.withEntries entries) fromJson fromString name)
        LatestLocation.unset = best :=
      foldl_scanJournal_best_perm fs fromJson fromString name _
        ((entries s.m_journalPath).filter fs.readable).reverse
        ((List.reverse_perm _).trans (hperm.filter _)) best hvalid hdistinct hbest hmax
    rw [hmain, switchToCommander_eq (fs.withEntries entries) fromJson fromString s name hname
      hpath hdir best hfold']

set_option maxRecDepth 100000 in
/-- Witness of C18 as amended: two journals of Alice with jumps at 00:00 (Sol)
and 01:00 (Deciat); the result is Deciat, also with the journals listed the
other way round. -/
theorem latest_event_wins_witness :
    (switchToCommander diskTwoAlice QJsonDocument.fromJson isoInstant monitorAtJ "Alice").1 =
      { monitorAtJ with
        m_commanderName := "Alice", m_currentSystem := "Deciat"
        m_lastJumpData := entryJumpDeciat } ∧
    switchToCommander
        (diskTwoAlice.withEntries fun _ => ["/j/Journal.1.log", "/j/Journal.2.log"])
        QJsonDocument.fromJson isoInstant monitorAtJ "Alice" =
      switchToCommander diskTwoAlice QJsonDocument.fromJson isoInstant monitorAtJ "Alice" := by
  have h := latest_event_wins diskTwoAlice QJsonDocument.fromJson isoInstant monitorAtJ "Alice"
    eventDeciat (by decide) (by decide) (by decide) (by decide) (by decide) (by decide)
    (by
      intro e he
      rw [notLater_iff]
      revert e
      decide)
  exact ⟨h.1, h.2 (fun _ => ["/j/Journal.1.log", "/j/Journal.2.log"])
    (List.Perm.swap _ _ _)⟩

/-- The first loop of `switchToCommander` returns the name of the first
identity event among the lines the counter lets through, and the empty name
when there is none. -/
theorem journalOwnerLoop_eq (fromJson : String → Option QJsonDocument) (lines : List String)
    (lineCount : Nat) :
    journalOwnerLoop fromJson lines lineCount =
      (firstIdentityName fromJson (lines.take (10 - lineCount))).getD "" := by
  induction lines generalizing lineCount with
  | nil => simp [journalOwnerLoop, firstIdentityName]
  | cons raw rest ih =>
    unfold journalOwnerLoop
    by_cases hlt : lineCount < 10
    · have hsub : 10 - lineCount = (10 - (lineCount + 1)) + 1 := by omega
      rw [if_pos hlt, hsub, List.take_succ_cons]
      unfold firstIdentityName
      simp only []
      by_cases hemp : isEmpty (trimmed raw) = true
      · rw [if_pos hemp, if_pos hemp]
        exact ih _
      · rw [if_neg hemp, if_neg hemp]
        cases fromJson (trimmed raw) with
        | none => exact ih _
        | some doc =>
          simp only []
          split_ifs
          · rfl
          · rfl
          · exact ih _
    · have hsub : 10 - lineCount = 0 := by omega
      rw [if_neg hlt, hsub]
      simp [firstIdentityName]

/-- The first identity event of the head of a journal is the first identity
event of the journal. -/
theorem firstIdentityName_take (fromJson : String → Option QJsonDocument)
    (lines : List String) (k : Nat) (name : String)
    (h : firstIdentityName fromJson (lines.take k) = some name) :
    firstIdentityName fromJson lines = some name := by
  induction lines generalizing k with
  | nil => simp [firstIdentityName] at h
  | cons raw rest ih =>
    cases k with
    | zero => simp [firstIdentityName] at h
    | succ k =>
      rw [List.take_succ_cons] at h
      unfold firstIdentityName at h ⊢
      by_cases hemp : isEmpty (trimmed raw) = true
      · rw [if_pos hemp] at h ⊢
        exact ih k h
      · rw [if_neg hemp] at h ⊢
        cases hdoc : fromJson (trimmed raw) with
        | none =>
          rw [hdoc] at h
          exact ih k h
        | some doc =>
          rw [hdoc] at h
          simp only [] at h ⊢
          split_ifs at h ⊢
          · exact h
          · exact h
          · exact ih k h

/-- A journal that `switchToCommander` recognises as `name`'s is authored by
`name`. -/
theorem recognisedAs_authoredBy (fs : FileSystem) (fromJson : String → Option QJsonDocument)
    (name path : String) (hname : name ≠ "")
    (h : recognisedAs fs fromJson name path = true) :
    authoredBy fs fromJson name path = true := by
  unfold recognisedAs at h
  unfold authoredBy
  cases hc : fs.contents path with
  | none => simp [hc] at h
  | some content =>
    rw [hc] at h
    simp only [beq_iff_eq] at h ⊢
    rw [journalOwnerLoop_eq] at h
    cases hf : firstIdentityName fromJson ((readLines content).take (10 - 0)) with
    | none =>
      rw [hf] at h
      exact absurd h.symm hname
    | some x =>
      rw [hf] at h
      simp only [Option.getD_some] at h
      rw [h] at hf
      exact firstIdentityName_take fromJson _ _ name hf

/-- A fold that passes over the elements failing a test is a fold over the
elements that pass it. -/
theorem foldl_filter_of_skip {α β : Type} (f : β → α → β) (keep : α → Bool)
    (hskip : ∀ acc x, keep x = false → f acc x = acc) (l : List α) (acc : β) :
    (l.filter keep).foldl f acc = l.foldl f acc := by
  induction l generalizing acc with
  | nil => rfl
  | cons x xs ih =>
    by_cases hx : keep x = true
    · rw [List.filter_cons_of_pos hx, List.foldl_cons, List.foldl_cons, ih]
    · rw [List.filter_cons_of_neg hx, List.foldl_cons, hskip acc x (by simpa using hx), ih]

/-- C19.  In `switchToCommander(name)` a journal whose first identity event
does not name `name` (or that has none, or does not open) leaves the location
found so far as it is, whatever its later lines hold; hence the outcome is the
one obtained from the folder cut down to the journals whose first identity
event names `name`. -/
theorem author_determines_file (fs : FileSystem) (fromJson : String → Option QJsonDocument)
    (fromString : String → QDateTime) (s : JournalMonitor) (name : String) :
    (name ≠ "" → ∀ acc path, authoredBy fs fromJson name path = false →
      scanJournalForCommander fs fromJson fromString name acc path = acc) ∧
    switchToCommander
        (fs.withEntries fun d => (fs.journalEntries d).filter (authoredBy fs fromJson name))
        fromJson fromString s name =
      switchToCommander fs fromJson fromString s name := by
  have hskip : name ≠ "" → ∀ acc path, authoredBy fs fromJson name path = false →
      scanJournalForCommander fs fromJson fromString name acc path = acc := by
    intro hname acc path hnot
    rw [scanJournalForCommander_eq]
    by_cases hrec : recognisedAs fs fromJson name path = true
    · rw [recognisedAs_authoredBy fs fromJson name path hname hrec] at hnot
      exact absurd hnot (by simp)
    · rw [if_neg hrec]
  refine ⟨hskip, ?_⟩
  by_cases hname : name = ""
  · simp [switchToCommander, hname]
  by_cases hpath : s.m_journalPath = ""
  · simp [switchToCommander, hpath]
  by_cases hdir : fs.dirExists s.m_journalPath = true
  · have hlist : ((((fs.journalEntries s.m_journalPath).filter
          (authoredBy fs fromJson name)).filter fs.readable).reverse) =
        (((fs.journalEntries s.m_journalPath).filter fs.readable).reverse).filter
          (authoredBy fs fromJson name) := by
      rw [List.filter_reverse, List.filter_filter, List.filter_filter]
      congr 2
      funext x
      exact Bool.and_comm _ _
    have hfold : ((((fs.journalEntries s.m_journalPath).filter
          (authoredBy fs fromJson name)).filter fs.readable).reverse).foldl
          (scanJournalForCommander fs fromJson fromString name) LatestLocation.unset =
        (((fs.journalEntries s.m_journalPath).filter fs.readable).reverse).foldl
          (scanJournalForCommander fs fromJson fromString name) LatestLocation.unset := by
      rw [hlist]
      exact foldl_filter_of_skip _ _ (fun acc x hx => hskip hname acc x hx) _ _
    have h₂ := switchToCommander_eq
      (fs.withEntries fun d => (fs.journalEntries d).filter (authoredBy fs fromJson name))
      fromJson fromString s name hname hpath hdir _ hfold
    rw [h₂, switchToCommander_eq fs fromJson fromString s name hname hpath hdir _ rfl]
  · have hdir' : fs.dirExists s.m_journalPath = false := by simpa using hdir
    simp [switchToCommander, FileSystem.withEntries, hdir']

set_option maxRecDepth 100000 in
/-- Witness of C19: Bob's journal, the newer one, names Alice on its second
line and holds a jump to Deciat at 01:00; Alice's journal holds the jump to Sol
at 00:00.  Switching to Alice passes Bob's journal over and ends on Sol. -/
theorem author_determines_file_witness :
    scanJournalForCommander diskBobAndAlice QJsonDocument.fromJson isoInstant "Alice" eventSol
        "/j/Journal.2.log" = eventSol ∧
    (switchToCommander diskBobAndAlice QJsonDocument.fromJson isoInstant monitorAtJ
        "Alice").1.m_currentSystem = "Sol" := by
  have h := author_determines_file diskBobAndAlice QJsonDocument.fromJson isoInstant monitorAtJ
    "Alice"
  refine ⟨h.1 (by decide) eventSol "/j/Journal.2.log" (by decide), ?_⟩
  rw [← h.2]
  decide

/-- A fold of `keepLater` over candidates without system keeps the start
value. -/
theorem foldl_keepLater_empty (evs : List LatestLocation) (hevs : ∀ e ∈ evs, e.system = "")
    (acc : LatestLocation) : evs.foldl keepLater acc = acc := by
  induction evs generalizing acc with
  | nil => rfl
  | cons e rest ih =>
    rw [List.foldl_cons, keepLater_empty acc e (hevs e (List.mem_cons_self _ _))]
    exact ih (fun x hx => hevs x (List.mem_cons_of_mem _ hx)) acc

/-- C20.  When the name is non-empty, the journal folder is set and exists, and
no journal of the folder authored by `name` holds a location event with a
non-empty system, `switchToCommander` sets `m_commanderName` to the name, emits
`commanderNameChanged` and `commanderDetected(name)` and nothing else, and
leaves every other member, `m_currentSystem` and `m_lastJumpData` included, as
it was. -/
theorem switch_without_location (fs : FileSystem) (fromJson : String → Option QJsonDocument)
    (fromString : String → QDateTime) (s : JournalMonitor) (name : String)
    (hname : name ≠ "") (hpath : s.m_journalPath ≠ "")
    (hdir : fs.dirExists s.m_journalPath = true)
    (hnone : ∀ path ∈ fs.journalEntries s.m_journalPath,
      authoredBy fs fromJson name path = true →
      ∀ e ∈ eventsOfJournal fs fromJson fromString path, e.system = "") :
    switchToCommander fs fromJson fromString s name =
      ({ s with m_commanderName := name },
        [Signal.commanderNameChanged, Signal.commanderDetected name]) := by
  have hstep : ∀ files : List String, (∀ p ∈ files, p ∈ fs.journalEntries s.m_journalPath) →
      ∀ acc, files.foldl (scanJournalForCommander fs fromJson fromString name) acc = acc := by
    intro files
    induction files with
    | nil => intro _ acc; rfl
    | cons p rest ih =>
      intro hmem acc
      rw [List.foldl_cons, scanJournalForCommander_eq]
      have hp := hmem p (List.mem_cons_self _ _)
      have hrest := ih (fun q hq => hmem q (List.mem_cons_of_mem _ hq))
      by_cases hrec : recognisedAs fs fromJson name p = true
      · rw [if_pos hrec, foldl_keepLater_empty _
          (hnone p hp (recognisedAs_authoredBy fs fromJson name p hname hrec)),
          keepLater_empty acc LatestLocation.unset rfl]
        exact hrest acc
      · rw [if_neg hrec]
        exact hrest acc
  have hfold := hstep (((fs.journalEntries s.m_journalPath).filter fs.readable).reverse)
    (fun p hp => (List.mem_filter.mp (List.mem_reverse.mp hp)).1) LatestLocation.unset
  rw [switchToCommander_eq fs fromJson fromString s name hname hpath hdir _ hfold]
  simp [LatestLocation.unset]

set_option maxRecDepth 100000 in
/-- Witness of C20: the folder holds Bob's journal only; switching to Alice
from a monitor located at Sol changes the commander and nothing else. -/
theorem switch_without_location_witness :
    switchToCommander (diskWith textBobThenAlice) QJsonDocument.fromJson isoInstant
        monitorAtSol "Alice" =
      ({ monitorAtSol with m_commanderName := "Alice" },
        [Signal.commanderNameChanged, Signal.commanderDetected "Alice"]) :=
  switch_without_location (diskWith textBobThenAlice) QJsonDocument.fromJson isoInstant
    monitorAtSol "Alice" (by decide) (by decide) (by decide) (by decide)

set_option maxRecDepth 100000 in
/-- Witness of C17: the newest file is not usable, the older one is; an empty
folder gives the empty path. -/
theorem findLatest_is_first_usable_witness :
    findLatestJournalWithFSDJump diskNewestUnusable "/j" = "/j/Journal.1.log" ∧
    hasValidJournalData diskNewestUnusable
        (findLatestJournalWithFSDJump diskNewestUnusable "/j") = true ∧
    findLatestJournalWithFSDJump diskNewestUnusable "/elsewhere" = "" := by
  have h := findLatest_is_first_usable diskNewestUnusable "/j"
  have h' := findLatest_is_first_usable diskNewestUnusable "/elsewhere"
  exact ⟨by decide, (h.1 ⟨"/j/Journal.1.log", by decide, by decide⟩).1, h'.2.2.1 (by decide)⟩

/-! ## The frame of a commander switch -/

/-- C21.  `switchToCommander` never touches the tailer's bookkeeping: for every
state, every name and every disk, `m_currentJournalFile` and `m_lastFileSize`
are after the call what they were before it, and so are
`m_actualJournalCommander`, `m_allDetectedCommanders`, `m_forcedCommanderName`
and `m_forcedCommanderEnabled`; the object after the call is the object before
it with at most `m_commanderName`, `m_currentSystem` and `m_lastJumpData`
replaced. -/
theorem switch_keeps_tailer_bookkeeping (fs : FileSystem)
    (fromJson : String → Option QJsonDocument) (fromString : String → QDateTime)
    (s : JournalMonitor) (commanderName : String) :
    (switchToCommander fs fromJson fromString s commanderName).1.m_currentJournalFile =
        s.m_currentJournalFile ∧
      (switchToCommander fs fromJson fromString s commanderName).1.m_lastFileSize =
        s.m_lastFileSize ∧
      (switchToCommander fs fromJson fromString s commanderName).1.m_actualJournalCommander =
        s.m_actualJournalCommander ∧
      (switchToCommander fs fromJson fromString s commanderName).1.m_allDetectedCommanders =
        s.m_allDetectedCommanders ∧
      (switchToCommander fs fromJson fromString s commanderName).1.m_forcedCommanderName =
        s.m_forcedCommanderName ∧
      (switchToCommander fs fromJson fromString s commanderName).1.m_forcedCommanderEnabled =
        s.m_forcedCommanderEnabled ∧
      (switchToCommander fs fromJson fromString s commanderName).1 =
        { s with
          m_commanderName :=
            (switchToCommander fs fromJson fromString s commanderName).1.m_commanderName
          m_currentSystem :=
            (switchToCommander fs fromJson fromString s commanderName).1.m_currentSystem
          m_lastJumpData :=
            (switchToCommander fs fromJson fromString s commanderName).1.m_lastJumpData } := by
  unfold switchToCommander
  simp only []
  split_ifs <;> exact ⟨rfl, rfl, rfl, rfl, rfl, rfl, rfl⟩

/-! ## The scan for commanders -/

/-- Nothing is added when every name that satisfies `P` is in the list. -/
theorem adds_nil (acc : List String × Nat) (P : String → Prop)
    (hP : ∀ n, P n → n ∈ acc.1) : Adds acc acc P :=
  ⟨[], by simp, by simp, List.nodup_nil, fun n => by
    simp only [List.not_mem_nil, false_iff, not_and]
    exact fun hn hp => hn (hP n hp)⟩

/-- Two additions in a row add the names of either. -/
theorem adds_comp {a b c : List String × Nat} {P Q : String → Prop} (h₁ : Adds a b P)
    (h₂ : Adds b c Q) : Adds a c (fun n => P n ∨ Q n) := by
  obtain ⟨x, hx₁, hx₂, hx₃, hx₄⟩ := h₁
  obtain ⟨y, hy₁, hy₂, hy₃, hy₄⟩ := h₂
  refine ⟨x ++ y, ?_, ?_, ?_, ?_⟩
  · rw [hy₁, hx₁, List.append_assoc]
  · rw [hy₂, hx₂, List.length_append, Nat.add_assoc]
  · rw [List.nodup_append]
    refine ⟨hx₃, hy₃, ?_⟩
    intro n hnx hny
    have := ((hy₄ n).mp hny).1
    rw [hx₁] at this
    exact this (List.mem_append_right _ hnx)
  · intro n
    constructor
    · intro hn
      rcases List.mem_append.mp hn with h | h
      · exact ⟨((hx₄ n).mp h).1, Or.inl ((hx₄ n).mp h).2⟩
      · have hb := (hy₄ n).mp h
        refine ⟨fun ha => hb.1 ?_, Or.inr hb.2⟩
        rw [hx₁]
        exact List.mem_append_left _ ha
    · rintro ⟨hna, hp | hq⟩
      · exact List.mem_append_left _ ((hx₄ n).mpr ⟨hna, hp⟩)
      · by_cases hnx : n ∈ x
        · exact List.mem_append_left _ hnx
        · refine List.mem_append_right _ ((hy₄ n).mpr ⟨?_, hq⟩)
          rw [hx₁]
          intro h
          rcases List.mem_append.mp h with h | h
          · exact hna h
          · exact hnx h

/-- The relation `Adds` only looks at which names satisfy the predicate. -/
theorem adds_congr {a b : List String × Nat} {P Q : String → Prop} (h : Adds a b P)
    (hPQ : ∀ n, P n ↔ Q n) : Adds a b Q := by
  obtain ⟨x, hx₁, hx₂, hx₃, hx₄⟩ := h
  exact ⟨x, hx₁, hx₂, hx₃, fun n => by rw [hx₄ n, hPQ n]⟩

/-- A fold of steps that each add the names of one item adds the names of all
items. -/
theorem adds_foldl {α : Type} (f : List String × Nat → α → List String × Nat)
    (P : α → String → Prop) (hf : ∀ acc x, Adds acc (f acc x) (P x)) (xs : List α)
    (acc : List String × Nat) : Adds acc (xs.foldl f acc) (fun n => ∃ x ∈ xs, P x n) := by
  induction xs generalizing acc with
  | nil =>
    refine adds_nil acc _ ?_
    rintro n ⟨x, hx, -⟩
    exact absurd hx (List.not_mem_nil _)
  | cons x xs ih =>
    refine adds_congr (adds_comp (hf acc x) (ih (f acc x))) ?_
    intro n
    simp only [List.mem_cons, exists_eq_or_imp]

/-- The empty text holds neither identity marker. -/
theorem contains_empty_marker :
    contains "" eventLoadGame = false ∧ contains "" eventCommander = false := by
  decide

/-- One scanned line adds the name it carries, when it names one that is not
known yet. -/
theorem scanLine_adds (fromJson : String → Option QJsonDocument) (acc : List String × Nat)
    (raw : String) : Adds acc (scanLine fromJson acc raw) (LineNames fromJson raw) := by
  unfold scanLine
  simp only []
  by_cases h₁ : isEmpty (trimmed raw) = true
  · rw [if_pos h₁]
    refine adds_nil acc _ ?_
    rintro n ⟨hmark, -⟩
    rw [isEmpty_eq_true] at h₁
    rw [h₁, contains_empty_marker.1, contains_empty_marker.2] at hmark
    simp at hmark
  · rw [if_neg h₁]
    by_cases h₂ : (contains (trimmed raw) eventLoadGame ||
        contains (trimmed raw) eventCommander) = true
    · rw [if_pos h₂]
      cases hdoc : fromJson (trimmed raw) with
      | none =>
        refine adds_nil acc _ ?_
        rintro n ⟨-, doc, hd, -⟩
        rw [hdoc] at hd
        exact Option.noConfusion hd
      | some doc =>
        simp only []
        have hname : (if ((doc.object.value "event").toString == "LoadGame") = true then
              (doc.object.value "Commander").toString
            else if ((doc.object.value "event").toString == "Commander") = true then
              (doc.object.value "Name").toString
            else "") = carriedName doc.object := rfl
        rw [hname]
        have hmark : contains (trimmed raw) eventLoadGame = true ∨
            contains (trimmed raw) eventCommander = true := by
          simpa [Bool.or_eq_true] using h₂
        have hiff : ∀ n, LineNames fromJson raw n ↔ carriedName doc.object = n ∧ n ≠ "" := by
          intro n
          constructor
          · rintro ⟨-, d, hd, hn⟩
            rw [hdoc] at hd
            rw [Option.some.inj hd]
            exact hn
          · intro hn
            exact ⟨hmark, doc, hdoc, hn⟩
        generalize carriedName doc.object = c at hiff
        by_cases hc : c = ""
        · have : (!isEmpty c && !acc.1.contains c) = false := by simp [hc]
          rw [this]
          refine adds_nil acc _ ?_
          intro n hn
          have := (hiff n).mp hn
          exact absurd (this.1.symm.trans hc) this.2
        · by_cases hmem : c ∈ acc.1
          · have : (!isEmpty c && !acc.1.contains c) = false := by simp [hc, hmem]
            rw [this]
            refine adds_nil acc _ ?_
            intro n hn
            rw [← ((hiff n).mp hn).1]
            exact hmem
          · have : (!isEmpty c && !acc.1.contains c) = true := by simp [hc, hmem]
            rw [this]
            refine ⟨[c], rfl, rfl, List.nodup_singleton c, fun n => ?_⟩
            rw [List.mem_singleton, hiff n]
            constructor
            · intro hn
              subst hn
              exact ⟨hmem, rfl, hc⟩
            · intro hn
              exact hn.2.1.symm
    · rw [if_neg h₂]
      refine adds_nil acc _ ?_
      rintro n ⟨hmark, -⟩
      exfalso
      apply h₂
      simpa [Bool.or_eq_true] using hmark

/-- One scanned journal adds the names its lines carry. -/
theorem scanJournal_adds (fs : FileSystem) (fromJson : String → Option QJsonDocument)
    (acc : List String × Nat) (journalPath : String) :
    Adds acc (scanJournal fs fromJson acc journalPath)
      (fun n => ∃ content, fs.contents journalPath = some content ∧
        ∃ raw ∈ readLines content, LineNames fromJson raw n) := by
  unfold scanJournal
  cases hc : fs.contents journalPath with
  | none =>
    refine adds_nil acc _ ?_
    rintro n ⟨content, h, -⟩
    exact Option.noConfusion h
  | some content =>
    refine adds_congr (adds_foldl (scanLine fromJson) (LineNames fromJson)
      (scanLine_adds fromJson) (readLines content).reverse acc) ?_
    intro n
    constructor
    · rintro ⟨raw, hraw, hn⟩
      exact ⟨content, rfl, raw, List.mem_reverse.mp hraw, hn⟩
    · rintro ⟨content', h, raw, hraw, hn⟩
      rw [← Option.some.inj h] at hraw
      exact ⟨raw, List.mem_reverse.mpr hraw, hn⟩

/-- The scan of a list of journals adds the names their lines carry. -/
theorem scanJournals_adds (fs : FileSystem) (fromJson : String → Option QJsonDocument)
    (journals : List String) (acc : List String × Nat) :
    Adds acc (journals.foldl (scanJournal fs fromJson) acc)
      (JournalsName fs fromJson journals) :=
  adds_foldl (scanJournal fs fromJson) _ (scanJournal_adds fs fromJson) journals acc

set_option maxRecDepth 100000 in
/-- Counterexample to C22.  The folder holds one readable journal whose only
line is Alice's `Commander` event written with a blank after each colon.  The
line decodes to a `Commander` entry with `Name` Alice, and `processJournalLine`
registers Alice from it; the text of the line does not hold
`"event":"Commander"`, so `scanAllJournalsForCommanders` never decodes it:
Alice is not in the list after the scan and nothing is emitted. -/
theorem scan_misses_spaced_identity_line :
    (QJsonDocument.fromJson lineCommanderAliceSpaced).map
        (fun doc => ((doc.object.value "event").toString, (doc.object.value "Name").toString)) =
        some ("Commander", "Alice") ∧
      (processJournalLine QJsonDocument.fromJson monitorAtJ
        lineCommanderAliceSpaced).1.m_allDetectedCommanders = ["Alice"] ∧
      contains lineCommanderAliceSpaced eventCommander = false ∧
      scanAllJournalsForCommanders (diskWith (lineCommanderAliceSpaced ++ "\n"))
        QJsonDocument.fromJson monitorAtJ = (monitorAtJ, []) := by
  decide

/-- C22 as amended.  `scanAllJournalsForCommanders` changes nothing but
`m_allDetectedCommanders`, to which it appends a list `added`: the names known
before keep their positions.  A name is in `added` exactly when it was not
known before, the journal path is set, and some line of some journal of the
directory that opens names it, that is, the trimmed text of the line holds
`"event":"LoadGame"` or `"event":"Commander"`, the line decodes, and the decoded
entry carries the non-empty name (member `Commander` of a `LoadGame` entry,
member `Name` of a `Commander` entry).  No name occurs twice in `added`, and a
list without duplicate stays so.  One `allDetectedCommandersChanged` is emitted
when `added` is not empty, nothing otherwise. -/
theorem scan_registers_marked_identity_lines (fs : FileSystem)
    (fromJson : String → Option QJsonDocument) (s : JournalMonitor) :
    ∃ added : List String,
      (scanAllJournalsForCommanders fs fromJson s).1 =
          { s with m_allDetectedCommanders := s.m_allDetectedCommanders ++ added } ∧
        added.Nodup ∧
        (∀ n, n ∈ added ↔
          n ∉ s.m_allDetectedCommanders ∧ s.m_journalPath ≠ "" ∧
            JournalsName fs fromJson (findJournalFiles fs s.m_journalPath) n) ∧
        (s.m_allDetectedCommanders.Nodup →
          (scanAllJournalsForCommanders fs fromJson s).1.m_allDetectedCommanders.Nodup) ∧
        (scanAllJournalsForCommanders fs fromJson s).2 =
          if added = [] then [] else [Signal.allDetectedCommandersChanged] := by
  unfold scanAllJournalsForCommanders
  by_cases hpath : s.m_journalPath = ""
  · have hempty : isEmpty s.m_journalPath = true := by simp [hpath]
    simp only [hempty, ↓reduceIte]
    refine ⟨[], ?_, List.nodup_nil, ?_, fun hs => hs, ?_⟩
    · rw [List.append_nil]
    · intro n
      simp [hpath]
    · simp
  · obtain ⟨added, h₁, h₂, h₃, h₄⟩ := scanJournals_adds fs fromJson
      (findJournalFiles fs s.m_journalPath) (s.m_allDetectedCommanders, 0)
    have hempty : isEmpty s.m_journalPath = false := by simpa using hpath
    simp only [hempty, Bool.false_eq_true, ↓reduceIte]
    simp only [] at h₁ h₂ h₄
    have hnodup : s.m_allDetectedCommanders.Nodup →
        (s.m_allDetectedCommanders ++ added).Nodup := by
      intro hs
      rw [List.nodup_append]
      exact ⟨hs, h₃, fun n hn hadd => ((h₄ n).mp hadd).1 hn⟩
    refine ⟨added, ?_, h₃, ?_, ?_, ?_⟩
    · rw [h₂, h₁]
      split_ifs <;> rfl
    · intro n
      rw [h₄ n]
      simp [hpath]
    · intro hs
      rw [h₂, h₁]
      split_ifs <;> exact hnodup hs
    · rw [h₂]
      cases added with
      | nil => simp
      | cons a as => simp

set_option maxRecDepth 100000 in
/-- Witness of C22 as amended: Bob is known, the folder holds Bob's journal and
Alice's; after the scan Alice is known too and one
`allDetectedCommandersChanged` was emitted. -/
theorem scan_registers_marked_identity_lines_witness :
    "Alice" ∈ (scanAllJournalsForCommanders diskBobAndAlice QJsonDocument.fromJson
        { monitorAtJ with m_allDetectedCommanders := ["Bob"] }).1.m_allDetectedCommanders ∧
      (scanAllJournalsForCommanders diskBobAndAlice QJsonDocument.fromJson
        { monitorAtJ with m_allDetectedCommanders := ["Bob"] }).2 =
        [Signal.allDetectedCommandersChanged] := by
  obtain ⟨added, h₁, -, h₃, -, h₅⟩ := scan_registers_marked_identity_lines diskBobAndAlice
    QJsonDocument.fromJson { monitorAtJ with m_allDetectedCommanders := ["Bob"] }
  have hmem : "Alice" ∈ added :=
    (h₃ "Alice").mpr ⟨by decide, by decide, "/j/Journal.1.log", by decide, textAliceSolEarly,
      by decide, lineCommanderAlice, by decide, Or.inr (by decide),
      .ofObject [("event", .string "Commander"), ("Name", .string "Alice")], by decide,
      by decide, by decide⟩
  refine ⟨?_, ?_⟩
  · rw [h₁]
    exact List.mem_append_right _ hmem
  · rw [h₅, if_neg (List.ne_nil_of_mem hmem)]

/-! ## Counting jumps -/

/-- The loop of lines 477-482 adds the number of lines that pass the test. -/
theorem countLines_eq (lines : List String) (totalJumps : Nat) :
    lines.foldl (fun total line => if isJumpLine line then total + 1 else total) totalJumps =
      totalJumps + (lines.filter isJumpLine).length := by
  induction lines generalizing totalJumps with
  | nil => simp
  | cons l ls ih =>
    simp only [List.foldl_cons]
    rw [ih]
    by_cases h : isJumpLine l = true
    · simp [h, List.filter_cons]
      omega
    · simp [h, List.filter_cons]

/-- One journal adds its number of marked lines to the counter. -/
theorem countJournalJumps_eq (fs : FileSystem) (totalJumps : Nat) (path : String) :
    countJournalJumps fs totalJumps path = totalJumps + markedJumpLinesOf fs path := by
  unfold countJournalJumps markedJumpLinesOf
  cases fs.contents path with
  | none => rfl
  | some content => exact countLines_eq _ _

/-- The loop over the journals adds the counts of all of them. -/
theorem foldl_countJournalJumps (fs : FileSystem) (paths : List String) (totalJumps : Nat) :
    paths.foldl (countJournalJumps fs) totalJumps =
      totalJumps + (paths.map (markedJumpLinesOf fs)).sum := by
  induction paths generalizing totalJumps with
  | nil => simp
  | cons p ps ih =>
    simp only [List.foldl_cons, List.map_cons, List.sum_cons]
    rw [ih, countJournalJumps_eq, Nat.add_assoc]

/-- On a journal whose lines hold a jump marker exactly when they are jump
events, the marked lines are the jump-event lines. -/
theorem markedJumpLinesOf_canonical (fs : FileSystem)
    (fromJson : String → Option QJsonDocument) (path : String)
    (h : jumpCanonicalJournal fs fromJson path = true) :
    markedJumpLinesOf fs path = jumpEventLinesOf fs fromJson path := by
  unfold jumpCanonicalJournal at h
  unfold markedJumpLinesOf jumpEventLinesOf
  cases hc : fs.contents path with
  | none => rfl
  | some content =>
    rw [hc] at h
    simp only [List.all_eq_true, beq_iff_eq] at h
    simp only []
    rw [List.filter_congr h]

set_option maxRecDepth 100000 in
/-- Counterexample to C23.  First folder: one journal whose only line is a jump
to Sol written with a blank after each colon.  The line is an `FSDJump` event,
so the folder holds one jump-event line; its text does not hold
`"event":"FSDJump"` and `countTotalJumps` returns 0.  Second folder: one
journal whose only line is the first part of a jump line, cut by a write in
progress.  The line does not decode, so the folder holds no jump-event line;
its text holds `"event":"FSDJump"` and `countTotalJumps` returns 1. -/
theorem jump_count_counterexample :
    (isJumpEvent QJsonDocument.fromJson lineJumpSolSpaced = true ∧
      jumpEventLinesOf (diskWith (lineJumpSolSpaced ++ "\n")) QJsonDocument.fromJson
        "/j/Journal.1.log" = 1 ∧
      countTotalJumps (diskWith (lineJumpSolSpaced ++ "\n")) monitorAtJ = 0) ∧
    (QJsonDocument.fromJson jumpSolHead = none ∧
      jumpEventLinesOf (diskWith jumpSolHead) QJsonDocument.fromJson "/j/Journal.1.log" = 0 ∧
      countTotalJumps (diskWith jumpSolHead) monitorAtJ = 1) := by
  decide

set_option maxRecDepth 100000 in
/-- C23 as amended.  `countTotalJumps` returns 0 when the journal path is unset
or the directory does not exist, and otherwise the sum, over the readable
journal files of the directory, of the number of lines of each file whose text
holds `"event":"FSDJump"` or `"event":"CarrierJump"`, each line counting once
and a file that does not open counting for nothing; the order in which the
files are listed plays no part.  The result depends on the object through
`m_journalPath` only: it is what a fresh object with the same path returns,
whatever the identity and location fields hold.  The member function is
`const` and the model returns the count alone: no state changes.  When every
line of these files holds one of the two texts exactly when it is an `FSDJump`
or `CarrierJump` event, the result is the total number of jump-event lines.  On
two journals of 3 and 5 jump-event lines it returns 8. -/
theorem countTotalJumps_is_sum_of_file_counts (fs : FileSystem)
    (fromJson : String → Option QJsonDocument) (s : JournalMonitor) :
    countTotalJumps fs s =
        (if s.m_journalPath = "" ∨ fs.dirExists s.m_journalPath = false then 0
        else (((fs.journalEntries s.m_journalPath).filter fs.readable).map
          (markedJumpLinesOf fs)).sum) ∧
      countTotalJumps fs s =
        countTotalJumps fs { JournalMonitor.init with m_journalPath := s.m_journalPath } ∧
      ((∀ path ∈ (fs.journalEntries s.m_journalPath).filter fs.readable,
          jumpCanonicalJournal fs fromJson path = true) →
        countTotalJumps fs s =
          (if s.m_journalPath = "" ∨ fs.dirExists s.m_journalPath = false then 0
          else (((fs.journalEntries s.m_journalPath).filter fs.readable).map
            (jumpEventLinesOf fs fromJson)).sum)) ∧
      jumpEventLinesOf diskThreeAndFive QJsonDocument.fromJson "/j/Journal.1.log" = 3 ∧
      jumpEventLinesOf diskThreeAndFive QJsonDocument.fromJson "/j/Journal.2.log" = 5 ∧
      countTotalJumps diskThreeAndFive monitorAtJ = 8 ∧
      countTotalJumps diskThreeAndFive alicePinnedBob = 0 := by
  have hsum : countTotalJumps fs s =
      (if s.m_journalPath = "" ∨ fs.dirExists s.m_journalPath = false then 0
      else (((fs.journalEntries s.m_journalPath).filter fs.readable).map
        (markedJumpLinesOf fs)).sum) := by
    unfold countTotalJumps
    by_cases h₁ : s.m_journalPath = ""
    · simp [h₁]
    · by_cases h₂ : fs.dirExists s.m_journalPath = false
      · simp [h₁, h₂]
      · have h₂' : fs.dirExists s.m_journalPath = true := by simpa using h₂
        simp only [isEmpty_eq_true, h₁, ↓reduceIte, h₂', Bool.not_true, Bool.false_eq_true,
          false_or]
        rw [foldl_countJournalJumps, Nat.zero_add]
        unfold journalEntriesByName
        exact ((List.perm_insertionSort _ _).map _).sum_eq
  refine ⟨hsum, rfl, ?_, by decide, by decide, by decide, by decide⟩
  intro hcanon
  rw [hsum]
  rw [List.map_congr_left (fun path hpath =>
    markedJumpLinesOf_canonical fs fromJson path (hcanon path hpath))]

set_option maxRecDepth 100000 in
/-- Witness of C23 as amended: every line of the two journals of 3 and 5
jump-event lines holds a jump marker exactly when it is a jump event, and the
count is the total number of jump-event lines, 8. -/
theorem countTotalJumps_is_sum_of_file_counts_witness :
    (∀ path ∈ (diskThreeAndFive.journalEntries monitorAtJ.m_journalPath).filter
        diskThreeAndFive.readable,
        jumpCanonicalJournal diskThreeAndFive QJsonDocument.fromJson path = true) ∧
      countTotalJumps diskThreeAndFive monitorAtJ =
        jumpEventLinesOf diskThreeAndFive QJsonDocument.fromJson "/j/Journal.2.log" +
          jumpEventLinesOf diskThreeAndFive QJsonDocument.fromJson "/j/Journal.1.log" :=
  ⟨by decide,
    ((countTotalJumps_is_sum_of_file_counts diskThreeAndFive QJsonDocument.fromJson
      monitorAtJ).2.2.1 (by decide)).trans (by decide)⟩

/-! ## The commander of a journal file -/

/-- A capture of the fallback pattern is never empty. -/
theorem captureAt_ne_empty (key : String) (cs : List Char) (c : String)
    (h : captureAt key cs = some c) : c ≠ "" := by
  unfold captureAt at h
  split at h
  · exact Option.noConfusion h
  · split at h
    · split_ifs at h with h₁
      split at h
      · split_ifs at h with h₂
        simp only [] at h
        split_ifs at h with h₃
        rw [← Option.some.inj h]
        simp only [Bool.and_eq_true, Bool.not_eq_true', List.isEmpty_eq_false] at h₃
        intro hmk
        have hnil := congrArg String.toList hmk
        simp only [String.toList] at hnil
        exact h₃.1 hnil
      · exact Option.noConfusion h
    · exact Option.noConfusion h

/-- A capture of the fallback pattern in a line is never empty. -/
theorem regexCapture_ne_empty (key line c : String) (h : regexCapture key line = some c) :
    c ≠ "" := by
  unfold regexCapture at h
  generalize line.toList = cs at h
  induction cs with
  | nil => exact Option.noConfusion h
  | cons x xs ih =>
    unfold captureChars at h
    split at h
    · rename_i captured hcap
      rw [← Option.some.inj h]
      exact captureAt_ne_empty key _ _ hcap
    · exact ih h

/-- A name found on a line of the inspected file is never empty. -/
theorem commanderInLine_ne_empty (fromJson : String → Option QJsonDocument) (raw c : String)
    (h : commanderInLine fromJson raw = some c) : c ≠ "" := by
  unfold commanderInLine at h
  simp only [] at h
  by_cases h₁ : isEmpty (trimmed raw) = true
  · rw [if_pos h₁] at h
    exact Option.noConfusion h
  · rw [if_neg h₁] at h
    by_cases h₂ : (contains (trimmed raw) eventLoadGame ||
        contains (trimmed raw) eventCommander) = true
    · rw [if_pos h₂] at h
      cases hdoc : fromJson (trimmed raw) with
      | none =>
        rw [hdoc] at h
        simp only [] at h
        split_ifs at h
        · exact regexCapture_ne_empty _ _ _ h
        · exact regexCapture_ne_empty _ _ _ h
      | some doc =>
        rw [hdoc] at h
        simp only [] at h
        split_ifs at h with h₃ h₄ h₅ h₆
        · rw [← Option.some.inj h]
          simpa using h₄
        · rw [← Option.some.inj h]
          simpa using h₆
    · rw [if_neg h₂] at h
      exact Option.noConfusion h

/-- A name found on a line of a recent journal is never empty. -/
theorem commanderInRecentLine_ne_empty (fromJson : String → Option QJsonDocument)
    (raw c : String) (h : commanderInRecentLine fromJson raw = some c) : c ≠ "" := by
  unfold commanderInRecentLine at h
  simp only [] at h
  by_cases h₁ : isEmpty (trimmed raw) = true
  · rw [if_pos h₁] at h
    exact Option.noConfusion h
  · rw [if_neg h₁] at h
    by_cases h₂ : (contains (trimmed raw) eventLoadGame &&
        contains (trimmed raw) "\"Commander\"") = true
    · rw [if_pos h₂] at h
      cases hdoc : fromJson (trimmed raw) with
      | none =>
        rw [hdoc] at h
        exact regexCapture_ne_empty _ _ _ h
      | some doc =>
        rw [hdoc] at h
        simp only [] at h
        split_ifs at h with h₃
        rw [← Option.some.inj h]
        simpa using h₃
    · rw [if_neg h₂] at h
      exact Option.noConfusion h

/-- A name found in the recent journals is never empty. -/
theorem commanderInRecentJournals_ne_empty (fs : FileSystem)
    (fromJson : String → Option QJsonDocument) (filePath : String) (journals : List String)
    (c : String) (h : commanderInRecentJournals fs fromJson filePath journals = some c) :
    c ≠ "" := by
  induction journals with
  | nil => exact Option.noConfusion h
  | cons j js ih =>
    unfold commanderInRecentJournals at h
    split_ifs at h with h₁
    · exact ih h
    · split at h
      · exact ih h
      · split at h
        · rename_i commander hfind
          obtain ⟨raw, -, hraw⟩ := List.exists_of_findSome?_eq_some hfind
          rw [← Option.some.inj h]
          exact commanderInRecentLine_ne_empty fromJson raw _ hraw
        · exact ih h

/-- The lookup of `extractCommanderFromJournal` in closed form. -/
theorem extractCommanderFromJournal_eq (fs : FileSystem)
    (fromJson : String → Option QJsonDocument) (s : JournalMonitor) (journalFilePath : String) :
    extractCommanderFromJournal fs fromJson s journalFilePath =
      if chosenJournal fs s journalFilePath = "" then ("Unknown", [])
      else
        match fs.contents (chosenJournal fs s journalFilePath) with
        | none => ("Unknown", [])
        | some content =>
          match (readLines content).reverse.findSome? (commanderInLine fromJson) with
          | some commander => (commander, [Signal.commanderDetected commander])
          | none =>
            match commanderInRecentJournals fs fromJson (chosenJournal fs s journalFilePath)
                ((findJournalFiles fs s.m_journalPath).take 10) with
            | some commander => (commander, [Signal.commanderDetected commander])
            | none => ("Unknown", []) := by
  unfold extractCommanderFromJournal chosenJournal
  simp only [isEmpty_eq_true]

/-- The name returned by `extractCommanderFromJournal` is never empty. -/
theorem extractCommanderFromJournal_ne_empty (fs : FileSystem)
    (fromJson : String → Option QJsonDocument) (s : JournalMonitor) (journalFilePath : String) :
    (extractCommanderFromJournal fs fromJson s journalFilePath).1 ≠ "" := by
  rw [extractCommanderFromJournal_eq]
  split_ifs
  · decide
  · split
    · decide
    · split
      · rename_i commander hfind
        obtain ⟨raw, -, hraw⟩ := List.exists_of_findSome?_eq_some hfind
        exact commanderInLine_ne_empty fromJson raw _ hraw
      · split
        · rename_i commander hfind
          exact commanderInRecentJournals_ne_empty fs fromJson _ _ _ hfind
        · decide


/-- With a path given, the lookup reads the object through `m_journalPath`
only. -/
theorem extractCommanderFromJournal_congr (fs : FileSystem)
    (fromJson : String → Option QJsonDocument) (s t : JournalMonitor) (path : String)
    (hpath : path ≠ "") (h : t.m_journalPath = s.m_journalPath) :
    extractCommanderFromJournal fs fromJson t path =
      extractCommanderFromJournal fs fromJson s path := by
  have hc : ∀ u : JournalMonitor, chosenJournal fs u path = path := by
    intro u
    unfold chosenJournal
    simp [hpath]
  rw [extractCommanderFromJournal_eq, extractCommanderFromJournal_eq, hc s, hc t, h]

/-- The value `updateCurrentJournalFile` leaves in `m_actualJournalCommander`. -/
theorem updateCurrentJournalFile_actual (fs : FileSystem)
    (fromJson : String → Option QJsonDocument) (s : JournalMonitor) :
    (updateCurrentJournalFile fs fromJson s).1.m_actualJournalCommander =
      if getLatestJournalFile fs s ≠ "" ∧ getLatestJournalFile fs s ≠ s.m_currentJournalFile then
        (extractCommanderFromJournal fs fromJson s (getLatestJournalFile fs s)).1
      else s.m_actualJournalCommander := by
  by_cases h : getLatestJournalFile fs s ≠ "" ∧ getLatestJournalFile fs s ≠ s.m_currentJournalFile
  · rw [if_pos h]
    have hcond : (!isEmpty (getLatestJournalFile fs s) &&
        getLatestJournalFile fs s != s.m_currentJournalFile) = true := by
      simp [h.1, h.2]
    have hr : ∀ u : JournalMonitor, u.m_journalPath = s.m_journalPath →
        extractCommanderFromJournal fs fromJson u (getLatestJournalFile fs s) =
          extractCommanderFromJournal fs fromJson s (getLatestJournalFile fs s) :=
      fun u hu => extractCommanderFromJournal_congr fs fromJson s u _ h.1 hu
    unfold updateCurrentJournalFile
    simp only [hcond, ↓reduceIte]
    have hite : ∀ (u : JournalMonitor) (c : String), c ≠ "" →
        (if (!isEmpty c) = true then { u with m_actualJournalCommander := c }
          else u).m_actualJournalCommander = c := by
      intro u c hc
      simp [hc]
    by_cases hcur : (!isEmpty s.m_currentJournalFile) = true
    · simp only [hcur, ↓reduceIte]
      exact (hite _ _ (extractCommanderFromJournal_ne_empty fs fromJson _ _)).trans
        (congrArg Prod.fst (hr _ rfl))
    · simp only [hcur, ↓reduceIte]
      exact (hite _ _ (extractCommanderFromJournal_ne_empty fs fromJson _ _)).trans
        (congrArg Prod.fst (hr _ rfl))
  · rw [if_neg h]
    have h' : getLatestJournalFile fs s = "" ∨
        getLatestJournalFile fs s = s.m_currentJournalFile := by
      by_cases h₁ : getLatestJournalFile fs s = ""
      · exact Or.inl h₁
      · by_cases h₂ : getLatestJournalFile fs s = s.m_currentJournalFile
        · exact Or.inr h₂
        · exact absurd ⟨h₁, h₂⟩ h
    rw [(updateCurrentJournalFile_target fs fromJson s).2 h']

/-- The value `updateCurrentJournalFile` leaves in `m_actualJournalCommander`
does not depend on the forced filter. -/
theorem updateCurrentJournalFile_ignores_forced (fs : FileSystem)
    (fromJson : String → Option QJsonDocument) (s : JournalMonitor) (forced : String)
    (enabled : Bool) :
    (updateCurrentJournalFile fs fromJson
        { s with m_forcedCommanderName := forced
                 m_forcedCommanderEnabled := enabled }).1.m_actualJournalCommander =
      (updateCurrentJournalFile fs fromJson s).1.m_actualJournalCommander := by
  rw [updateCurrentJournalFile_actual, updateCurrentJournalFile_actual]
  have hl : getLatestJournalFile fs
      { s with m_forcedCommanderName := forced, m_forcedCommanderEnabled := enabled } =
      getLatestJournalFile fs s := rfl
  rw [hl]
  by_cases h : getLatestJournalFile fs s ≠ "" ∧ getLatestJournalFile fs s ≠ s.m_currentJournalFile
  · rw [if_pos h, if_pos h]
    exact congrArg Prod.fst (extractCommanderFromJournal_congr fs fromJson s _ _ h.1 rfl)
  · rw [if_neg h, if_neg h]

set_option maxRecDepth 100000 in
/-- C24, the code on the failing inputs.  The name returned by
`extractCommanderFromJournal` is never empty, so the test of line 353 never
fails and `updateCurrentJournalFile` stores whatever the lookup returns.
First input: the folder holds one journal whose only line is a jump to Sol;
the monitor switches to it and stores the placeholder `Unknown` in
`m_actualJournalCommander`, although the file holds no identity event.  Second
input: the newest journal holds only the jump to Sol and the older journal is
Bob's; the monitor switches to the newest journal and stores `Bob`, a name
taken from the older file. -/
theorem actual_commander_placeholder_or_borrowed :
    (∀ (fs : FileSystem) (fromJson : String → Option QJsonDocument) (s : JournalMonitor)
        (path : String), (extractCommanderFromJournal fs fromJson s path).1 ≠ "") ∧
      ((updateCurrentJournalFile (diskWith (lineJumpSol ++ "\n")) QJsonDocument.fromJson
          monitorAtJ).1.m_currentJournalFile = "/j/Journal.1.log" ∧
        firstIdentityName QJsonDocument.fromJson (readLines (lineJumpSol ++ "\n")) = none ∧
        (updateCurrentJournalFile (diskWith (lineJumpSol ++ "\n")) QJsonDocument.fromJson
          monitorAtJ).1.m_actualJournalCommander = "Unknown") ∧
      ((updateCurrentJournalFile diskJumpOnlyNewest QJsonDocument.fromJson
          monitorAtJ).1.m_currentJournalFile = "/j/Journal.2.log" ∧
        diskJumpOnlyNewest.contents "/j/Journal.2.log" = some (lineJumpSol ++ "\n") ∧
        (updateCurrentJournalFile diskJumpOnlyNewest QJsonDocument.fromJson
          monitorAtJ).1.m_actualJournalCommander = "Bob") :=
  ⟨extractCommanderFromJournal_ne_empty, by decide, by decide⟩

/-- With the forced filter inactive a journal line does to the object what its
effect says. -/
theorem processJournalLine_effect (fromJson : String → Option QJsonDocument)
    (s : JournalMonitor) (line : String) (hs : FilterInactive s) :
    (processJournalLine fromJson s line).1 = applyEffect s (lineEffect fromJson line) := by
  have hf : ¬(s.m_forcedCommanderEnabled = true ∧ s.m_forcedCommanderName ≠ "" ∧
      s.m_actualJournalCommander ≠ s.m_forcedCommanderName) := by
    rintro ⟨h₁, h₂, -⟩
    rcases hs with h | h
    · rw [h] at h₁; exact Bool.noConfusion h₁
    · exact h₂ h
  unfold processJournalLine lineEffect
  cases fromJson line with
  | none => rfl
  | some doc =>
    simp only []
    generalize doc.object = entry
    generalize hev : (entry.value "event").toString = event
    by_cases h1 : event = "Commander"
    · subst h1
      rw [extractCommanderName_eq]
      by_cases hn : commanderOf entry = "" <;> simp [hn, applyEffect]
    · by_cases h2 : event = "FSDJump"
      · subst h2
        rw [processFSDJump_eq]
        generalize (entry.value "StarSystem").toString = x
        by_cases hx : x = ""
        · simp [hx, applyEffect]
        · by_cases hc : x = s.m_currentSystem
          · subst hc
            simp [hx, hf, applyEffect]
          · simp [hx, hc, hf, applyEffect]
      · by_cases h3 : event = "CarrierJump"
        · subst h3
          rw [processCarrierJump_eq]
          generalize (entry.value "StarSystem").toString = x
          by_cases hx : x = ""
          · simp [hx, applyEffect]
          · by_cases hc : x = s.m_currentSystem
            · subst hc
              simp [hx, hf, applyEffect]
            · simp [hx, hc, hf, applyEffect]
        · by_cases h4 : event = "Location"
          · subst h4
            rw [processLocation_eq]
            generalize (entry.value "StarSystem").toString = x
            by_cases hx : x = ""
            · simp [hx, applyEffect]
            · by_cases hc : x = s.m_currentSystem
              · subst hc
                simp [hx, applyEffect]
              · simp [hx, hc, applyEffect]
          · by_cases h5 : event = "LoadGame"
            · subst h5
              rw [extractCommanderName_eq]
              by_cases hn : commanderOf entry = "" <;> simp [hn, applyEffect]
            · simp [h1, h2, h3, h4, h5, applyEffect]

/-- An effect leaves the bookkeeping fields alone. -/
theorem applyEffect_bookkeeping (s : JournalMonitor) (e : LineEffect) :
    SameBookkeeping s (applyEffect s e) := by
  cases e with
  | nothing => exact sameBookkeeping_refl s
  | identity n => exact ⟨rfl, rfl, rfl, rfl, rfl, rfl, rfl, rfl, rfl⟩
  | location x ent =>
    simp only [applyEffect]
    split_ifs <;> exact ⟨rfl, rfl, rfl, rfl, rfl, rfl, rfl, rfl, rfl⟩

/-- With the forced filter inactive a run of journal lines is the fold of their
effects. -/
theorem processLines_effects (fromJson : String → Option QJsonDocument)
    (lines : List String) (s : JournalMonitor) (hs : FilterInactive s) :
    (processLines fromJson s lines).1 = (lines.map (lineEffect fromJson)).foldl applyEffect s := by
  induction lines generalizing s with
  | nil => rfl
  | cons l ls ih =>
    have hstep := processJournalLine_effect fromJson s l hs
    have hb := processJournalLine_bookkeeping fromJson s l
    have hs' : FilterInactive (processJournalLine fromJson s l).1 := by
      unfold FilterInactive
      rw [hb.2.2.2.2.1, hb.2.2.2.2.2.1]
      exact hs
    simp only [processLines, List.map_cons, List.foldl_cons]
    rw [ih _ hs', hstep]


/-- What an effect does to `m_commanderName` and `m_actualJournalCommander`. -/
theorem applyEffect_identity_fields (s : JournalMonitor) (e : LineEffect) :
    (∃ n, e = .identity n ∧ (applyEffect s e).m_commanderName = n ∧
        (applyEffect s e).m_actualJournalCommander = n) ∨
      ((∀ n, e ≠ .identity n) ∧ (applyEffect s e).m_commanderName = s.m_commanderName ∧
        (applyEffect s e).m_actualJournalCommander = s.m_actualJournalCommander) := by
  cases e with
  | nothing => exact Or.inr ⟨fun n h => LineEffect.noConfusion h, rfl, rfl⟩
  | identity n => exact Or.inl ⟨n, rfl, rfl, rfl⟩
  | location x ent =>
    refine Or.inr ⟨fun n h => LineEffect.noConfusion h, ?_, ?_⟩ <;>
      (simp only [applyEffect]; split_ifs <;> rfl)

/-- From two states a run of effects either leaves the commander fields of
both alone or sets them to the same names. -/
theorem foldl_applyEffect_identity (E : List LineEffect) (s t : JournalMonitor) :
    (((E.foldl applyEffect s).m_commanderName = s.m_commanderName ∧
        (E.foldl applyEffect s).m_actualJournalCommander = s.m_actualJournalCommander) ∧
      ((E.foldl applyEffect t).m_commanderName = t.m_commanderName ∧
        (E.foldl applyEffect t).m_actualJournalCommander = t.m_actualJournalCommander)) ∨
    ((E.foldl applyEffect s).m_commanderName = (E.foldl applyEffect t).m_commanderName ∧
      (E.foldl applyEffect s).m_actualJournalCommander =
        (E.foldl applyEffect t).m_actualJournalCommander) := by
  induction E generalizing s t with
  | nil => exact Or.inl ⟨⟨rfl, rfl⟩, ⟨rfl, rfl⟩⟩
  | cons e E ih =>
    simp only [List.foldl_cons]
    rcases applyEffect_identity_fields s e with ⟨n, hn, hs₁, hs₂⟩ | ⟨hne, hs₁, hs₂⟩
    · rcases applyEffect_identity_fields t e with ⟨m, hm, ht₁, ht₂⟩ | ⟨hne, -, -⟩
      · have hnm : m = n := by
          rw [hn] at hm
          exact (LineEffect.identity.inj hm).symm
        subst hnm
        rcases ih (applyEffect s e) (applyEffect t e) with ⟨⟨a₁, a₂⟩, ⟨b₁, b₂⟩⟩ | h
        · exact Or.inr ⟨by rw [a₁, b₁, hs₁, ht₁], by rw [a₂, b₂, hs₂, ht₂]⟩
        · exact Or.inr h
      · exact absurd hn (hne n)
    · rcases applyEffect_identity_fields t e with ⟨m, hm, -, -⟩ | ⟨-, ht₁, ht₂⟩
      · exact absurd hm (hne m)
      · rcases ih (applyEffect s e) (applyEffect t e) with ⟨⟨a₁, a₂⟩, ⟨b₁, b₂⟩⟩ | h
        · exact Or.inl ⟨⟨by rw [a₁, hs₁], by rw [a₂, hs₂]⟩, ⟨by rw [b₁, ht₁], by rw [b₂, ht₂]⟩⟩
        · exact Or.inr h

/-- What an effect does to `m_currentSystem` and `m_lastJumpData`. -/
theorem applyEffect_location_fields (s : JournalMonitor) (e : LineEffect) :
    (∃ x ent, e = .location x ent ∧ x ≠ s.m_currentSystem ∧
        (applyEffect s e).m_currentSystem = x ∧ (applyEffect s e).m_lastJumpData = ent) ∨
      ((∀ x ent, e = .location x ent → x = s.m_currentSystem) ∧
        (applyEffect s e).m_currentSystem = s.m_currentSystem ∧
        (applyEffect s e).m_lastJumpData = s.m_lastJumpData) := by
  cases e with
  | nothing => exact Or.inr ⟨fun x ent h => LineEffect.noConfusion h, rfl, rfl⟩
  | identity n => exact Or.inr ⟨fun x ent h => LineEffect.noConfusion h, rfl, rfl⟩
  | location x ent =>
    by_cases hx : x = s.m_currentSystem
    · refine Or.inr ⟨fun y ent' h => ?_, ?_, ?_⟩
      · rw [← (LineEffect.location.inj h).1]
        exact hx
      · simp [applyEffect, hx]
      · simp [applyEffect, hx]
    · exact Or.inl ⟨x, ent, rfl, hx, by simp [applyEffect, hx], by simp [applyEffect, hx]⟩

/-- From two states with the same current system a run of effects either
leaves the location fields of both alone or sets them to the same values. -/
theorem foldl_applyEffect_location (E : List LineEffect) (s t : JournalMonitor)
    (h : s.m_currentSystem = t.m_currentSystem) :
    (((E.foldl applyEffect s).m_currentSystem = s.m_currentSystem ∧
        (E.foldl applyEffect s).m_lastJumpData = s.m_lastJumpData) ∧
      ((E.foldl applyEffect t).m_currentSystem = t.m_currentSystem ∧
        (E.foldl applyEffect t).m_lastJumpData = t.m_lastJumpData)) ∨
    ((E.foldl applyEffect s).m_currentSystem = (E.foldl applyEffect t).m_currentSystem ∧
      (E.foldl applyEffect s).m_lastJumpData = (E.foldl applyEffect t).m_lastJumpData) := by
  induction E generalizing s t with
  | nil => exact Or.inl ⟨⟨rfl, rfl⟩, ⟨rfl, rfl⟩⟩
  | cons e E ih =>
    simp only [List.foldl_cons]
    rcases applyEffect_location_fields s e with ⟨x, ent, he, hx, hs₁, hs₂⟩ | ⟨hsame, hs₁, hs₂⟩
    · rcases applyEffect_location_fields t e with ⟨y, ent', he', -, ht₁, ht₂⟩ | ⟨hsame, -, -⟩
      · have hxy := LineEffect.location.inj (he.symm.trans he')
        rw [← hxy.1] at ht₁
        rw [← hxy.2] at ht₂
        rcases ih (applyEffect s e) (applyEffect t e) (hs₁.trans ht₁.symm) with
          ⟨⟨a₁, a₂⟩, ⟨b₁, b₂⟩⟩ | h'
        · exact Or.inr ⟨by rw [a₁, b₁, hs₁, ht₁], by rw [a₂, b₂, hs₂, ht₂]⟩
        · exact Or.inr h'
      · exact absurd ((hsame x ent he).trans h.symm) hx
    · rcases applyEffect_location_fields t e with ⟨y, ent', he', hy, -, -⟩ | ⟨-, ht₁, ht₂⟩
      · exact absurd ((hsame y ent' he').trans h) hy
      · rcases ih (applyEffect s e) (applyEffect t e) (by rw [hs₁, ht₁, h]) with
          ⟨⟨a₁, a₂⟩, ⟨b₁, b₂⟩⟩ | h'
        · exact Or.inl ⟨⟨by rw [a₁, hs₁], by rw [a₂, hs₂]⟩, ⟨by rw [b₁, ht₁], by rw [b₂, ht₂]⟩⟩
        · exact Or.inr h'

/-- The location fields after a run of effects depend on the location fields
before it only. -/
theorem foldl_applyEffect_location_congr (E : List LineEffect) (s t : JournalMonitor)
    (h₁ : s.m_currentSystem = t.m_currentSystem) (h₂ : s.m_lastJumpData = t.m_lastJumpData) :
    (E.foldl applyEffect s).m_currentSystem = (E.foldl applyEffect t).m_currentSystem ∧
      (E.foldl applyEffect s).m_lastJumpData = (E.foldl applyEffect t).m_lastJumpData := by
  rcases foldl_applyEffect_location E s t h₁ with ⟨⟨a₁, a₂⟩, ⟨b₁, b₂⟩⟩ | h
  · exact ⟨by rw [a₁, b₁, h₁], by rw [a₂, b₂, h₂]⟩
  · exact h

/-- A second run of the same effects leaves the location fields as the first
run left them. -/
theorem foldl_applyEffect_location_replay (E : List LineEffect) (s : JournalMonitor) :
    (E.foldl applyEffect (E.foldl applyEffect s)).m_currentSystem =
        (E.foldl applyEffect s).m_currentSystem ∧
      (E.foldl applyEffect (E.foldl applyEffect s)).m_lastJumpData =
        (E.foldl applyEffect s).m_lastJumpData := by
  induction E generalizing s with
  | nil => exact ⟨rfl, rfl⟩
  | cons e E ih =>
    simp only [List.foldl_cons]
    generalize hs' : applyEffect s e = s'
    generalize hq : E.foldl applyEffect s' = q
    rcases applyEffect_location_fields q e with ⟨x, ent, he, hx, hq₁, hq₂⟩ | ⟨hsame, hq₁, hq₂⟩
    · have hs₁ : s'.m_currentSystem = x := by
        rw [← hs']
        rcases applyEffect_location_fields s e with ⟨y, ent', he', -, h₁, -⟩ | ⟨hsame, h₁, -⟩
        · rw [h₁]
          exact ((LineEffect.location.inj (he.symm.trans he')).1).symm
        · rw [h₁]
          exact (hsame x ent he).symm
      rcases foldl_applyEffect_location E s' (applyEffect q e) (hs₁.trans hq₁.symm) with
        ⟨⟨a₁, -⟩, -⟩ | h
      · rw [hq] at a₁
        exact absurd (a₁.trans hs₁).symm hx
      · rw [hq] at h
        exact ⟨h.1.symm, h.2.symm⟩
    · have hcongr := foldl_applyEffect_location_congr E (applyEffect q e) q hq₁ hq₂
      have hrep := ih s'
      rw [hq] at hrep
      exact ⟨hcongr.1.trans hrep.1, hcongr.2.trans hrep.2⟩

/-- What an effect does to `m_allDetectedCommanders`. -/
theorem applyEffect_known (s : JournalMonitor) (e : LineEffect) :
    (∃ n, e = .identity n ∧ n ∉ s.m_allDetectedCommanders ∧
        (applyEffect s e).m_allDetectedCommanders = s.m_allDetectedCommanders ++ [n]) ∨
      ((∀ n, e = .identity n → n ∈ s.m_allDetectedCommanders) ∧
        (applyEffect s e).m_allDetectedCommanders = s.m_allDetectedCommanders) := by
  cases e with
  | nothing => exact Or.inr ⟨fun n h => LineEffect.noConfusion h, rfl⟩
  | identity n =>
    by_cases hn : n ∈ s.m_allDetectedCommanders
    · refine Or.inr ⟨fun m h => ?_, by simp [applyEffect, hn]⟩
      rw [← LineEffect.identity.inj h]
      exact hn
    · exact Or.inl ⟨n, rfl, hn, by simp [applyEffect, hn]⟩
  | location x ent =>
    refine Or.inr ⟨fun n h => LineEffect.noConfusion h, ?_⟩
    simp only [applyEffect]
    split_ifs <;> rfl

/-- A known name stays known through a run of effects. -/
theorem foldl_applyEffect_known_mono (E : List LineEffect) (s : JournalMonitor) (n : String)
    (hn : n ∈ s.m_allDetectedCommanders) :
    n ∈ (E.foldl applyEffect s).m_allDetectedCommanders := by
  induction E generalizing s with
  | nil => exact hn
  | cons e E ih =>
    simp only [List.foldl_cons]
    apply ih
    rcases applyEffect_known s e with ⟨m, -, -, h⟩ | ⟨-, h⟩
    · rw [h]
      exact List.mem_append_left _ hn
    · rw [h]
      exact hn

/-- Every name of an identity effect of a run is known after the run. -/
theorem foldl_applyEffect_known_mem (E : List LineEffect) (s : JournalMonitor) (n : String)
    (hn : LineEffect.identity n ∈ E) :
    n ∈ (E.foldl applyEffect s).m_allDetectedCommanders := by
  induction E generalizing s with
  | nil => exact absurd hn (List.not_mem_nil _)
  | cons e E ih =>
    simp only [List.foldl_cons]
    rcases List.mem_cons.mp hn with h | h
    · apply foldl_applyEffect_known_mono
      rcases applyEffect_known s e with ⟨m, hm, -, hk⟩ | ⟨hall, hk⟩
      · rw [hk, ← LineEffect.identity.inj (h.trans hm)]
        exact List.mem_append_right _ (List.mem_singleton_self _)
      · rw [hk]
        exact hall n h.symm
    · exact ih _ h

/-- A run of effects whose names are all known leaves the list alone. -/
theorem foldl_applyEffect_known_fixed (E : List LineEffect) (s : JournalMonitor)
    (hall : ∀ n, LineEffect.identity n ∈ E → n ∈ s.m_allDetectedCommanders) :
    (E.foldl applyEffect s).m_allDetectedCommanders = s.m_allDetectedCommanders := by
  induction E generalizing s with
  | nil => rfl
  | cons e E ih =>
    simp only [List.foldl_cons]
    rcases applyEffect_known s e with ⟨m, hm, hnot, -⟩ | ⟨-, hk⟩
    · exact absurd (hall m (hm ▸ List.mem_cons_self _ _)) hnot
    · rw [ih, hk]
      intro n hn
      rw [hk]
      exact hall n (List.mem_cons_of_mem _ hn)

/-- A run of effects leaves the bookkeeping fields alone. -/
theorem foldl_applyEffect_bookkeeping (E : List LineEffect) (s : JournalMonitor) :
    SameBookkeeping s (E.foldl applyEffect s) := by
  induction E generalizing s with
  | nil => exact sameBookkeeping_refl s
  | cons e E ih => exact sameBookkeeping_trans (applyEffect_bookkeeping s e) (ih _)

/-- A second run of the same effects leaves the object as the first run left
it. -/
theorem foldl_applyEffect_replay (E : List LineEffect) (s : JournalMonitor) :
    E.foldl applyEffect (E.foldl applyEffect s) = E.foldl applyEffect s := by
  have hloc := foldl_applyEffect_location_replay E s
  have hknown := foldl_applyEffect_known_fixed E (E.foldl applyEffect s)
    (fun n hn => foldl_applyEffect_known_mem E s n hn)
  have hid : (E.foldl applyEffect (E.foldl applyEffect s)).m_commanderName =
        (E.foldl applyEffect s).m_commanderName ∧
      (E.foldl applyEffect (E.foldl applyEffect s)).m_actualJournalCommander =
        (E.foldl applyEffect s).m_actualJournalCommander := by
    rcases foldl_applyEffect_identity E s (E.foldl applyEffect s) with ⟨-, h⟩ | h
    · exact h
    · exact ⟨h.1.symm, h.2.symm⟩
  have hbook := foldl_applyEffect_bookkeeping E (E.foldl applyEffect s)
  generalize E.foldl applyEffect (E.foldl applyEffect s) = u at *
  generalize E.foldl applyEffect s = q at *
  obtain ⟨b₁, b₂, b₃, b₄, b₅, b₆, b₇, b₈, b₉⟩ := hbook
  cases u
  cases q
  simp only [JournalMonitor.mk.injEq]
  simp only [] at b₁ b₂ b₃ b₄ b₅ b₆ b₇ b₈ b₉ hloc hid hknown
  exact ⟨b₁, b₂, hid.1, hloc.1, hloc.2, b₄, b₃, hknown, b₅, b₆, hid.2, b₇, b₈, b₉⟩

/-- C26.  Replay stability without the forced filter: from every state whose
forced filter is inactive (`m_forcedCommanderEnabled` false or
`m_forcedCommanderName` empty) and for every list of journal lines, processing
the lines a second time from the state reached by the first pass leaves the
whole object, in particular `m_commanderName`, `m_actualJournalCommander`,
`m_allDetectedCommanders`, `m_currentSystem` and `m_lastJumpData`, exactly as
the first pass left it.  The same holds for two calls of `processJournalFile`
on the same file of an unchanged disk. -/
theorem replay_is_stable (fromJson : String → Option QJsonDocument) (s : JournalMonitor)
    (L : List String)
    (hfilter : s.m_forcedCommanderEnabled = false ∨ s.m_forcedCommanderName = "") :
    (processLines fromJson (processLines fromJson s L).1 L).1 = (processLines fromJson s L).1 ∧
      ∀ (fs : FileSystem) (filePath : String),
        (processJournalFile fs fromJson (processJournalFile fs fromJson s filePath).monitor
          filePath).monitor = (processJournalFile fs fromJson s filePath).monitor := by
  have hlines : ∀ lines : List String,
      (processLines fromJson (processLines fromJson s lines).1 lines).1 =
        (processLines fromJson s lines).1 := by
    intro lines
    have hb := processLines_bookkeeping fromJson lines s
    have hfilter' : FilterInactive (processLines fromJson s lines).1 := by
      unfold FilterInactive
      rw [hb.2.2.2.2.1, hb.2.2.2.2.2.1]
      exact hfilter
    rw [processLines_effects fromJson lines _ hfilter',
      processLines_effects fromJson lines s hfilter]
    exact foldl_applyEffect_replay _ s
  refine ⟨hlines L, fun fs filePath => ?_⟩
  unfold processJournalFile
  cases fs.contents filePath with
  | none => rfl
  | some content =>
    simp only []
    rw [(processLines_bookkeeping fromJson _ s).2.2.1]
    exact hlines _

set_option maxRecDepth 100000 in
/-- Witness of C26: a fresh monitor reads Alice, a jump to Sol, Bob, a jump to
Deciat and a jump to Sol.  The first pass ends with Bob at Sol; the second pass
ends in the same state, and it does emit signals again. -/
theorem replay_is_stable_witness :
    (monitorAtJ.m_forcedCommanderEnabled = false ∨ monitorAtJ.m_forcedCommanderName = "") ∧
      (processLines QJsonDocument.fromJson
        (processLines QJsonDocument.fromJson monitorAtJ linesAliceBobJumps).1
        linesAliceBobJumps).1 =
        (processLines QJsonDocument.fromJson monitorAtJ linesAliceBobJumps).1 ∧
      (processLines QJsonDocument.fromJson monitorAtJ linesAliceBobJumps).1 =
        { monitorAtJ with
          m_commanderName := "Bob", m_actualJournalCommander := "Bob"
          m_allDetectedCommanders := ["Alice", "Bob"]
          m_currentSystem := "Sol", m_lastJumpData := entryJumpSol } ∧
      (processLines QJsonDocument.fromJson
        (processLines QJsonDocument.fromJson monitorAtJ linesAliceBobJumps).1
        linesAliceBobJumps).2 ≠ [] :=
  ⟨Or.inl rfl,
    (replay_is_stable QJsonDocument.fromJson monitorAtJ linesAliceBobJumps (Or.inl rfl)).1,
    by decide, by decide⟩

set_option maxRecDepth 100000 in
/-- With the forced filter active a second pass may end elsewhere: Alice is
pinned, the lines are a jump to Sol followed by Alice's `Commander` line.  The
first pass drops the jump, the second pass accepts it. -/
theorem replay_under_active_filter :
    (processLines QJsonDocument.fromJson monitorPinnedAlice
        [lineJumpSol, lineCommanderAlice]).1.m_currentSystem = "" ∧
      (processLines QJsonDocument.fromJson
        (processLines QJsonDocument.fromJson monitorPinnedAlice
          [lineJumpSol, lineCommanderAlice]).1
        [lineJumpSol, lineCommanderAlice]).1.m_currentSystem = "Sol" := by
  decide

end EDRH
